import Mathlib

/-!
Image-correlation genetic algorithm (`ga_ex/ga.h`).

A shallow embedding of the class `correlationGA` and proofs about it.

Modelling conventions.

* `double` values are rationals (`ℚ`).  A division whose divisor is zero has no
  rational value; the embedding reports it as a fault (`none`).  The
  definitions of the class compute with exact rationals; where a property
  depends on the rounding of the arithmetic, the definitions whose names end in
  `D` repeat the source with every operation rounded to a `double` (IEEE 754
  binary64, round to nearest, ties to even, no wider intermediate precision).
* `std::vector` is `List`; `v[i]` with `i` outside `0 .. v.size()-1` is a fault
  (`none`).
* `unsigned short` coordinates are naturals, reduced `% 65536` where a wider
  value is stored into them.
* The OpenCV random generator, the images and the template matcher are external
  to the repository.  The generator is a stream of raw 32-bit outputs, the
  images are reduced to their dimensions, and the matcher is a function giving
  the minimum squared difference found at a location.
-/

namespace GA

/-! ## Data model -/

/-- The gene type `Gene_t`: a 2D point and its associated fitness. -/
structure Gene_t where
  x : Nat
  y : Nat
  fitness : ℚ
deriving DecidableEq

/-- The constant `GA_BAD_FITNESS`. -/
def GA_BAD_FITNESS : ℚ := 0

/-- The external `cv::Mat`, reduced to its dimensions. -/
structure Mat where
  cols : Int
  rows : Int
deriving DecidableEq

/-- The external `cv::RNG`: `raw k` is the k-th raw output, `pos` the number of
outputs consumed so far. -/
structure RNG where
  raw : Nat → Nat
  pos : Nat

/-- The call `random(N)` on an `unsigned` argument: a value below `N`, and the
generator after the draw.  The argument is converted to `unsigned` first. -/
def RNG.random (r : RNG) (N : Int) : Nat × RNG :=
  let n := (N % 4294967296).toNat
  if n = 0 then (0, r) else (r.raw r.pos % 4294967296 % n, ⟨r.raw, r.pos + 1⟩)

/-- The class `correlationGA`: its data members, and the external matcher
`minSqDiff x y` standing for `matchTemplate` followed by `minMaxLoc` on the
region of `image` at `(x, y)`. -/
structure correlationGA where
  crossoverCount : Int
  mutationCount : Int
  random : RNG
  population : List Gene_t
  populationSize : Int
  image : Mat
  correlation_template : Mat
  minSqDiff : Nat → Nat → ℚ

/-! ## Control structure -/

/-- The loop `for (i = start; i < start + count; i++) body`, threading a state
through a body that may fault. -/
def forLoopFrom {σ : Type} (body : Nat → σ → Option σ) : Nat → Nat → σ → Option σ
  | _, 0, s => some s
  | i, k + 1, s => (body i s).bind (forLoopFrom body (i + 1) k)

/-- The loop `for (int i = 0; i < n; i++) body` for an `int` bound `n`. -/
def forLoop {σ : Type} (n : Int) (body : Nat → σ → Option σ) (init : σ) : Option σ :=
  forLoopFrom body 0 n.toNat init

/-! ## Fitness, crossover, mutation -/

/-- The member function `fitness`: the four range checks, then the reciprocal of
the matcher's minimum squared difference. -/
def fitness (ga : correlationGA) (gene : Gene_t) : Option ℚ :=
  if (gene.x : Int) < 0 ∨ (gene.x : Int) ≥ ga.image.cols then some GA_BAD_FITNESS
  else if (gene.y : Int) < 0 ∨ (gene.y : Int) ≥ ga.image.rows then some GA_BAD_FITNESS
  else if (gene.x : Int) + ga.correlation_template.cols ≥ ga.image.cols then
    some GA_BAD_FITNESS
  else if (gene.y : Int) + ga.correlation_template.rows ≥ ga.image.rows then
    some GA_BAD_FITNESS
  else
    let minVal := ga.minSqDiff gene.x gene.y
    if minVal = 0 then none else some (1 / minVal)

/-- The member function `crossover`. -/
def crossover (A B : Gene_t) : Gene_t :=
  ⟨A.x, B.y, 0⟩

/-- The value of `sizeof(unsigned short)`. -/
def sizeofUnsignedShort : Nat := 2

/-- Construction of a `std::bitset<N>` from an integer: the low `N` bits. -/
def bitsetOfNat (N v : Nat) : Nat := v % 2 ^ N

/-- The call `bits.flip(pos)` on a `std::bitset<N>`; a position outside the
bitset throws. -/
def bitsetFlip (N bits pos : Nat) : Option Nat :=
  if pos < N then some (bits ^^^ 2 ^ pos) else none

/-- The member function `mutation`, returning the mutated gene and the
generator after its two draws. -/
def mutation (A : Gene_t) (r : RNG) : Option (Gene_t × RNG) :=
  let (xy, r1) := r.random 2
  let (pos, r2) := r1.random (sizeofUnsignedShort : Nat)
  if xy = 0 then
    (bitsetFlip sizeofUnsignedShort (bitsetOfNat sizeofUnsignedShort A.x) pos).map
      fun bits => (⟨bits % 65536, A.y, A.fitness⟩, r2)
  else
    (bitsetFlip sizeofUnsignedShort (bitsetOfNat sizeofUnsignedShort A.y) pos).map
      fun bits => (⟨A.x, bits % 65536, A.fitness⟩, r2)

/-! ## Construction -/

/-- The constructor `correlationGA::correlationGA`; `seed` is the generator that
`RNG(getCPUTickCount())` yields. -/
def construct (popSize : Int) (crossover mutation : ℚ) (img roi : Mat)
    (minSqDiff : Nat → Nat → ℚ) (seed : RNG) : Option correlationGA :=
  let ga0 : correlationGA :=
    ⟨Int.floor ((popSize : ℚ) * crossover), Int.floor ((popSize : ℚ) * mutation), seed, [],
      popSize, img, roi, minSqDiff⟩
  forLoop popSize
    (fun _ ga =>
      let (x, r1) := ga.random.random img.cols
      let (y, r2) := r1.random img.rows
      let tmp : Gene_t := ⟨x % 65536, y % 65536, 0⟩
      (fitness ga tmp).map fun f =>
        ⟨ga.crossoverCount, ga.mutationCount, r2, ga.population ++ [⟨tmp.x, tmp.y, f⟩],
          ga.populationSize, ga.image, ga.correlation_template, ga.minSqDiff⟩)
    ga0

/-! ## One generation -/

/-- The loop computing `sumFitness`. -/
def sumFitness (ga : correlationGA) : Option ℚ :=
  forLoop ga.populationSize
    (fun i acc => (ga.population[i]?).map fun g => acc + g.fitness) 0

/-- The inner loop `while (fitness_prop_i > 0) { push_back; fitness_prop_i -= 1.0; }`. -/
def insertWhile (g : Gene_t) (fitness_prop_i : ℚ) (selection_list : List Gene_t) :
    List Gene_t :=
  if 0 < fitness_prop_i then insertWhile g (fitness_prop_i - 1) (selection_list ++ [g])
  else selection_list
termination_by (Int.ceil fitness_prop_i).toNat
decreasing_by
  have h1 : Int.ceil (fitness_prop_i - 1) = Int.ceil fitness_prop_i - 1 := Int.ceil_sub_one _
  have h2 : 0 < Int.ceil fitness_prop_i := Int.ceil_pos.mpr (by assumption)
  omega

/-- The first two loops of `createNextGeneration`: the selection list. -/
def selectionList (ga : correlationGA) : Option (List Gene_t) :=
  (sumFitness ga).bind fun sum =>
    forLoop ga.populationSize
      (fun i selection_list =>
        (ga.population[i]?).bind fun g =>
          if sum = 0 then none
          else some (insertWhile g (g.fitness / sum * 100) selection_list))
      []

/-- The third loop of `createNextGeneration`: draw `populationSize` genes from
the selection list. -/
def selectNext (ga : correlationGA) (selection_list : List Gene_t) :
    Option (List Gene_t × RNG) :=
  forLoop ga.populationSize
    (fun _ st =>
      let (k, r) := st.2.random (selection_list.length : Nat)
      (selection_list[k]?).map fun g => (st.1 ++ [g], r))
    ([], ga.random)

/-- The body of the cross-over loop once `first` and `second` are drawn. -/
def crossoverStep (ga : correlationGA) (first second : Nat) (next_population : List Gene_t) :
    Option (List Gene_t) :=
  (next_population[first]?).bind fun pf =>
  (next_population[second]?).bind fun ps =>
  (fitness ga (crossover pf ps)).bind fun f1 =>
  (fitness ga (crossover ps pf)).bind fun f2 =>
    let firstOffspring : Gene_t := ⟨(crossover pf ps).x, (crossover pf ps).y, f1⟩
    let secondOffspring : Gene_t := ⟨(crossover ps pf).x, (crossover ps pf).y, f2⟩
    let np1 :=
      if firstOffspring.fitness > pf.fitness then next_population.set first firstOffspring
      else next_population
    (np1[second]?).map fun cur =>
      if secondOffspring.fitness > cur.fitness then np1.set second secondOffspring else np1

/-- The cross-over loop of `createNextGeneration`. -/
def crossoverLoop (ga : correlationGA) (st : List Gene_t × RNG) : Option (List Gene_t × RNG) :=
  forLoop ga.crossoverCount
    (fun _ st =>
      let (first, r1) := st.2.random ga.populationSize
      let (second, r2) := r1.random ga.populationSize
      (crossoverStep ga first second st.1).map fun np => (np, r2))
    st

/-- The body of the mutation loop once `mutated` is drawn. -/
def mutationStep (ga : correlationGA) (mutated : Nat) (st : List Gene_t × RNG) :
    Option (List Gene_t × RNG) :=
  (st.1[mutated]?).bind fun g =>
  (mutation g st.2).bind fun m =>
  (fitness ga m.1).map fun f =>
    (st.1.set mutated ⟨m.1.x, m.1.y, f⟩, m.2)

/-- The mutation loop of `createNextGeneration`. -/
def mutationLoop (ga : correlationGA) (st : List Gene_t × RNG) : Option (List Gene_t × RNG) :=
  forLoop ga.mutationCount
    (fun _ st =>
      let (mutated, r1) := st.2.random ga.populationSize
      mutationStep ga mutated (st.1, r1))
    st

/-- The member function `createNextGeneration`. -/
def createNextGeneration (ga : correlationGA) : Option correlationGA :=
  (selectionList ga).bind fun selection_list =>
  (selectNext ga selection_list).bind fun st0 =>
  (crossoverLoop ga st0).bind fun st1 =>
  (mutationLoop ga st1).map fun st2 =>
    ⟨ga.crossoverCount, ga.mutationCount, st2.2, st2.1, ga.populationSize, ga.image,
      ga.correlation_template, ga.minSqDiff⟩

/-! ## Best gene -/

/-- The member function `returnMaximal`.  The local `maxG` is declared without
an initialiser; `uninit` is whatever its `x` and `y` hold before the loop. -/
def returnMaximal (ga : correlationGA) (uninit : Gene_t) : Option Gene_t :=
  forLoop ga.populationSize
    (fun i maxG =>
      (ga.population[i]?).map fun g => if g.fitness > maxG.fitness then g else maxG)
    ⟨uninit.x, uninit.y, GA_BAD_FITNESS⟩

/-! ## Conditions on a state -/

/-- The size invariant of the class: `populationSize` is the number of genes
held in `population`. -/
def SizeInvariant (ga : correlationGA) : Prop :=
  ga.population.length = ga.populationSize.toNat

/-- No location of the image matches the template perfectly: the matcher's
minimum squared difference is never zero. -/
def NoPerfectMatch (ga : correlationGA) : Prop :=
  ∀ x y, ga.minSqDiff x y ≠ 0

/-- The step of the loop of `returnMaximal`. -/
def maxStep (maxG g : Gene_t) : Gene_t :=
  if g.fitness > maxG.fitness then g else maxG

/-- A state for examples: a 100 x 80 image, a 10 x 10 template, a matcher that
finds squared difference `x + y + 1` at `(x, y)`, and a generator whose k-th
raw output is `7 * k + 3`. -/
def exampleGA (population : List Gene_t) (crossoverCount mutationCount : Int) :
    correlationGA :=
  ⟨crossoverCount, mutationCount, ⟨fun k => 7 * k + 3, 0⟩, population, population.length,
    ⟨100, 80⟩, ⟨10, 10⟩, fun x y => (x : ℚ) + (y : ℚ) + 1⟩

/-- The cached-fitness condition on a state: every gene of the population
carries the value that `fitness` computes for its coordinates. -/
def CachedFitness (ga : correlationGA) : Prop :=
  ∀ g ∈ ga.population, fitness ga g = some g.fitness

/-- The external `cv::Rect`. -/
structure Rect where
  x : Int
  y : Int
  width : Int
  height : Int
deriving DecidableEq

/-- The member function `fitness` once more, returning next to its result the
rectangles on which it invokes the external `matchTemplate`. -/
def fitnessTraced (ga : correlationGA) (gene : Gene_t) : Option ℚ × List Rect :=
  if (gene.x : Int) < 0 ∨ (gene.x : Int) ≥ ga.image.cols then (some GA_BAD_FITNESS, [])
  else if (gene.y : Int) < 0 ∨ (gene.y : Int) ≥ ga.image.rows then (some GA_BAD_FITNESS, [])
  else if (gene.x : Int) + ga.correlation_template.cols ≥ ga.image.cols then
    (some GA_BAD_FITNESS, [])
  else if (gene.y : Int) + ga.correlation_template.rows ≥ ga.image.rows then
    (some GA_BAD_FITNESS, [])
  else
    let matched : Rect :=
      ⟨gene.x, gene.y, ga.correlation_template.cols, ga.correlation_template.rows⟩
    let minVal := ga.minSqDiff gene.x gene.y
    (if minVal = 0 then none else some (1 / minVal), [matched])

/-! ## Double arithmetic -/

/-- Rounding of a rational to an integer, to nearest, ties to even. -/
def roundHalfEven (q : ℚ) : Int :=
  if q - (Int.floor q : ℚ) < 1 / 2 then Int.floor q
  else if 1 / 2 < q - (Int.floor q : ℚ) then Int.floor q + 1
  else if Int.floor q % 2 = 0 then Int.floor q else Int.floor q + 1

/-- The binary exponent that fixes the spacing of the `double` values around a
positive rational: its own exponent, and the exponent -1022 of the smallest
normal `double` below that (the subnormal range). -/
def binade (q : ℚ) : Int := max (Int.log 2 q) (-1022)

/-- Rounding the exact result of an operation to a `double` (IEEE 754 binary64,
round to nearest, ties to even): the significand has 53 bits, so the spacing in
the binade of exponent `e` is `2 ^ (e - 52)`.  The result is not bounded above
here; see `toDouble`. -/
def roundDouble (q : ℚ) : ℚ :=
  if q = 0 then 0
  else if 0 < q then
    (roundHalfEven (q / 2 ^ (binade q - 52)) : ℚ) * 2 ^ (binade q - 52)
  else
    -((roundHalfEven (-q / 2 ^ (binade (-q) - 52)) : ℚ) * 2 ^ (binade (-q) - 52))

/-- The `double` that an operation with exact result `q` delivers, when it is
finite; a result that rounds to magnitude `2 ^ 1024` or more is an infinity,
which is reported as `none`. -/
def toDouble (q : ℚ) : Option ℚ :=
  if |roundDouble q| < 2 ^ 1024 then some (roundDouble q) else none

/-- The values on the grid of `double`: a significand below `2 ^ 53` times a
power of two not below the subnormal spacing `2 ^ (-1074)`. -/
def Representable (x : ℚ) : Prop :=
  ∃ m k : Int, |m| < 2 ^ 53 ∧ -1074 ≤ k ∧ x = (m : ℚ) * 2 ^ k

/-- The conversion `(int) d` of an integral `double`: undefined, reported as
`none`, when the value is outside the range of `int`. -/
def toInt32 (z : Int) : Option Int :=
  if -2147483648 ≤ z ∧ z ≤ 2147483647 then some z else none

/-! ## The class in `double` arithmetic

The definitions above compute with exact rationals.  The definitions of this
section repeat the arithmetic of the source operation by operation, every
result rounded to a `double`; an infinite result is reported as `none`. -/

/-- The member function `fitness` in `double` arithmetic: `1.0 / minVal` is
rounded.  A perfect match divides by zero; that and a quotient that overflows
are infinities, reported as `none`. -/
def fitnessD (ga : correlationGA) (gene : Gene_t) : Option ℚ :=
  if (gene.x : Int) < 0 ∨ (gene.x : Int) ≥ ga.image.cols then some GA_BAD_FITNESS
  else if (gene.y : Int) < 0 ∨ (gene.y : Int) ≥ ga.image.rows then some GA_BAD_FITNESS
  else if (gene.x : Int) + ga.correlation_template.cols ≥ ga.image.cols then
    some GA_BAD_FITNESS
  else if (gene.y : Int) + ga.correlation_template.rows ≥ ga.image.rows then
    some GA_BAD_FITNESS
  else
    let minVal := ga.minSqDiff gene.x gene.y
    if minVal = 0 then none else toDouble (1 / minVal)

/-- The body of the constructor's loop: one random gene, evaluated and appended. -/
def constructStepD (img : Mat) (ga : correlationGA) : Option correlationGA :=
  let (x, r1) := ga.random.random img.cols
  let (y, r2) := r1.random img.rows
  let tmp : Gene_t := ⟨x % 65536, y % 65536, 0⟩
  (fitnessD ga tmp).map fun f =>
    ⟨ga.crossoverCount, ga.mutationCount, r2, ga.population ++ [⟨tmp.x, tmp.y, f⟩],
      ga.populationSize, ga.image, ga.correlation_template, ga.minSqDiff⟩

/-- The constructor in `double` arithmetic: `populationSize * crossover` is a
rounded product of the `int`, whose conversion to `double` is exact, and the
rate; `floor` of it is exact; and the conversion `(int)` is defined only within
the range of `int`. -/
def constructD (popSize : Int) (crossover mutation : ℚ) (img roi : Mat)
    (minSqDiff : Nat → Nat → ℚ) (seed : RNG) : Option correlationGA :=
  (toDouble ((popSize : ℚ) * crossover)).bind fun pc =>
    (toInt32 (Int.floor pc)).bind fun crossoverCount =>
      (toDouble ((popSize : ℚ) * mutation)).bind fun pm =>
        (toInt32 (Int.floor pm)).bind fun mutationCount =>
          forLoop popSize (fun _ ga => constructStepD img ga)
            ⟨crossoverCount, mutationCount, seed, [], popSize, img, roi, minSqDiff⟩

/-- The rate that `main` of `ga_interface.cpp` passes to the constructor for a
slider value: the rounded product of the `double` nearest to 0.01 and the
converted `int`. -/
def sliderRateD (value : Int) : ℚ := roundDouble (roundDouble (1 / 100) * (value : ℚ))

/-- The loop computing `sumFitness`, every addition rounded. -/
def sumFitnessD (ga : correlationGA) : Option ℚ :=
  forLoop ga.populationSize
    (fun i acc => (ga.population[i]?).bind fun g => toDouble (acc + g.fitness)) 0

/-- The value `(population[i].fitness / sumFitness) * 100`: a rounded division
followed by a rounded multiplication.  With `sumFitness = 0` the quotient is an
infinity or a NaN, reported as `none`. -/
def shareD (fitness sumFitness : ℚ) : Option ℚ :=
  if sumFitness = 0 then none
  else (toDouble (fitness / sumFitness)).bind fun r => toDouble (r * 100)

/-- The inner loop `while (fitness_prop_i > 0) { push_back; fitness_prop_i -= 1.0; }`
with a rounded subtraction.  The loop need not end (the subtraction leaves a
value of `2 ^ 54` or more unchanged); `fuel` bounds the number of tests of the
loop condition, and the result is `none` when it is used up. -/
def insertWhileD : Nat → Gene_t → ℚ → List Gene_t → Option (List Gene_t)
  | 0, _, _, _ => none
  | fuel + 1, g, fitness_prop_i, selection_list =>
    if 0 < fitness_prop_i then
      (toDouble (fitness_prop_i - 1)).bind fun p =>
        insertWhileD fuel g p (selection_list ++ [g])
    else some selection_list

/-- The first two loops of `createNextGeneration` in `double` arithmetic: the
selection list. -/
def selectionListD (fuel : Nat) (ga : correlationGA) : Option (List Gene_t) :=
  (sumFitnessD ga).bind fun sum =>
    forLoop ga.populationSize
      (fun i selection_list =>
        (ga.population[i]?).bind fun g =>
          (shareD g.fitness sum).bind fun fitness_prop_i =>
            insertWhileD fuel g fitness_prop_i selection_list)
      []

/-- The value of `shareD` when both of its operations are finite. -/
def shareValue (fitness sumFitness : ℚ) : ℚ :=
  roundDouble (roundDouble (fitness / sumFitness) * 100)

/-- No location of the image matches the template perfectly, and the reciprocal
of every minimum squared difference is a finite `double`. -/
def FiniteFitness (minSqDiff : Nat → Nat → ℚ) : Prop :=
  ∀ x y, minSqDiff x y ≠ 0 ∧ |roundDouble (1 / minSqDiff x y)| < 2 ^ 1024

end GA

/-! ## The line selector (`tools/selectlines.cc`) -/

namespace SelectLines

/-- The constant `LINELENGTHMAX`. -/
def LINELENGTHMAX : Nat := 5000

/-- The characters that a white-space directive of `fscanf` skips. -/
def isSpace (c : Char) : Bool :=
  c.toNat = 32 || (9 ≤ c.toNat && c.toNat ≤ 13)

/-- One call `fscanf(fi, "%[^\n]\n", line)` on the unread characters of the
input: the text stored into `line` (`none` when nothing is stored and the buffer
stays as allocated), the characters left unread, and whether the end-of-file
indicator is set.  A text that does not fit the buffer is a fault. -/
def fscanfLine (rest : List Char) : Option (Option (List Char) × List Char × Bool) :=
  let line := rest.takeWhile fun c => c.toNat ≠ 10
  let after := rest.dropWhile fun c => c.toNat ≠ 10
  if line = [] then some (none, rest, rest.isEmpty)
  else if LINELENGTHMAX < line.length + 1 then none
  else some (some line, after.dropWhile isSpace, (after.dropWhile isSpace).isEmpty)

/-- The loop `while (!feof(fi)) { ... inputlines.push_back(line); }`, run for at
most `fuel` tests of its condition; `none` when a call faults or the fuel does
not suffice. -/
def readLoop : Nat → List Char → Bool → List (Option (List Char)) →
    Option (List (Option (List Char)))
  | 0, _, _, _ => none
  | fuel + 1, rest, eof, inputlines =>
    if eof then some inputlines
    else
      (fscanfLine rest).bind fun r => readLoop fuel r.2.1 r.2.2 (inputlines ++ [r.1])

/-- The output loop over `inputlines`, with the counter `lineN`; the result is
the list of lines written. -/
def writeLoop (minL maxL : Int) : List (Option (List Char)) → Int →
    List (Option (List Char)) → List (Option (List Char))
  | [], _, written => written
  | outline :: more, lineN, written =>
    writeLoop minL maxL more (lineN + 1)
      (if lineN ≥ minL ∧ lineN ≤ maxL then written ++ [outline] else written)

/-- The function `main` when four arguments are given and both files open, for
the values `arg1 = atoi(argv[1])`, `arg2 = atoi(argv[2])` and the content of the
input file; the result is the list of lines written to the output file. -/
def main (arg1 arg2 : Int) (input : List Char) : Option (List (Option (List Char))) :=
  let minL := min arg1 arg2
  let maxL := max arg1 arg2
  (readLoop (input.length + 2) input false []).map fun inputlines =>
    writeLoop minL maxL inputlines 0 []

end SelectLines

/-! ## The optical digits examples (`opticaldigits_ex`) -/

namespace OpticalDigits

/-- The external `cv::Mat` with one channel: its size and its elements.  An
access outside the matrix is a fault. -/
structure Mat (α : Type) where
  rows : Nat
  cols : Nat
  elems : Nat → Nat → α

/-- The constructor `Mat(rows, cols, type)`, which allocates without
initialising: `uninit` is whatever the allocated memory holds. -/
def Mat.create {α : Type} (rows cols : Nat) (uninit : Nat → Nat → α) : Mat α :=
  ⟨rows, cols, uninit⟩

/-- The call `Mat::zeros(rows, cols, type)`. -/
def Mat.zeros (rows cols : Nat) : Mat ℚ :=
  ⟨rows, cols, fun _ _ => 0⟩

/-- Reading `m.at<T>(r, c)`. -/
def Mat.read {α : Type} (m : Mat α) (r c : Nat) : Option α :=
  if r < m.rows ∧ c < m.cols then some (m.elems r c) else none

/-- The assignment `m.at<T>(r, c) = v`. -/
def Mat.write {α : Type} (m : Mat α) (r c : Nat) (v : α) : Option (Mat α) :=
  if r < m.rows ∧ c < m.cols then
    some ⟨m.rows, m.cols, fun r' c' => if r' = r ∧ c' = c then v else m.elems r' c'⟩
  else none

/-- The cast `(int) f` of a `float`: truncation toward zero. -/
def toInt (f : ℚ) : Int :=
  if 0 ≤ f then Int.floor f else Int.ceil f

/-- The constant `ATTRIBUTES_PER_SAMPLE`. -/
def ATTRIBUTES_PER_SAMPLE : Nat := 64

/-- The constant `NUMBER_OF_CLASSES`. -/
def NUMBER_OF_CLASSES : Nat := 10

/-- The constant `NUMBER_OF_TRAINING_SAMPLES`. -/
def NUMBER_OF_TRAINING_SAMPLES : Nat := 3823

/-- The constant `NUMBER_OF_TESTING_SAMPLES`. -/
def NUMBER_OF_TESTING_SAMPLES : Nat := 1797

/-- The constant `INT_MIN` of a 32-bit `int`. -/
def INT_MIN : Int := -2147483648

end OpticalDigits

namespace OpticalDigits.BoostTree

/-- The matrices `new_data` and `new_responses` of `main`. -/
structure Unrolled where
  new_data : Mat ℚ
  new_responses : Mat Int

/-- The body of the loop over `j` in the unrolling of `main`, for sample `i`. -/
def unrollRow (training_data training_classifications : Mat ℚ) (i j : Nat) (st : Unrolled) :
    Option Unrolled :=
  (GA.forLoopFrom
    (fun k nd => (training_data.read i k).bind fun v =>
      nd.write (i * NUMBER_OF_CLASSES + j) k v)
    0 ATTRIBUTES_PER_SAMPLE st.new_data).bind fun nd =>
  (nd.write (i * NUMBER_OF_CLASSES + j) ATTRIBUTES_PER_SAMPLE (j : ℚ)).bind fun nd1 =>
  (training_classifications.read i 0).bind fun label =>
  (st.new_responses.write (i * NUMBER_OF_CLASSES + j) 0
    (if toInt label = (j : Int) then 1 else 0)).map fun nr => ⟨nd1, nr⟩

/-- The unrolling loops of `main` (step 1), on the loaded training matrices and
the freshly constructed `new_data` and `new_responses`. -/
def unroll (training_data training_classifications : Mat ℚ) (st : Unrolled) : Option Unrolled :=
  GA.forLoopFrom
    (fun i st => GA.forLoopFrom
      (fun j st => unrollRow training_data training_classifications i j st)
      0 NUMBER_OF_CLASSES st)
    0 NUMBER_OF_TRAINING_SAMPLES st

/-- The unrolling as `main` runs it: `trainData` and `trainLabels` are the
contents of the loaded training matrices, `u1` and `u2` what the memory of
`new_data` and `new_responses` holds when they are constructed. -/
def mainUnroll (trainData trainLabels : Nat → Nat → ℚ) (u1 : Nat → Nat → ℚ)
    (u2 : Nat → Nat → Int) : Option Unrolled :=
  unroll ⟨NUMBER_OF_TRAINING_SAMPLES, ATTRIBUTES_PER_SAMPLE, trainData⟩
    ⟨NUMBER_OF_TRAINING_SAMPLES, 1, trainLabels⟩
    ⟨Mat.create (NUMBER_OF_TRAINING_SAMPLES * NUMBER_OF_CLASSES) (ATTRIBUTES_PER_SAMPLE + 1) u1,
      Mat.create (NUMBER_OF_TRAINING_SAMPLES * NUMBER_OF_CLASSES) 1 u2⟩

/-- Row `r` of the unrolled matrices holds what the unrolling prescribes for
sample `r / 10` and class `r % 10`: the 64 attributes of the sample, the class as
additional attribute, and the binary response. -/
def RowUnrolled (td tc : Mat ℚ) (st : Unrolled) (r : Nat) : Prop :=
  (∀ k, k < 64 → st.new_data.elems r k = td.elems (r / 10) k) ∧
  st.new_data.elems r 64 = ((r % 10 : Nat) : ℚ) ∧
  st.new_responses.elems r 0 =
    if toInt (tc.elems (r / 10) 0) = ((r % 10 : Nat) : Int) then 1 else 0

/-- The unrolled matrices have `total` rows and their rows below `upTo` are
unrolled. -/
def UnrolledUpTo (td tc : Mat ℚ) (total upTo : Nat) (st : Unrolled) : Prop :=
  st.new_data.rows = total ∧ st.new_data.cols = 65 ∧
  st.new_responses.rows = total ∧ st.new_responses.cols = 1 ∧
  ∀ r, r < upTo → RowUnrolled td tc st r

/-- The loop over the classes `c` in the testing part of `main`, for one test
sample: `responseSum c` is the sum of the weak responses that the external
`predict` gives with the additional attribute set to `c`, and `best_class` the
value the variable holds when the loop starts.  The result is `(max_sum,
best_class)` after the loop. -/
def classLoop (responseSum : Nat → ℚ) (best_class : Nat) : Option (ℚ × Nat) :=
  GA.forLoopFrom
    (fun c st => some (if responseSum c > st.1 then (responseSum c, c) else st))
    0 NUMBER_OF_CLASSES ((INT_MIN : ℚ), best_class)

end OpticalDigits.BoostTree

namespace OpticalDigits.NeuralNetwork

/-- The function `read_data_from_csv` of `neuralnetwork.cpp` when the file
opens: `file line k` is the value that the call of `fscanf` for the
k-th value of that line stores in `tmp` (the loop variable `attribute` is `attr`
here).  The result is `(data, classes)`. -/
def read_data_from_csv (file : Nat → Nat → ℚ) (data classes : Mat ℚ) (n_samples : Nat) :
    Option (Mat ℚ × Mat ℚ) :=
  GA.forLoopFrom
    (fun line st => GA.forLoopFrom
      (fun attr st =>
        if attr < 64 then
          (st.1.write line attr (file line attr)).map fun d => (d, st.2)
        else if attr = 64 then
          if toInt (file line attr) < 0 then none
          else (st.2.write line (toInt (file line attr)).toNat 1).map fun c => (st.1, c)
        else some st)
      0 (ATTRIBUTES_PER_SAMPLE + 1) st)
    0 n_samples (data, classes)

/-- The loading of the training set in `main`: `training_data` and
`training_classifications` are constructed without initialisation, then filled
by `read_data_from_csv`. -/
def loadTraining (file : Nat → Nat → ℚ) (u1 u2 : Nat → Nat → ℚ) : Option (Mat ℚ × Mat ℚ) :=
  read_data_from_csv file (Mat.create NUMBER_OF_TRAINING_SAMPLES ATTRIBUTES_PER_SAMPLE u1)
    (Mat.create NUMBER_OF_TRAINING_SAMPLES NUMBER_OF_CLASSES u2) NUMBER_OF_TRAINING_SAMPLES

/-- The loading of the testing set in `main`: `testing_classifications` is
constructed by `Mat::zeros`. -/
def loadTesting (file : Nat → Nat → ℚ) (u1 : Nat → Nat → ℚ) : Option (Mat ℚ × Mat ℚ) :=
  read_data_from_csv file (Mat.create NUMBER_OF_TESTING_SAMPLES ATTRIBUTES_PER_SAMPLE u1)
    (Mat.zeros NUMBER_OF_TESTING_SAMPLES NUMBER_OF_CLASSES) NUMBER_OF_TESTING_SAMPLES

end OpticalDigits.NeuralNetwork

/-! ## The string hash of the decision tree example (`dt_example1`) -/

namespace DecisionTree

/-- The value of a 32-bit `int` after an operation whose exact result is `z`,
with wrap-around. -/
def wrapInt32 (z : Int) : Int :=
  (z + 2147483648) % 4294967296 - 2147483648

/-- The loop body `hash = ((hash << 5) + hash) + c`. -/
def hashStep (hash c : Int) : Int :=
  wrapInt32 (wrapInt32 (wrapInt32 (hash * 2 ^ 5) + hash) + c)

/-- The loop `while ((c = (*str++))) ...` over the characters of `str`, which
stops at the first character 0. -/
def hashLoop : List Int → Int → Int
  | [], hash => hash
  | c :: str, hash => if c = 0 then hash else hashLoop str (hashStep hash c)

/-- The function `hash`, on the characters of a C string. -/
def hash (str : List Int) : Int :=
  hashLoop str 5381

end DecisionTree

namespace GA

/-! ## Loops -/

theorem forLoopFrom_index {σ α : Type} (l : List α) (f : σ → α → σ)
    (body : Nat → σ → Option σ) (hbody : ∀ j s, j < l.length → body j s = (l[j]?).map (f s))
    (k i : Nat) (s : σ) (h : i + k ≤ l.length) :
    forLoopFrom body i k s = some (((l.drop i).take k).foldl f s) := by
  induction k generalizing i s with
  | zero => simp [forLoopFrom]
  | succ k ih =>
    have hi : i < l.length := by omega
    rw [forLoopFrom, hbody i s hi, List.getElem?_eq_getElem hi]
    simp only [Option.map_some', Option.some_bind]
    rw [ih (i + 1) _ (by omega), List.drop_eq_getElem_cons hi, List.take_succ_cons,
      List.foldl_cons]

theorem forLoop_index {σ α : Type} (l : List α) (f : σ → α → σ) (n : Int)
    (body : Nat → σ → Option σ) (hbody : ∀ j s, j < l.length → body j s = (l[j]?).map (f s))
    (s : σ) (h : l.length = n.toNat) :
    forLoop n body s = some (l.foldl f s) := by
  rw [forLoop, forLoopFrom_index l f body hbody n.toNat 0 s (by omega)]
  simp [← h]

theorem forLoopFrom_total {σ : Type} (P : Nat → σ → Prop) (body : Nat → σ → Option σ)
    (hstep : ∀ j s, P j s → ∃ t, body j s = some t ∧ P (j + 1) t)
    (k i : Nat) (s : σ) (h : P i s) :
    ∃ t, forLoopFrom body i k s = some t ∧ P (i + k) t := by
  induction k generalizing i s with
  | zero => exact ⟨s, rfl, h⟩
  | succ k ih =>
    obtain ⟨t, ht, hP⟩ := hstep i s h
    obtain ⟨u, hu, hQ⟩ := ih (i + 1) t hP
    refine ⟨u, ?_, ?_⟩
    · rw [forLoopFrom, ht]; exact hu
    · have : i + (k + 1) = i + 1 + k := by omega
      rw [this]; exact hQ

theorem forLoopFrom_completed {σ : Type} (P : Nat → σ → Prop) (body : Nat → σ → Option σ)
    (hstep : ∀ j s t, P j s → body j s = some t → P (j + 1) t)
    (k i : Nat) (s t : σ) (h : P i s) (hrun : forLoopFrom body i k s = some t) :
    P (i + k) t := by
  induction k generalizing i s with
  | zero =>
    simp only [forLoopFrom, Option.some.injEq] at hrun
    subst hrun; exact h
  | succ k ih =>
    rw [forLoopFrom] at hrun
    cases hb : body i s with
    | none => rw [hb] at hrun; simp at hrun
    | some u =>
      rw [hb] at hrun
      have : i + (k + 1) = i + 1 + k := by omega
      rw [this]
      exact ih (i + 1) u (hstep i s u h hb) hrun

/-! ## Range of `random` -/

theorem random_lt (r : RNG) (N : Int) (h : 0 < N) : ((r.random N).1 : Int) < N := by
  unfold RNG.random
  by_cases hn : (N % 4294967296).toNat = 0
  · simp only [hn, if_true]
    simpa using h
  · simp only [hn, if_false]
    have h1 : r.raw r.pos % 4294967296 % (N % 4294967296).toNat < (N % 4294967296).toNat :=
      Nat.mod_lt _ (Nat.pos_of_ne_zero hn)
    omega

theorem random_lt_length {α : Type} (r : RNG) (l : List α) (h : l ≠ []) :
    (r.random (l.length : Nat)).1 < l.length := by
  have h0 : (0 : Int) < (l.length : Nat) := by
    have := List.length_pos.mpr h
    omega
  have := random_lt r (l.length : Nat) h0
  omega

/-! ## `fitness` -/

theorem fitness_total (ga : correlationGA) (h : NoPerfectMatch ga) (g : Gene_t) :
    ∃ f, fitness ga g = some f := by
  simp only [fitness]
  split_ifs with h1 h2 h3 h4 h5
  · exact ⟨_, rfl⟩
  · exact ⟨_, rfl⟩
  · exact ⟨_, rfl⟩
  · exact ⟨_, rfl⟩
  · exact absurd h5 (h _ _)
  · exact ⟨_, rfl⟩

theorem fitness_nonneg (ga : correlationGA) (h : ∀ x y, 0 ≤ ga.minSqDiff x y) (g : Gene_t)
    (f : ℚ) (hf : fitness ga g = some f) : 0 ≤ f := by
  simp only [fitness] at hf
  split_ifs at hf with h1 h2 h3 h4 h5
  · rw [← Option.some.inj hf]; exact le_refl _
  · rw [← Option.some.inj hf]; exact le_refl _
  · rw [← Option.some.inj hf]; exact le_refl _
  · rw [← Option.some.inj hf]; exact le_refl _
  · rw [← Option.some.inj hf]
    exact div_nonneg zero_le_one (h _ _)

/-- C5. Bounds sentinel: a gene whose `x` is at least the image width, whose `y`
is at least the image height, or whose template rectangle reaches the right or
bottom edge (`x + template width >= image width`, `y + template height >= image
height`) gets fitness `GA_BAD_FITNESS`, which is 0, whatever the matcher would
report for the image and template. -/
theorem fitness_bounds_sentinel (ga : correlationGA) (gene : Gene_t)
    (h : (gene.x : Int) ≥ ga.image.cols ∨ (gene.y : Int) ≥ ga.image.rows ∨
      (gene.x : Int) + ga.correlation_template.cols ≥ ga.image.cols ∨
      (gene.y : Int) + ga.correlation_template.rows ≥ ga.image.rows) :
    fitness ga gene = some GA_BAD_FITNESS ∧ GA_BAD_FITNESS = 0 := by
  refine ⟨?_, rfl⟩
  simp only [fitness]
  split_ifs with h1 h2 h3 h4 h5
  · rfl
  · rfl
  · rfl
  · rfl
  · exfalso
    rcases h with h | h | h | h
    · exact h1 (Or.inr h)
    · exact h2 (Or.inr h)
    · exact h3 h
    · exact h4 h
  · exfalso
    rcases h with h | h | h | h
    · exact h1 (Or.inr h)
    · exact h2 (Or.inr h)
    · exact h3 h
    · exact h4 h

theorem fitness_bounds_sentinel_witness :
    fitness (exampleGA [] 0 0) ⟨95, 3, 0⟩ = some GA_BAD_FITNESS ∧ GA_BAD_FITNESS = 0 :=
  fitness_bounds_sentinel (exampleGA [] 0 0) ⟨95, 3, 0⟩ (by simp [exampleGA])

/-! ## `returnMaximal` -/

theorem returnMaximal_eq_foldl (ga : correlationGA) (uninit : Gene_t) (h : SizeInvariant ga) :
    returnMaximal ga uninit =
      some (ga.population.foldl maxStep ⟨uninit.x, uninit.y, GA_BAD_FITNESS⟩) := by
  unfold returnMaximal
  exact forLoop_index ga.population maxStep _ _ (fun j s _ => rfl) _ h

theorem foldl_maxStep_ge_init (l : List Gene_t) (m : Gene_t) :
    m.fitness ≤ (l.foldl maxStep m).fitness := by
  induction l generalizing m with
  | nil => simp
  | cons a t ih =>
    rw [List.foldl_cons]
    refine le_trans ?_ (ih (maxStep m a))
    unfold maxStep
    split_ifs with h
    · exact le_of_lt h
    · exact le_refl _

theorem foldl_maxStep_ge_mem (l : List Gene_t) (m g : Gene_t) (hg : g ∈ l) :
    g.fitness ≤ (l.foldl maxStep m).fitness := by
  induction l generalizing m with
  | nil => simp at hg
  | cons a t ih =>
    rw [List.foldl_cons]
    rcases List.mem_cons.mp hg with h | h
    · subst h
      refine le_trans ?_ (foldl_maxStep_ge_init t (maxStep m g))
      unfold maxStep
      split_ifs with h
      · exact le_refl _
      · exact not_lt.mp h
    · exact ih (maxStep m a) h

theorem foldl_maxStep_mem (l : List Gene_t) (m : Gene_t) :
    l.foldl maxStep m = m ∨ l.foldl maxStep m ∈ l := by
  induction l generalizing m with
  | nil => simp
  | cons a t ih =>
    rw [List.foldl_cons]
    rcases ih (maxStep m a) with h | h
    · rw [h]
      unfold maxStep
      split_ifs
      · exact Or.inr (List.mem_cons_self _ _)
      · exact Or.inl rfl
    · exact Or.inr (List.mem_cons_of_mem _ h)

theorem foldl_maxStep_of_le (l : List Gene_t) (m : Gene_t)
    (h : ∀ g ∈ l, g.fitness ≤ m.fitness) : l.foldl maxStep m = m := by
  induction l with
  | nil => rfl
  | cons a t ih =>
    have ha : ¬ a.fitness > m.fitness := not_lt.mpr (h a (List.mem_cons_self _ _))
    rw [List.foldl_cons, maxStep, if_neg ha]
    exact ih fun g hg => h g (List.mem_cons_of_mem _ hg)

theorem foldl_maxStep_lt (l : List Gene_t) (m : Gene_t) (c : ℚ) (hm : m.fitness < c)
    (h : ∀ g ∈ l, g.fitness < c) : (l.foldl maxStep m).fitness < c := by
  rcases foldl_maxStep_mem l m with e | e
  · rw [e]; exact hm
  · exact h _ e

/-- C6. The gene that `returnMaximal` returns has a fitness that no gene of the
population exceeds; and for a non-empty population whose fitness values are
non-negative (as every value that `fitness` produces from a non-negative
squared difference is), that fitness is the fitness of some gene of the
population, so it is the maximum over the population. -/
theorem returnMaximal_is_maximum (ga : correlationGA) (uninit : Gene_t)
    (hsize : SizeInvariant ga) :
    ∃ r, returnMaximal ga uninit = some r ∧
      (∀ g ∈ ga.population, g.fitness ≤ r.fitness) ∧
      (ga.population ≠ [] → (∀ g ∈ ga.population, 0 ≤ g.fitness) →
        ∃ g ∈ ga.population, g.fitness = r.fitness) := by
  refine ⟨_, returnMaximal_eq_foldl ga uninit hsize, ?_, ?_⟩
  · exact fun g hg => foldl_maxStep_ge_mem _ _ g hg
  · intro hne hpos
    rcases foldl_maxStep_mem ga.population ⟨uninit.x, uninit.y, GA_BAD_FITNESS⟩ with e | e
    · obtain ⟨a, t, hl⟩ := List.exists_cons_of_ne_nil hne
      have ha : a ∈ ga.population := by rw [hl]; exact List.mem_cons_self _ _
      refine ⟨a, ha, le_antisymm (foldl_maxStep_ge_mem _ _ a ha) ?_⟩
      rw [e]
      exact hpos a ha
    · exact ⟨_, e, rfl⟩

theorem returnMaximal_is_maximum_witness :
    SizeInvariant (exampleGA [⟨1, 2, 3⟩, ⟨4, 5, 7⟩, ⟨6, 7, 7⟩] 0 0) ∧
    ∃ r, returnMaximal (exampleGA [⟨1, 2, 3⟩, ⟨4, 5, 7⟩, ⟨6, 7, 7⟩] 0 0) ⟨0, 0, 0⟩ = some r ∧
      (∀ g ∈ (exampleGA [⟨1, 2, 3⟩, ⟨4, 5, 7⟩, ⟨6, 7, 7⟩] 0 0).population,
        g.fitness ≤ r.fitness) ∧
      ((exampleGA [⟨1, 2, 3⟩, ⟨4, 5, 7⟩, ⟨6, 7, 7⟩] 0 0).population ≠ [] →
        (∀ g ∈ (exampleGA [⟨1, 2, 3⟩, ⟨4, 5, 7⟩, ⟨6, 7, 7⟩] 0 0).population, 0 ≤ g.fitness) →
        ∃ g ∈ (exampleGA [⟨1, 2, 3⟩, ⟨4, 5, 7⟩, ⟨6, 7, 7⟩] 0 0).population,
          g.fitness = r.fitness) :=
  ⟨by simp [SizeInvariant, exampleGA],
    returnMaximal_is_maximum _ _ (by simp [SizeInvariant, exampleGA])⟩

/-- C7. Tie-breaking: when the gene at index `i` has the maximum fitness of the
population, that fitness is positive, and no gene at a smaller index has the
same fitness, `returnMaximal` returns the gene at index `i`: among the genes
sharing the maximum it is the first in iteration order. -/
theorem returnMaximal_first_maximum (ga : correlationGA) (uninit : Gene_t)
    (hsize : SizeInvariant ga) (i : Nat) (hi : i < ga.population.length)
    (hpos : 0 < (ga.population.get ⟨i, hi⟩).fitness)
    (hmax : ∀ g ∈ ga.population, g.fitness ≤ (ga.population.get ⟨i, hi⟩).fitness)
    (hfirst : ∀ j (hj : j < ga.population.length), j < i →
      (ga.population.get ⟨j, hj⟩).fitness ≠ (ga.population.get ⟨i, hi⟩).fitness) :
    returnMaximal ga uninit = some (ga.population.get ⟨i, hi⟩) := by
  rw [returnMaximal_eq_foldl ga uninit hsize]
  congr 1
  have hsplit : ga.population =
      ga.population.take i ++ ga.population.get ⟨i, hi⟩ :: ga.population.drop (i + 1) := by
    rw [List.get_eq_getElem, ← List.drop_eq_getElem_cons hi, List.take_append_drop]
  have hbefore : ∀ g ∈ ga.population.take i,
      g.fitness < (ga.population.get ⟨i, hi⟩).fitness := by
    intro g hg
    obtain ⟨k, hk, rfl⟩ := List.getElem_of_mem hg
    have hk1 : k < i := by
      have := List.length_take_le i ga.population
      omega
    have hk2 : k < ga.population.length := by omega
    rw [List.getElem_take]
    refine lt_of_le_of_ne (hmax _ (List.getElem_mem _)) ?_
    exact hfirst k hk2 hk1
  generalize hgi : ga.population.get ⟨i, hi⟩ = gi at *
  rw [hsplit, List.foldl_append, List.foldl_cons]
  have hlt := foldl_maxStep_lt (ga.population.take i) ⟨uninit.x, uninit.y, GA_BAD_FITNESS⟩
    gi.fitness hpos hbefore
  have hstep : maxStep (List.foldl maxStep ⟨uninit.x, uninit.y, GA_BAD_FITNESS⟩
      (ga.population.take i)) gi = gi := by
    rw [maxStep, if_pos hlt]
  rw [hstep]
  apply foldl_maxStep_of_le
  intro g hg
  exact hmax g (List.mem_of_mem_drop hg)

theorem returnMaximal_first_maximum_witness :
    returnMaximal (exampleGA [⟨1, 2, 3⟩, ⟨4, 5, 7⟩, ⟨6, 7, 7⟩] 0 0) ⟨0, 0, 0⟩ =
      some ⟨4, 5, 7⟩ :=
  returnMaximal_first_maximum (exampleGA [⟨1, 2, 3⟩, ⟨4, 5, 7⟩, ⟨6, 7, 7⟩] 0 0) ⟨0, 0, 0⟩
    (by simp [SizeInvariant, exampleGA]) 1 (by simp [exampleGA])
    (by simp [exampleGA])
    (by simp [exampleGA]; norm_num)
    (by
      intro j hj hji
      have : j = 0 := by omega
      subst this
      simp [exampleGA])

/-- For a population in which every gene has fitness 0, `returnMaximal` returns
fitness 0 together with the `x` and `y` that its local `maxG` held before the
loop: no gene of the population is copied into it. -/
theorem returnMaximal_of_all_zero (ga : correlationGA) (uninit : Gene_t)
    (hsize : SizeInvariant ga) (hzero : ∀ g ∈ ga.population, g.fitness = 0) :
    returnMaximal ga uninit = some ⟨uninit.x, uninit.y, 0⟩ := by
  rw [returnMaximal_eq_foldl ga uninit hsize]
  congr 1
  apply foldl_maxStep_of_le
  intro g hg
  rw [hzero g hg]
  exact le_refl _

/-- C8. On the population `[(5, 7, 0), (8, 9, 0)]`, in which every gene has the
sentinel fitness 0, `returnMaximal` returns fitness 0 with the `x` and `y` that
its local `maxG` holds uninitialised, whatever they are: the location returned
is read from memory that was never written, not from the first gene `(5, 7)`
nor from any gene of the population. -/
theorem returnMaximal_all_zero_uninitialised :
    ∀ uninit : Gene_t,
      returnMaximal (exampleGA [⟨5, 7, 0⟩, ⟨8, 9, 0⟩] 0 0) uninit =
        some ⟨uninit.x, uninit.y, 0⟩ :=
  fun uninit => returnMaximal_of_all_zero (exampleGA [⟨5, 7, 0⟩, ⟨8, 9, 0⟩] 0 0) uninit
    (by simp [SizeInvariant, exampleGA]) (by simp [exampleGA])

/-! ## One cross-over step -/

theorem getElem?_condSet {α : Type} (l : List α) (k : Nat) (a : α) (c : Prop) [Decidable c]
    (hk : k < l.length) (i : Nat) :
    (if c then l.set k a else l)[i]? = if i = k ∧ c then some a else l[i]? := by
  by_cases hc : c
  · by_cases hik : i = k
    · subst hik
      simp [hc, hk]
    · simp [hc, hik, List.getElem?_set, Ne.symm hik]
  · simp [hc]

theorem length_condSet {α : Type} (l : List α) (k : Nat) (a : α) (c : Prop) [Decidable c] :
    (if c then l.set k a else l).length = l.length := by
  split_ifs <;> simp

theorem crossoverStep_eq (ga : correlationGA) (first second : Nat) (np : List Gene_t)
    (pf ps : Gene_t) (f1 f2 : ℚ) (h1 : np[first]? = some pf) (h2 : np[second]? = some ps)
    (hf1 : fitness ga (crossover pf ps) = some f1)
    (hf2 : fitness ga (crossover ps pf) = some f2) :
    crossoverStep ga first second np =
      ((if f1 > pf.fitness then np.set first ⟨pf.x, ps.y, f1⟩ else np)[second]?).map
        fun cur =>
          if f2 > cur.fitness then
            (if f1 > pf.fitness then np.set first ⟨pf.x, ps.y, f1⟩ else np).set second
              ⟨ps.x, pf.y, f2⟩
          else (if f1 > pf.fitness then np.set first ⟨pf.x, ps.y, f1⟩ else np) := by
  simp only [crossoverStep, h1, h2, hf1, hf2, Option.some_bind]
  rfl

theorem crossoverStep_slots (ga : correlationGA) (first second : Nat) (np : List Gene_t)
    (pf ps : Gene_t) (f1 f2 : ℚ) (h1 : np[first]? = some pf) (h2 : np[second]? = some ps)
    (hf1 : fitness ga (crossover pf ps) = some f1)
    (hf2 : fitness ga (crossover ps pf) = some f2) :
    ∃ np', crossoverStep ga first second np = some np' ∧ np'.length = np.length ∧
      np'[first]? = some (if f1 > pf.fitness then ⟨pf.x, ps.y, f1⟩ else pf) ∧
      np'[second]? = some (if f2 > ps.fitness then ⟨ps.x, pf.y, f2⟩ else ps) ∧
      ∀ i, i ≠ first → i ≠ second → np'[i]? = np[i]? := by
  have hlt1 : first < np.length := (List.getElem?_eq_some_iff.mp h1).1
  have hlt2 : second < np.length := (List.getElem?_eq_some_iff.mp h2).1
  rw [crossoverStep_eq ga first second np pf ps f1 f2 h1 h2 hf1 hf2,
    getElem?_condSet np first _ _ hlt1 second]
  by_cases hfs : second = first
  · subst hfs
    have hp : pf = ps := by rw [h1] at h2; exact Option.some.inj h2
    subst hp
    have hf : f1 = f2 := by rw [hf1] at hf2; exact Option.some.inj hf2
    subst hf
    by_cases hc : f1 > pf.fitness
    · have hirr : ¬ f1 > f1 := lt_irrefl _
      simp only [hc, and_self, if_true, Option.map_some', hirr, if_false]
      refine ⟨_, rfl, by simp, by simp [hlt1], by simp [hlt1], ?_⟩
      intro i hi _
      simp [List.getElem?_set, Ne.symm hi]
    · simp only [hc, and_false, if_false, h1, Option.map_some']
      exact ⟨_, rfl, rfl, h1, h1, fun i _ _ => rfl⟩
  · simp only [hfs, false_and, if_false, h2, Option.map_some']
    refine ⟨_, rfl, ?_, ?_, ?_, ?_⟩
    · rw [length_condSet, length_condSet]
    · rw [getElem?_condSet _ second _ _ (by rw [length_condSet]; exact hlt2) first,
        getElem?_condSet np first _ _ hlt1 first]
      have : ¬ first = second := fun h => hfs h.symm
      simp only [this, false_and, if_false, true_and]
      split_ifs
      · rfl
      · exact h1
    · rw [getElem?_condSet _ second _ _ (by rw [length_condSet]; exact hlt2) second,
        getElem?_condSet np first _ _ hlt1 second]
      simp only [hfs, false_and, if_false, true_and]
      split_ifs
      · rfl
      · exact h2
    · intro i hi1 hi2
      rw [getElem?_condSet _ second _ _ (by rw [length_condSet]; exact hlt2) i,
        getElem?_condSet np first _ _ hlt1 i]
      simp only [hi1, hi2, false_and, if_false]

/-- C9. Cross-over replacement rule: in one cross-over step on slots `first`
and `second`, holding `pf` and `ps`, with offspring fitness `f1` and `f2`, slot
`first` afterwards holds the first offspring if `f1 > pf.fitness` and still holds
`pf` otherwise (so a tie keeps the incumbent), and slot `second` afterwards
holds the second offspring if `f2 > ps.fitness` and still holds `ps` otherwise. -/
theorem crossoverStep_replacement_rule (ga : correlationGA) (first second : Nat)
    (next_population : List Gene_t) (pf ps : Gene_t) (f1 f2 : ℚ)
    (h1 : next_population[first]? = some pf) (h2 : next_population[second]? = some ps)
    (hf1 : fitness ga (crossover pf ps) = some f1)
    (hf2 : fitness ga (crossover ps pf) = some f2) :
    ∃ np', crossoverStep ga first second next_population = some np' ∧
      np'[first]? = some (if f1 > pf.fitness then
        ⟨(crossover pf ps).x, (crossover pf ps).y, f1⟩ else pf) ∧
      np'[second]? = some (if f2 > ps.fitness then
        ⟨(crossover ps pf).x, (crossover ps pf).y, f2⟩ else ps) := by
  obtain ⟨np', hrun, -, hfirst, hsecond, -⟩ :=
    crossoverStep_slots ga first second next_population pf ps f1 f2 h1 h2 hf1 hf2
  exact ⟨np', hrun, hfirst, hsecond⟩

theorem crossoverStep_replacement_rule_witness :
    ∃ np', crossoverStep (exampleGA [] 1 0) 0 1 [⟨1, 2, 1 / 10⟩, ⟨3, 4, 1 / 2⟩] = some np' ∧
      np'[0]? = some (if (1 / 6 : ℚ) > (⟨1, 2, 1 / 10⟩ : Gene_t).fitness then
        ⟨(crossover ⟨1, 2, 1 / 10⟩ ⟨3, 4, 1 / 2⟩).x,
          (crossover ⟨1, 2, 1 / 10⟩ ⟨3, 4, 1 / 2⟩).y, 1 / 6⟩ else ⟨1, 2, 1 / 10⟩) ∧
      np'[1]? = some (if (1 / 6 : ℚ) > (⟨3, 4, 1 / 2⟩ : Gene_t).fitness then
        ⟨(crossover ⟨3, 4, 1 / 2⟩ ⟨1, 2, 1 / 10⟩).x,
          (crossover ⟨3, 4, 1 / 2⟩ ⟨1, 2, 1 / 10⟩).y, 1 / 6⟩ else ⟨3, 4, 1 / 2⟩) :=
  crossoverStep_replacement_rule (exampleGA [] 1 0) 0 1 [⟨1, 2, 1 / 10⟩, ⟨3, 4, 1 / 2⟩]
    ⟨1, 2, 1 / 10⟩ ⟨3, 4, 1 / 2⟩ (1 / 6) (1 / 6) rfl rfl
    (by simp [fitness, crossover, exampleGA]; norm_num)
    (by simp [fitness, crossover, exampleGA]; norm_num)

/-- C10. Elitist cross-over never regresses: one cross-over step keeps the
number of slots, and the fitness stored at every slot after the step is greater
than or equal to the fitness stored at that slot before the step. -/
theorem crossoverStep_never_regresses (ga : correlationGA) (first second : Nat)
    (next_population : List Gene_t) (pf ps : Gene_t) (f1 f2 : ℚ)
    (h1 : next_population[first]? = some pf) (h2 : next_population[second]? = some ps)
    (hf1 : fitness ga (crossover pf ps) = some f1)
    (hf2 : fitness ga (crossover ps pf) = some f2) :
    ∃ np', crossoverStep ga first second next_population = some np' ∧
      np'.length = next_population.length ∧
      ∀ (i : Nat) (g g' : Gene_t), next_population[i]? = some g → np'[i]? = some g' →
        g.fitness ≤ g'.fitness := by
  obtain ⟨np', hrun, hlen, hfirst, hsecond, hother⟩ :=
    crossoverStep_slots ga first second next_population pf ps f1 f2 h1 h2 hf1 hf2
  refine ⟨np', hrun, hlen, ?_⟩
  intro i g g' hg hg'
  by_cases hif : i = first
  · subst hif
    rw [h1] at hg
    rw [hfirst] at hg'
    have e1 := Option.some.inj hg
    have e2 := Option.some.inj hg'
    subst e1
    subst e2
    split_ifs with hc
    · exact le_of_lt hc
    · exact le_refl _
  · by_cases his : i = second
    · subst his
      rw [h2] at hg
      rw [hsecond] at hg'
      have e1 := Option.some.inj hg
      have e2 := Option.some.inj hg'
      subst e1
      subst e2
      split_ifs with hc
      · exact le_of_lt hc
      · exact le_refl _
    · rw [hother i hif his, hg] at hg'
      have e := Option.some.inj hg'
      subst e
      exact le_refl _

theorem crossoverStep_never_regresses_witness :
    ∃ np', crossoverStep (exampleGA [] 1 0) 0 1 [⟨1, 2, 1 / 10⟩, ⟨3, 4, 1 / 2⟩] = some np' ∧
      np'.length = [(⟨1, 2, 1 / 10⟩ : Gene_t), ⟨3, 4, 1 / 2⟩].length ∧
      ∀ (i : Nat) (g g' : Gene_t),
        [(⟨1, 2, 1 / 10⟩ : Gene_t), ⟨3, 4, 1 / 2⟩][i]? = some g → np'[i]? = some g' →
        g.fitness ≤ g'.fitness :=
  crossoverStep_never_regresses (exampleGA [] 1 0) 0 1 [⟨1, 2, 1 / 10⟩, ⟨3, 4, 1 / 2⟩]
    ⟨1, 2, 1 / 10⟩ ⟨3, 4, 1 / 2⟩ (1 / 6) (1 / 6) rfl rfl
    (by simp [fitness, crossover, exampleGA]; norm_num)
    (by simp [fitness, crossover, exampleGA]; norm_num)

/-! ## The selection list -/

theorem foldl_add_fitness (l : List Gene_t) (a : ℚ) :
    l.foldl (fun acc g => acc + g.fitness) a = a + (l.map Gene_t.fitness).sum := by
  induction l generalizing a with
  | nil => simp
  | cons g t ih =>
    rw [List.foldl_cons, ih, List.map_cons, List.sum_cons, add_assoc]

theorem sumFitness_eq (ga : correlationGA) (h : SizeInvariant ga) :
    sumFitness ga = some (ga.population.map Gene_t.fitness).sum := by
  unfold sumFitness
  rw [forLoop_index ga.population (fun acc g => acc + g.fitness) _ _ (fun j s _ => rfl) _ h,
    foldl_add_fitness, zero_add]

theorem insertWhile_eq (g : Gene_t) (n : Nat) (p : ℚ) (sl : List Gene_t)
    (hn : (Int.ceil p).toNat = n) :
    insertWhile g p sl = sl ++ List.replicate (Int.ceil p).toNat g := by
  induction n generalizing p sl with
  | zero =>
    have hp : ¬ 0 < p := by
      intro h
      have := Int.ceil_pos.mpr h
      omega
    rw [insertWhile, if_neg hp, hn]
    simp
  | succ n ih =>
    have hp : 0 < p := by
      apply Int.ceil_pos.mp
      omega
    have hc : Int.ceil (p - 1) = Int.ceil p - 1 := Int.ceil_sub_one p
    have hn' : (Int.ceil (p - 1)).toNat = n := by omega
    rw [insertWhile, if_pos hp, ih (p - 1) (sl ++ [g]) hn', hn', hn, List.replicate_succ,
      List.append_assoc]
    rfl

theorem foldl_insertWhile (c : Gene_t → ℚ) (l acc : List Gene_t) :
    l.foldl (fun sl g => insertWhile g (c g) sl) acc =
      acc ++ l.flatMap fun g => List.replicate (Int.ceil (c g)).toNat g := by
  induction l generalizing acc with
  | nil => simp
  | cons g t ih =>
    rw [List.foldl_cons, ih, insertWhile_eq g _ (c g) acc rfl, List.flatMap_cons,
      List.append_assoc]

theorem selectionList_eq (ga : correlationGA) (h : SizeInvariant ga)
    (hsum : (ga.population.map Gene_t.fitness).sum ≠ 0) :
    selectionList ga = some (ga.population.flatMap fun g =>
      List.replicate (Int.ceil (g.fitness / (ga.population.map Gene_t.fitness).sum * 100)).toNat
        g) := by
  unfold selectionList
  rw [sumFitness_eq ga h, Option.some_bind,
    forLoop_index ga.population
      (fun sl g => insertWhile g (g.fitness / (ga.population.map Gene_t.fitness).sum * 100) sl)
      _ _ ?_ _ h,
    foldl_insertWhile, List.nil_append]
  intro j s hj
  rw [List.getElem?_eq_getElem hj]
  simp [hsum]

theorem ceil_share_one_of_three : Int.ceil ((1 : ℚ) / (1 + 2) * 100) = 34 := by
  rw [Int.ceil_eq_iff]; norm_num

theorem ceil_share_two_of_three : Int.ceil ((2 : ℚ) / (1 + 2) * 100) = 67 := by
  rw [Int.ceil_eq_iff]; norm_num

theorem selectionList_one_two (c m : Int) :
    selectionList (exampleGA [⟨1, 1, 1⟩, ⟨2, 2, 2⟩] c m) =
      some (List.replicate 34 ⟨1, 1, 1⟩ ++ List.replicate 67 ⟨2, 2, 2⟩) := by
  rw [selectionList_eq _ (by simp [SizeInvariant, exampleGA]) (by simp [exampleGA]; norm_num)]
  simp only [exampleGA, List.map_cons, List.map_nil, List.sum_cons, List.sum_nil, add_zero,
    List.flatMap_cons, List.flatMap_nil, List.append_nil, ceil_share_one_of_three,
    ceil_share_two_of_three]
  rfl

/-! ## The loops of `createNextGeneration` and of the constructor -/

theorem mutation_total (A : Gene_t) (r : RNG) :
    ∃ m, mutation A r = some m ∧ m.1.fitness = A.fitness := by
  have hpos : ((r.random 2).2.random (sizeofUnsignedShort : Nat)).1 < sizeofUnsignedShort := by
    have := random_lt (r.random 2).2 (sizeofUnsignedShort : Nat) (by decide)
    omega
  unfold mutation
  simp only [bitsetFlip, hpos, if_true, Option.map_some']
  split_ifs
  · exact ⟨_, rfl, rfl⟩
  · exact ⟨_, rfl, rfl⟩

theorem selectNext_total (ga : correlationGA) (selection_list : List Gene_t)
    (hne : selection_list ≠ []) :
    ∃ st, selectNext ga selection_list = some st ∧ st.1.length = ga.populationSize.toNat := by
  unfold selectNext forLoop
  have h := forLoopFrom_total (fun j (st : List Gene_t × RNG) => st.1.length = j)
    (fun _ st => ((selection_list[(st.2.random (selection_list.length : Nat)).1]?).map
      fun g => (st.1 ++ [g], (st.2.random (selection_list.length : Nat)).2)))
    (by
      intro j st hst
      have hk := random_lt_length st.2 selection_list hne
      beta_reduce
      rw [List.getElem?_eq_getElem hk]
      exact ⟨_, rfl, by simp [hst]⟩)
    ga.populationSize.toNat 0 ([], ga.random) rfl
  simpa using h

theorem crossoverLoop_total (ga : correlationGA) (hpos : 0 < ga.populationSize)
    (hmatch : NoPerfectMatch ga) (st : List Gene_t × RNG)
    (hst : st.1.length = ga.populationSize.toNat) :
    ∃ t, crossoverLoop ga st = some t ∧ t.1.length = ga.populationSize.toNat := by
  unfold crossoverLoop forLoop
  have h := forLoopFrom_total
    (fun _ (st : List Gene_t × RNG) => st.1.length = ga.populationSize.toNat)
    (fun _ st => (crossoverStep ga (st.2.random ga.populationSize).1
      ((st.2.random ga.populationSize).2.random ga.populationSize).1 st.1).map
        fun np => (np, ((st.2.random ga.populationSize).2.random ga.populationSize).2))
    (by
      intro j s hs
      have hf1 : (s.2.random ga.populationSize).1 < s.1.length := by
        have := random_lt s.2 ga.populationSize hpos
        omega
      have hf2 : ((s.2.random ga.populationSize).2.random ga.populationSize).1 < s.1.length := by
        have := random_lt (s.2.random ga.populationSize).2 ga.populationSize hpos
        omega
      obtain ⟨f1, e1⟩ := fitness_total ga hmatch (crossover (s.1[(s.2.random ga.populationSize).1])
        (s.1[((s.2.random ga.populationSize).2.random ga.populationSize).1]))
      obtain ⟨f2, e2⟩ := fitness_total ga hmatch
        (crossover (s.1[((s.2.random ga.populationSize).2.random ga.populationSize).1])
          (s.1[(s.2.random ga.populationSize).1]))
      obtain ⟨np', hrun, hlen, -⟩ := crossoverStep_slots ga _ _ s.1 _ _ f1 f2
        (List.getElem?_eq_getElem hf1) (List.getElem?_eq_getElem hf2) e1 e2
      beta_reduce
      rw [hrun]
      exact ⟨_, rfl, by simp [hlen, hs]⟩)
    ga.crossoverCount.toNat 0 st hst
  simpa using h

theorem mutationStep_total (ga : correlationGA) (hmatch : NoPerfectMatch ga) (mutated : Nat)
    (st : List Gene_t × RNG) (h : mutated < st.1.length) :
    ∃ t, mutationStep ga mutated st = some t ∧ t.1.length = st.1.length := by
  obtain ⟨m, hm, -⟩ := mutation_total (st.1[mutated]) st.2
  obtain ⟨f, hf⟩ := fitness_total ga hmatch m.1
  unfold mutationStep
  rw [List.getElem?_eq_getElem h, Option.some_bind, hm, Option.some_bind, hf]
  exact ⟨_, rfl, by simp⟩

theorem mutationLoop_total (ga : correlationGA) (hpos : 0 < ga.populationSize)
    (hmatch : NoPerfectMatch ga) (st : List Gene_t × RNG)
    (hst : st.1.length = ga.populationSize.toNat) :
    ∃ t, mutationLoop ga st = some t ∧ t.1.length = ga.populationSize.toNat := by
  unfold mutationLoop forLoop
  have h := forLoopFrom_total
    (fun _ (st : List Gene_t × RNG) => st.1.length = ga.populationSize.toNat)
    (fun _ st => mutationStep ga (st.2.random ga.populationSize).1
      (st.1, (st.2.random ga.populationSize).2))
    (by
      intro j s hs
      have hm : (s.2.random ga.populationSize).1 < s.1.length := by
        have := random_lt s.2 ga.populationSize hpos
        omega
      obtain ⟨t, ht, hlen⟩ := mutationStep_total ga hmatch (s.2.random ga.populationSize).1
        (s.1, (s.2.random ga.populationSize).2) hm
      exact ⟨t, ht, hlen.trans hs⟩)
    ga.mutationCount.toNat 0 st hst
  simpa using h

theorem selectionList_nil_of_size (ga : correlationGA) (h : ga.populationSize ≤ 0)
    (pool : List Gene_t) (hpool : selectionList ga = some pool) : pool = [] := by
  have h0 : ga.populationSize.toNat = 0 := by omega
  unfold selectionList sumFitness forLoop at hpool
  rw [h0] at hpool
  simp only [forLoopFrom, Option.some_bind, Option.some.injEq] at hpool
  exact hpool.symm

theorem createNextGeneration_total (ga : correlationGA) (pool : List Gene_t)
    (hmatch : NoPerfectMatch ga)
    (hpool : selectionList ga = some pool) (hne : pool ≠ []) :
    ∃ next, createNextGeneration ga = some next ∧
      next.populationSize = ga.populationSize ∧
      next.population.length = ga.populationSize.toNat := by
  have hpos : 0 < ga.populationSize := by
    by_contra hc
    exact hne (selectionList_nil_of_size ga (not_lt.mp hc) pool hpool)
  obtain ⟨st0, h0, l0⟩ := selectNext_total ga pool hne
  obtain ⟨st1, h1, l1⟩ := crossoverLoop_total ga hpos hmatch st0 l0
  obtain ⟨st2, h2, l2⟩ := mutationLoop_total ga hpos hmatch st1 l1
  unfold createNextGeneration
  rw [hpool, Option.some_bind, h0, Option.some_bind, h1, Option.some_bind, h2]
  exact ⟨_, rfl, rfl, l2⟩

theorem construct_total (popSize : Int) (crossover mutation : ℚ) (img roi : Mat)
    (minSqDiff : Nat → Nat → ℚ) (seed : RNG) (hmatch : ∀ x y, minSqDiff x y ≠ 0) :
    ∃ ga, construct popSize crossover mutation img roi minSqDiff seed = some ga ∧
      ga.populationSize = popSize ∧ ga.population.length = popSize.toNat := by
  unfold construct forLoop
  have h := forLoopFrom_total
    (fun j (ga : correlationGA) =>
      ga.population.length = j ∧ ga.populationSize = popSize ∧ NoPerfectMatch ga)
    (fun _ ga => (fitness ga ⟨(ga.random.random img.cols).1 % 65536,
        ((ga.random.random img.cols).2.random img.rows).1 % 65536, 0⟩).map fun f =>
      (⟨ga.crossoverCount, ga.mutationCount, ((ga.random.random img.cols).2.random img.rows).2,
        ga.population ++ [⟨(ga.random.random img.cols).1 % 65536,
          ((ga.random.random img.cols).2.random img.rows).1 % 65536, f⟩],
        ga.populationSize, ga.image, ga.correlation_template, ga.minSqDiff⟩ : correlationGA))
    (by
      intro j ga hga
      obtain ⟨f, hf⟩ := fitness_total ga hga.2.2 ⟨(ga.random.random img.cols).1 % 65536,
        ((ga.random.random img.cols).2.random img.rows).1 % 65536, 0⟩
      beta_reduce
      rw [hf]
      exact ⟨_, rfl, by simp [hga.1], hga.2.1, hga.2.2⟩)
    popSize.toNat 0
    ⟨Int.floor ((popSize : ℚ) * crossover), Int.floor ((popSize : ℚ) * mutation), seed, [],
      popSize, img, roi, minSqDiff⟩
    ⟨rfl, rfl, hmatch⟩
  obtain ⟨ga, hrun, hlen, hps, -⟩ := h
  exact ⟨ga, hrun, hps, by simpa using hlen⟩

theorem crossoverStep_length (ga : correlationGA) (first second : Nat) (np np' : List Gene_t)
    (h : crossoverStep ga first second np = some np') : np'.length = np.length := by
  unfold crossoverStep at h
  cases h1 : np[first]? with
  | none => rw [h1] at h; simp at h
  | some pf =>
    cases h2 : np[second]? with
    | none => rw [h1, h2] at h; simp at h
    | some ps =>
      cases hf1 : fitness ga (crossover pf ps) with
      | none => rw [h1, h2] at h; simp [hf1] at h
      | some f1 =>
        cases hf2 : fitness ga (crossover ps pf) with
        | none => rw [h1, h2] at h; simp [hf1, hf2] at h
        | some f2 =>
          obtain ⟨np'', hrun, hlen, -⟩ := crossoverStep_slots ga first second np pf ps f1 f2
            h1 h2 hf1 hf2
          unfold crossoverStep at hrun
          rw [hrun] at h
          rw [← Option.some.inj h]
          exact hlen

theorem mutationStep_length (ga : correlationGA) (mutated : Nat) (st t : List Gene_t × RNG)
    (h : mutationStep ga mutated st = some t) : t.1.length = st.1.length := by
  unfold mutationStep at h
  simp only [Option.bind_eq_some, Option.map_eq_some'] at h
  obtain ⟨g, -, m, -, f, -, e⟩ := h
  rw [← e]
  simp

theorem createNextGeneration_length (ga next : correlationGA)
    (h : createNextGeneration ga = some next) :
    next.populationSize = ga.populationSize ∧
      next.population.length = ga.populationSize.toNat := by
  unfold createNextGeneration at h
  simp only [Option.bind_eq_some, Option.map_eq_some'] at h
  obtain ⟨pool, -, st0, h0, st1, h1, st2, h2, e⟩ := h
  have l0 : st0.1.length = ga.populationSize.toNat := by
    have := forLoopFrom_completed (fun j (st : List Gene_t × RNG) => st.1.length = j) _
      (by
        intro j s t hs hb
        simp only [Option.map_eq_some'] at hb
        obtain ⟨g, -, e⟩ := hb
        rw [← e]
        simp [hs])
      ga.populationSize.toNat 0 ([], ga.random) st0 rfl h0
    simpa using this
  have l1 : st1.1.length = ga.populationSize.toNat := by
    have := forLoopFrom_completed
      (fun _ (st : List Gene_t × RNG) => st.1.length = ga.populationSize.toNat) _
      (by
        intro j s t hs hb
        simp only [Option.map_eq_some'] at hb
        obtain ⟨np, hnp, e⟩ := hb
        rw [← e]
        exact (crossoverStep_length ga _ _ _ _ hnp).trans hs)
      ga.crossoverCount.toNat 0 st0 st1 l0 h1
    exact this
  have l2 : st2.1.length = ga.populationSize.toNat := by
    have := forLoopFrom_completed
      (fun _ (st : List Gene_t × RNG) => st.1.length = ga.populationSize.toNat) _
      (by
        intro j s t hs hb
        exact (mutationStep_length ga _ _ _ hb).trans hs)
      ga.mutationCount.toNat 0 st1 st2 l1 h2
    exact this
  rw [← e]
  exact ⟨rfl, l2⟩

theorem construct_length (popSize : Int) (crossover mutation : ℚ) (img roi : Mat)
    (minSqDiff : Nat → Nat → ℚ) (seed : RNG) (ga : correlationGA)
    (h : construct popSize crossover mutation img roi minSqDiff seed = some ga) :
    ga.populationSize = popSize ∧ ga.population.length = popSize.toNat := by
  have := forLoopFrom_completed
    (fun j (ga : correlationGA) => ga.populationSize = popSize ∧ ga.population.length = j) _
    (by
      intro j s t hs hb
      simp only [Option.map_eq_some'] at hb
      obtain ⟨f, -, e⟩ := hb
      rw [← e]
      exact ⟨hs.1, by simp [hs.2]⟩)
    popSize.toNat 0
    ⟨Int.floor ((popSize : ℚ) * crossover), Int.floor ((popSize : ℚ) * mutation), seed, [],
      popSize, img, roi, minSqDiff⟩
    ga ⟨rfl, rfl⟩ h
  simpa using this

/-! ## Population size -/

/-- C1. Population size invariant: a constructor call with `popSize = n` that
completes leaves `populationSize = n` and exactly `n` genes in the population,
and it does complete when no location matches the template perfectly; every
call of `createNextGeneration` that completes leaves `populationSize` unchanged
and exactly `populationSize` genes in the population, and it does complete when
the selection list is non-empty and no location matches the template
perfectly. -/
theorem population_size_invariant :
    (∀ (popSize : Int) (crossover mutation : ℚ) (img roi : Mat) (minSqDiff : Nat → Nat → ℚ)
      (seed : RNG) (ga : correlationGA),
      construct popSize crossover mutation img roi minSqDiff seed = some ga →
        ga.populationSize = popSize ∧ ga.population.length = popSize.toNat) ∧
    (∀ (popSize : Int) (crossover mutation : ℚ) (img roi : Mat) (minSqDiff : Nat → Nat → ℚ)
      (seed : RNG), (∀ x y, minSqDiff x y ≠ 0) →
        ∃ ga, construct popSize crossover mutation img roi minSqDiff seed = some ga ∧
          ga.populationSize = popSize ∧ ga.population.length = popSize.toNat) ∧
    (∀ ga next : correlationGA, createNextGeneration ga = some next →
      next.populationSize = ga.populationSize ∧
        next.population.length = ga.populationSize.toNat) ∧
    (∀ (ga : correlationGA) (pool : List Gene_t), NoPerfectMatch ga →
      selectionList ga = some pool → pool ≠ [] →
        ∃ next, createNextGeneration ga = some next ∧
          next.populationSize = ga.populationSize ∧
          next.population.length = ga.populationSize.toNat) :=
  ⟨construct_length, construct_total, createNextGeneration_length,
    fun ga pool hmatch hpool hne => createNextGeneration_total ga pool hmatch hpool hne⟩

theorem exampleGA_noPerfectMatch (population : List Gene_t) (c m : Int) :
    NoPerfectMatch (exampleGA population c m) := by
  intro x y
  simp only [exampleGA]
  positivity

theorem population_size_invariant_witness :
    (∃ ga, construct 2 (1 / 2) (1 / 2) ⟨100, 80⟩ ⟨10, 10⟩ (fun x y => (x : ℚ) + (y : ℚ) + 1)
        ⟨fun k => 7 * k + 3, 0⟩ = some ga ∧
      ga.populationSize = 2 ∧ ga.population.length = (2 : Int).toNat) ∧
    (∃ next, createNextGeneration (exampleGA [⟨1, 1, 1⟩, ⟨2, 2, 2⟩] 1 1) = some next ∧
      next.populationSize = (exampleGA [⟨1, 1, 1⟩, ⟨2, 2, 2⟩] 1 1).populationSize ∧
      next.population.length = (exampleGA [⟨1, 1, 1⟩, ⟨2, 2, 2⟩] 1 1).populationSize.toNat) :=
  ⟨population_size_invariant.2.1 2 (1 / 2) (1 / 2) ⟨100, 80⟩ ⟨10, 10⟩
      (fun x y => (x : ℚ) + (y : ℚ) + 1) ⟨fun k => 7 * k + 3, 0⟩
      (fun x y => by positivity),
    population_size_invariant.2.2.2 (exampleGA [⟨1, 1, 1⟩, ⟨2, 2, 2⟩] 1 1)
      (List.replicate 34 ⟨1, 1, 1⟩ ++ List.replicate 67 ⟨2, 2, 2⟩)
      (exampleGA_noPerfectMatch _ _ _) (selectionList_one_two 1 1) (by simp)⟩

/-! ## Evaluations at particular inputs -/

/-- C4. On the population `[(95, 3, 0), (97, 70, 0)]` of a 100 x 80 image with a
10 x 10 template, where `fitness` gives both genes the sentinel 0,
`sumFitness` is 0 and `createNextGeneration` does not complete: it divides by
`sumFitness`, and no fallback selection exists. -/
theorem createNextGeneration_all_zero_faults :
    fitness (exampleGA [⟨95, 3, 0⟩, ⟨97, 70, 0⟩] 1 1) ⟨95, 3, 0⟩ = some 0 ∧
    fitness (exampleGA [⟨95, 3, 0⟩, ⟨97, 70, 0⟩] 1 1) ⟨97, 70, 0⟩ = some 0 ∧
    sumFitness (exampleGA [⟨95, 3, 0⟩, ⟨97, 70, 0⟩] 1 1) = some 0 ∧
    createNextGeneration (exampleGA [⟨95, 3, 0⟩, ⟨97, 70, 0⟩] 1 1) = none := by
  refine ⟨?_, ?_, ?_, ?_⟩
  · simp [fitness, exampleGA, GA_BAD_FITNESS]
  · simp [fitness, exampleGA, GA_BAD_FITNESS]
  · simp [sumFitness, forLoop, forLoopFrom, exampleGA]
  · simp [createNextGeneration, selectionList, sumFitness, forLoop, forLoopFrom, exampleGA]

/-- C3. Mutating the gene with `x = 5 = 0b101` when both draws are 0 (field `x`,
bit index 0) stores `x = 0`, not `0b100 = 4`: the bitset has
`sizeof(unsigned short) = 2` bits, so bit 2 of the coordinate is dropped as well,
and the new `x` differs from the old one in bits 0 and 2. -/
theorem mutation_five_bit_zero :
    (mutation ⟨5, 9, 1⟩ ⟨fun _ => 0, 0⟩).map (fun m => m.1) = some ⟨0, 9, 1⟩ ∧
    5 ^^^ 0 = 2 ^ 0 + 2 ^ 2 := by
  refine ⟨?_, by decide⟩
  simp [mutation, RNG.random, bitsetFlip, bitsetOfNat, sizeofUnsignedShort]

/-! ## Offspring of a cross-over step -/

theorem fitness_eq_of_fields (ga ga' : correlationGA) (g g' : Gene_t)
    (h1 : ga'.image = ga.image) (h2 : ga'.correlation_template = ga.correlation_template)
    (h3 : ga'.minSqDiff = ga.minSqDiff) (hx : g'.x = g.x) (hy : g'.y = g.y) :
    fitness ga' g' = fitness ga g := by
  simp only [fitness, h1, h2, h3, hx, hy]

theorem crossoverStep_inv (ga : correlationGA) (first second : Nat) (np np' : List Gene_t)
    (h : crossoverStep ga first second np = some np') :
    ∃ pf ps f1 f2, np[first]? = some pf ∧ np[second]? = some ps ∧
      fitness ga (crossover pf ps) = some f1 ∧ fitness ga (crossover ps pf) = some f2 := by
  unfold crossoverStep at h
  cases h1 : np[first]? with
  | none => rw [h1] at h; simp at h
  | some pf =>
    cases h2 : np[second]? with
    | none => rw [h1, h2] at h; simp at h
    | some ps =>
      cases hf1 : fitness ga (crossover pf ps) with
      | none => rw [h1, h2] at h; simp [hf1] at h
      | some f1 =>
        cases hf2 : fitness ga (crossover ps pf) with
        | none => rw [h1, h2] at h; simp [hf1, hf2] at h
        | some f2 => exact ⟨pf, ps, f1, f2, rfl, rfl, hf1, hf2⟩

theorem crossoverStep_none_of_fitness (ga : correlationGA) (first second : Nat)
    (np : List Gene_t) (pf ps : Gene_t) (h1 : np[first]? = some pf)
    (h2 : np[second]? = some ps)
    (hf : fitness ga (crossover pf ps) = none ∨ fitness ga (crossover ps pf) = none) :
    crossoverStep ga first second np = none := by
  cases hrun : crossoverStep ga first second np with
  | none => rfl
  | some np' =>
    obtain ⟨pf', ps', f1, f2, e1, e2, hf1, hf2⟩ := crossoverStep_inv ga first second np np' hrun
    rw [h1] at e1
    rw [h2] at e2
    rw [← Option.some.inj e1, ← Option.some.inj e2] at hf1 hf2
    rcases hf with hf | hf
    · rw [hf] at hf1; simp at hf1
    · rw [hf] at hf2; simp at hf2

/-- C11. Cross-over offspring composition: `crossover` of two genes takes `x`
from the first and `y` from the second.  In a cross-over step on slots `first`
and `second`, holding `pf` and `ps` before the step, the genes whose fitness is
evaluated are `(pf.x, ps.y)` and `(ps.x, pf.y)`: the step completes exactly when
both evaluations do, slot `first` then holds `pf` or `(pf.x, ps.y)`, and slot
`second` holds `ps` or `(ps.x, pf.y)`, with `pf.y` as it was before any
replacement. -/
theorem crossover_offspring_composition (ga : correlationGA) (first second : Nat)
    (next_population : List Gene_t) (pf ps : Gene_t)
    (h1 : next_population[first]? = some pf) (h2 : next_population[second]? = some ps) :
    crossover pf ps = ⟨pf.x, ps.y, 0⟩ ∧ crossover ps pf = ⟨ps.x, pf.y, 0⟩ ∧
    ((fitness ga ⟨pf.x, ps.y, 0⟩ = none ∨ fitness ga ⟨ps.x, pf.y, 0⟩ = none) →
      crossoverStep ga first second next_population = none) ∧
    (∀ f1 f2, fitness ga ⟨pf.x, ps.y, 0⟩ = some f1 → fitness ga ⟨ps.x, pf.y, 0⟩ = some f2 →
      ∃ np', crossoverStep ga first second next_population = some np' ∧
        (np'[first]? = some pf ∨ np'[first]? = some ⟨pf.x, ps.y, f1⟩) ∧
        (np'[second]? = some ps ∨ np'[second]? = some ⟨ps.x, pf.y, f2⟩)) := by
  refine ⟨rfl, rfl, ?_, ?_⟩
  · exact crossoverStep_none_of_fitness ga first second next_population pf ps h1 h2
  · intro f1 f2 hf1 hf2
    obtain ⟨np', hrun, -, hfirst, hsecond, -⟩ :=
      crossoverStep_slots ga first second next_population pf ps f1 f2 h1 h2 hf1 hf2
    refine ⟨np', hrun, ?_, ?_⟩
    · rw [hfirst]
      split_ifs
      · exact Or.inr rfl
      · exact Or.inl rfl
    · rw [hsecond]
      split_ifs
      · exact Or.inr rfl
      · exact Or.inl rfl

theorem crossover_offspring_composition_witness :
    crossover ⟨1, 2, 1 / 10⟩ ⟨3, 4, 1 / 20⟩ = ⟨1, 4, 0⟩ ∧
    crossover ⟨3, 4, 1 / 20⟩ ⟨1, 2, 1 / 10⟩ = ⟨3, 2, 0⟩ ∧
    ∃ np', crossoverStep (exampleGA [] 1 0) 0 1 [⟨1, 2, 1 / 10⟩, ⟨3, 4, 1 / 20⟩] = some np' ∧
      (np'[0]? = some ⟨1, 2, 1 / 10⟩ ∨ np'[0]? = some ⟨1, 4, 1 / 6⟩) ∧
      (np'[1]? = some ⟨3, 4, 1 / 20⟩ ∨ np'[1]? = some ⟨3, 2, 1 / 6⟩) :=
  have h := crossover_offspring_composition (exampleGA [] 1 0) 0 1
    [⟨1, 2, 1 / 10⟩, ⟨3, 4, 1 / 20⟩] ⟨1, 2, 1 / 10⟩ ⟨3, 4, 1 / 20⟩ rfl rfl
  ⟨h.1, h.2.1, h.2.2.2 (1 / 6) (1 / 6)
    (by simp [fitness, exampleGA]; norm_num) (by simp [fitness, exampleGA]; norm_num)⟩

/-! ## Where the genes of the next population come from -/

theorem selectionList_mem (ga : correlationGA) (pool : List Gene_t)
    (h : selectionList ga = some pool) : ∀ g ∈ pool, g ∈ ga.population := by
  unfold selectionList at h
  simp only [Option.bind_eq_some] at h
  obtain ⟨sum, -, hloop⟩ := h
  have := forLoopFrom_completed (fun _ (sl : List Gene_t) => ∀ g ∈ sl, g ∈ ga.population) _
    (by
      intro j s t hs hb
      simp only [Option.bind_eq_some] at hb
      obtain ⟨g, hg, hb⟩ := hb
      split_ifs at hb with hzero
      rw [← Option.some.inj hb, insertWhile_eq g _ _ s rfl]
      intro a ha
      rcases List.mem_append.mp ha with ha | ha
      · exact hs a ha
      · rw [(List.mem_replicate.mp ha).2]
        exact List.getElem?_mem hg)
    ga.populationSize.toNat 0 [] pool (by simp) hloop
  exact this

theorem selectNext_mem (ga : correlationGA) (pool : List Gene_t) (st : List Gene_t × RNG)
    (h : selectNext ga pool = some st) : ∀ g ∈ st.1, g ∈ pool := by
  have := forLoopFrom_completed (fun _ (s : List Gene_t × RNG) => ∀ g ∈ s.1, g ∈ pool) _
    (by
      intro j s t hs hb
      simp only [Option.map_eq_some'] at hb
      obtain ⟨g, hg, e⟩ := hb
      rw [← e]
      intro a ha
      rcases List.mem_append.mp ha with ha | ha
      · exact hs a ha
      · rw [List.mem_singleton.mp ha]
        exact List.getElem?_mem hg)
    ga.populationSize.toNat 0 ([], ga.random) st (by simp) h
  exact this

theorem crossoverStep_forall (ga : correlationGA) (Q : Gene_t → Prop)
    (hQ : ∀ pf ps f, Q pf → Q ps → fitness ga (crossover pf ps) = some f → Q ⟨pf.x, ps.y, f⟩)
    (first second : Nat) (np np' : List Gene_t)
    (h : crossoverStep ga first second np = some np') (hnp : ∀ g ∈ np, Q g) :
    ∀ g ∈ np', Q g := by
  obtain ⟨pf, ps, f1, f2, h1, h2, hf1, hf2⟩ := crossoverStep_inv ga first second np np' h
  obtain ⟨np'', hrun, -, hfirst, hsecond, hother⟩ :=
    crossoverStep_slots ga first second np pf ps f1 f2 h1 h2 hf1 hf2
  rw [h] at hrun
  rw [← Option.some.inj hrun] at hfirst hsecond hother
  have hpf : Q pf := hnp pf (List.getElem?_mem h1)
  have hps : Q ps := hnp ps (List.getElem?_mem h2)
  intro g hg
  obtain ⟨n, hn⟩ := List.mem_iff_getElem?.mp hg
  by_cases hnf : n = first
  · rw [hnf, hfirst] at hn
    rw [← Option.some.inj hn]
    split_ifs
    · exact hQ pf ps f1 hpf hps hf1
    · exact hpf
  · by_cases hns : n = second
    · rw [hns, hsecond] at hn
      rw [← Option.some.inj hn]
      split_ifs
      · exact hQ ps pf f2 hps hpf hf2
      · exact hps
    · rw [hother n hnf hns] at hn
      exact hnp g (List.getElem?_mem hn)

theorem crossoverLoop_forall (ga : correlationGA) (Q : Gene_t → Prop)
    (hQ : ∀ pf ps f, Q pf → Q ps → fitness ga (crossover pf ps) = some f → Q ⟨pf.x, ps.y, f⟩)
    (st t : List Gene_t × RNG) (h : crossoverLoop ga st = some t) (hst : ∀ g ∈ st.1, Q g) :
    ∀ g ∈ t.1, Q g := by
  have := forLoopFrom_completed (fun _ (s : List Gene_t × RNG) => ∀ g ∈ s.1, Q g) _
    (by
      intro j s u hs hb
      simp only [Option.map_eq_some'] at hb
      obtain ⟨np, hnp, e⟩ := hb
      rw [← e]
      exact crossoverStep_forall ga Q hQ _ _ s.1 np hnp hs)
    ga.crossoverCount.toNat 0 st t hst h
  exact this

theorem mutationStep_forall (ga : correlationGA) (Q : Gene_t → Prop)
    (hQ : ∀ g r m f, Q g → mutation g r = some m → fitness ga m.1 = some f →
      Q ⟨m.1.x, m.1.y, f⟩)
    (mutated : Nat) (st t : List Gene_t × RNG) (h : mutationStep ga mutated st = some t)
    (hst : ∀ g ∈ st.1, Q g) : ∀ g ∈ t.1, Q g := by
  unfold mutationStep at h
  simp only [Option.bind_eq_some, Option.map_eq_some'] at h
  obtain ⟨g0, hg0, m, hm, f, hf, e⟩ := h
  rw [← e]
  intro g hg
  rcases List.mem_or_eq_of_mem_set hg with hmem | heq
  · exact hst g hmem
  · rw [heq]
    exact hQ g0 st.2 m f (hst g0 (List.getElem?_mem hg0)) hm hf

theorem mutationLoop_forall (ga : correlationGA) (Q : Gene_t → Prop)
    (hQ : ∀ g r m f, Q g → mutation g r = some m → fitness ga m.1 = some f →
      Q ⟨m.1.x, m.1.y, f⟩)
    (st t : List Gene_t × RNG) (h : mutationLoop ga st = some t) (hst : ∀ g ∈ st.1, Q g) :
    ∀ g ∈ t.1, Q g := by
  have := forLoopFrom_completed (fun _ (s : List Gene_t × RNG) => ∀ g ∈ s.1, Q g) _
    (by
      intro j s u hs hb
      exact mutationStep_forall ga Q hQ _ (s.1, (s.2.random ga.populationSize).2) u hb hs)
    ga.mutationCount.toNat 0 st t hst h
  exact this

/-! ## Cached fitness -/

theorem createNextGeneration_cached (ga next : correlationGA) (hc : CachedFitness ga)
    (h : createNextGeneration ga = some next) : CachedFitness next := by
  unfold createNextGeneration at h
  simp only [Option.bind_eq_some, Option.map_eq_some'] at h
  obtain ⟨pool, hpool, st0, h0, st1, h1, st2, h2, e⟩ := h
  have c0 : ∀ g ∈ st0.1, fitness ga g = some g.fitness := fun g hg =>
    hc g (selectionList_mem ga pool hpool g (selectNext_mem ga pool st0 h0 g hg))
  have c1 := crossoverLoop_forall ga (fun g => fitness ga g = some g.fitness)
    (by
      intro pf ps f _ _ hf
      rw [← hf]
      exact fitness_eq_of_fields ga ga _ _ rfl rfl rfl rfl rfl)
    st0 st1 h1 c0
  have c2 := mutationLoop_forall ga (fun g => fitness ga g = some g.fitness)
    (by
      intro g r m f _ _ hf
      rw [← hf]
      exact fitness_eq_of_fields ga ga _ _ rfl rfl rfl rfl rfl)
    st1 st2 h2 c1
  intro g hg
  subst e
  refine Eq.trans (fitness_eq_of_fields ga _ g g ?_ ?_ ?_ rfl rfl) (c2 g hg) <;> rfl

theorem construct_fields (popSize : Int) (crossover mutation : ℚ) (img roi : Mat)
    (minSqDiff : Nat → Nat → ℚ) (seed : RNG) (ga : correlationGA)
    (h : construct popSize crossover mutation img roi minSqDiff seed = some ga) :
    ga.crossoverCount = Int.floor ((popSize : ℚ) * crossover) ∧
    ga.mutationCount = Int.floor ((popSize : ℚ) * mutation) ∧
    ga.image = img ∧ ga.correlation_template = roi ∧ ga.minSqDiff = minSqDiff ∧
    CachedFitness ga := by
  have := forLoopFrom_completed
    (fun _ (ga : correlationGA) =>
      ga.crossoverCount = Int.floor ((popSize : ℚ) * crossover) ∧
      ga.mutationCount = Int.floor ((popSize : ℚ) * mutation) ∧
      ga.image = img ∧ ga.correlation_template = roi ∧ ga.minSqDiff = minSqDiff ∧
      CachedFitness ga) _
    (by
      intro j s t hs hb
      simp only [Option.map_eq_some'] at hb
      obtain ⟨f, hf, e⟩ := hb
      subst e
      refine ⟨hs.1, hs.2.1, hs.2.2.1, hs.2.2.2.1, hs.2.2.2.2.1, ?_⟩
      intro g hg
      have key : fitness s g = some g.fitness := by
        rcases List.mem_append.mp hg with hg | hg
        · exact hs.2.2.2.2.2 g hg
        · rw [List.mem_singleton.mp hg, ← hf]
          exact fitness_eq_of_fields s s _ _ rfl rfl rfl rfl rfl
      refine Eq.trans (fitness_eq_of_fields s _ g g ?_ ?_ ?_ rfl rfl) key <;> rfl)
    popSize.toNat 0
    ⟨Int.floor ((popSize : ℚ) * crossover), Int.floor ((popSize : ℚ) * mutation), seed, [],
      popSize, img, roi, minSqDiff⟩
    ga ⟨rfl, rfl, rfl, rfl, rfl, by intro g hg; simp at hg⟩ h
  exact this

/-- C12. Cached-fitness invariant: after a constructor call that completes,
every gene `g` of the population satisfies `g.fitness = fitness(g.x, g.y)`, and
`createNextGeneration` preserves this: when it holds before a call that
completes, it holds after it.  Both calls complete when no location matches the
template perfectly (and, for `createNextGeneration`, the selection list is
non-empty). -/
theorem cached_fitness_invariant :
    (∀ (popSize : Int) (crossover mutation : ℚ) (img roi : Mat) (minSqDiff : Nat → Nat → ℚ)
      (seed : RNG) (ga : correlationGA),
      construct popSize crossover mutation img roi minSqDiff seed = some ga →
        ∀ g ∈ ga.population, fitness ga g = some g.fitness) ∧
    (∀ ga next : correlationGA, (∀ g ∈ ga.population, fitness ga g = some g.fitness) →
      createNextGeneration ga = some next →
        ∀ g ∈ next.population, fitness next g = some g.fitness) ∧
    (∀ (popSize : Int) (crossover mutation : ℚ) (img roi : Mat) (minSqDiff : Nat → Nat → ℚ)
      (seed : RNG), (∀ x y, minSqDiff x y ≠ 0) →
        ∃ ga, construct popSize crossover mutation img roi minSqDiff seed = some ga ∧
          ∀ g ∈ ga.population, fitness ga g = some g.fitness) ∧
    (∀ (ga : correlationGA) (pool : List Gene_t), NoPerfectMatch ga →
      (∀ g ∈ ga.population, fitness ga g = some g.fitness) →
      selectionList ga = some pool → pool ≠ [] →
        ∃ next, createNextGeneration ga = some next ∧
          ∀ g ∈ next.population, fitness next g = some g.fitness) := by
  refine ⟨?_, ?_, ?_, ?_⟩
  · intro popSize crossover mutation img roi minSqDiff seed ga h
    exact (construct_fields popSize crossover mutation img roi minSqDiff seed ga h).2.2.2.2.2
  · intro ga next hc h
    exact createNextGeneration_cached ga next hc h
  · intro popSize crossover mutation img roi minSqDiff seed hmatch
    obtain ⟨ga, h, -⟩ := construct_total popSize crossover mutation img roi minSqDiff seed hmatch
    exact ⟨ga, h,
      (construct_fields popSize crossover mutation img roi minSqDiff seed ga h).2.2.2.2.2⟩
  · intro ga pool hmatch hc hpool hne
    obtain ⟨next, h, -⟩ := createNextGeneration_total ga pool hmatch hpool hne
    exact ⟨next, h, createNextGeneration_cached ga next hc h⟩

theorem exampleGA_cached :
    CachedFitness (exampleGA [⟨1, 2, 1 / 4⟩, ⟨3, 4, 1 / 8⟩] 1 1) := by
  intro g hg
  simp only [exampleGA, List.mem_cons, List.mem_singleton, List.not_mem_nil, or_false] at hg
  rcases hg with rfl | rfl
  · simp [fitness, exampleGA]; norm_num
  · simp [fitness, exampleGA]; norm_num

/-! ## Genes of the selection list -/

theorem exists_pos_of_sum_pos (l : List Gene_t) (h : 0 < (l.map Gene_t.fitness).sum) :
    ∃ g ∈ l, 0 < g.fitness := by
  apply List.exists_lt_of_sum_lt (fun _ => (0 : ℚ)) Gene_t.fitness
  simpa using h

theorem share_pos_iff (f sum : ℚ) (hsum : 0 < sum) : 0 < f / sum * 100 ↔ 0 < f := by
  constructor
  · intro h
    have h2 : f = f / sum * 100 * (sum / 100) := by field_simp
    rw [h2]
    positivity
  · intro h
    positivity

theorem selectionList_pos (ga : correlationGA) (hsize : SizeInvariant ga)
    (hsum : 0 < (ga.population.map Gene_t.fitness).sum) :
    ∃ pool, selectionList ga = some pool ∧ pool ≠ [] ∧
      ∀ g ∈ pool, g ∈ ga.population ∧ 0 < g.fitness := by
  refine ⟨_, selectionList_eq ga hsize (ne_of_gt hsum), ?_, ?_⟩
  · obtain ⟨g, hg, hpos⟩ := exists_pos_of_sum_pos ga.population hsum
    have hc : 0 < Int.ceil (g.fitness / (ga.population.map Gene_t.fitness).sum * 100) :=
      Int.ceil_pos.mpr ((share_pos_iff _ _ hsum).mpr hpos)
    have hmem : g ∈ ga.population.flatMap fun g => List.replicate
        (Int.ceil (g.fitness / (ga.population.map Gene_t.fitness).sum * 100)).toNat g := by
      refine List.mem_flatMap.mpr ⟨g, hg, List.mem_replicate.mpr ⟨?_, rfl⟩⟩
      omega
    exact List.ne_nil_of_mem hmem
  · intro g hg
    obtain ⟨a, ha, hga⟩ := List.mem_flatMap.mp hg
    obtain ⟨hn, rfl⟩ := List.mem_replicate.mp hga
    refine ⟨ha, (share_pos_iff _ _ hsum).mp (Int.ceil_pos.mp ?_)⟩
    omega

theorem forLoop_zero {σ : Type} (n : Int) (hn : n = 0) (body : Nat → σ → Option σ) (s : σ) :
    forLoop n body s = some s := by
  subst hn
  rfl

/-- C19. Selection draws only existing individuals: with `crossoverCount = 0`
and `mutationCount = 0`, on a population whose `sumFitness` is positive,
`createNextGeneration` completes and every gene of the new population is equal
(in `x`, `y` and `fitness`) to a gene of the population before the call, and has
positive fitness. -/
theorem selection_draws_existing (ga : correlationGA) (hsize : SizeInvariant ga)
    (hsum : 0 < (ga.population.map Gene_t.fitness).sum)
    (hc : ga.crossoverCount = 0) (hm : ga.mutationCount = 0) :
    ∃ next, createNextGeneration ga = some next ∧
      ∀ g ∈ next.population, g ∈ ga.population ∧ 0 < g.fitness := by
  obtain ⟨pool, hpool, hne, hmem⟩ := selectionList_pos ga hsize hsum
  obtain ⟨st0, h0, -⟩ := selectNext_total ga pool hne
  have h1 : crossoverLoop ga st0 = some st0 := forLoop_zero _ hc _ _
  have h2 : mutationLoop ga st0 = some st0 := forLoop_zero _ hm _ _
  refine ⟨⟨ga.crossoverCount, ga.mutationCount, st0.2, st0.1, ga.populationSize, ga.image,
    ga.correlation_template, ga.minSqDiff⟩, ?_, ?_⟩
  · unfold createNextGeneration
    rw [hpool, Option.some_bind, h0, Option.some_bind, h1, Option.some_bind, h2]
    rfl
  · intro g hg
    exact hmem g (selectNext_mem ga pool st0 h0 g hg)

theorem selection_draws_existing_witness :
    ∃ next, createNextGeneration (exampleGA [⟨1, 1, 1⟩, ⟨2, 2, 0⟩] 0 0) = some next ∧
      ∀ g ∈ next.population,
        g ∈ (exampleGA [⟨1, 1, 1⟩, ⟨2, 2, 0⟩] 0 0).population ∧ 0 < g.fitness :=
  selection_draws_existing (exampleGA [⟨1, 1, 1⟩, ⟨2, 2, 0⟩] 0 0)
    (by simp [SizeInvariant, exampleGA]) (by simp [exampleGA]) rfl rfl

theorem cached_fitness_invariant_witness :
    (∃ ga, construct 2 (1 / 2) (1 / 2) ⟨100, 80⟩ ⟨10, 10⟩ (fun x y => (x : ℚ) + (y : ℚ) + 1)
        ⟨fun k => 7 * k + 3, 0⟩ = some ga ∧
      ∀ g ∈ ga.population, fitness ga g = some g.fitness) ∧
    (∃ next, createNextGeneration (exampleGA [⟨1, 2, 1 / 4⟩, ⟨3, 4, 1 / 8⟩] 1 1) = some next ∧
      ∀ g ∈ next.population, fitness next g = some g.fitness) := by
  obtain ⟨pool, hpool, hne, -⟩ := selectionList_pos
    (exampleGA [⟨1, 2, 1 / 4⟩, ⟨3, 4, 1 / 8⟩] 1 1) (by simp [SizeInvariant, exampleGA])
    (by simp [exampleGA]; norm_num)
  exact ⟨cached_fitness_invariant.2.2.1 2 (1 / 2) (1 / 2) ⟨100, 80⟩ ⟨10, 10⟩
      (fun x y => (x : ℚ) + (y : ℚ) + 1) ⟨fun k => 7 * k + 3, 0⟩ (fun x y => by positivity),
    cached_fitness_invariant.2.2.2 (exampleGA [⟨1, 2, 1 / 4⟩, ⟨3, 4, 1 / 8⟩] 1 1) pool
      (exampleGA_noPerfectMatch _ _ _) exampleGA_cached hpool hne⟩

theorem selectionList_ten_to_forty (ga : correlationGA) (g1 g2 g3 g4 : Gene_t)
    (hpop : ga.population = [g1, g2, g3, g4]) (hsize : ga.populationSize = 4)
    (h1 : g1.fitness = 10) (h2 : g2.fitness = 20) (h3 : g3.fitness = 30)
    (h4 : g4.fitness = 40) :
    selectionList ga = some (List.replicate 10 g1 ++ (List.replicate 20 g2 ++
      (List.replicate 30 g3 ++ List.replicate 40 g4))) := by
  have hs : SizeInvariant ga := by rw [SizeInvariant, hpop, hsize]; rfl
  have hsum : (ga.population.map Gene_t.fitness).sum = 100 := by
    rw [hpop]
    simp only [List.map_cons, List.map_nil, List.sum_cons, List.sum_nil, h1, h2, h3, h4]
    norm_num
  have c1 : Int.ceil ((10 : ℚ) / 100 * 100) = 10 := by rw [Int.ceil_eq_iff]; norm_num
  have c2 : Int.ceil ((20 : ℚ) / 100 * 100) = 20 := by rw [Int.ceil_eq_iff]; norm_num
  have c3 : Int.ceil ((30 : ℚ) / 100 * 100) = 30 := by rw [Int.ceil_eq_iff]; norm_num
  have c4 : Int.ceil ((40 : ℚ) / 100 * 100) = 40 := by rw [Int.ceil_eq_iff]; norm_num
  rw [selectionList_eq ga hs (by rw [hsum]; norm_num), hsum, hpop]
  simp only [List.flatMap_cons, List.flatMap_nil, List.append_nil, h1, h2, h3, h4, c1, c2, c3,
    c4]
  rfl

theorem count_four_blocks_first (g1 g2 g3 g4 : Gene_t) (a b c d : Nat)
    (h2 : g2.fitness ≠ g1.fitness) (h3 : g3.fitness ≠ g1.fitness)
    (h4 : g4.fitness ≠ g1.fitness) :
    (List.replicate a g1 ++ (List.replicate b g2 ++ (List.replicate c g3 ++
      List.replicate d g4))).count g1 = a := by
  have e2 : g2 ≠ g1 := fun e => h2 (by rw [e])
  have e3 : g3 ≠ g1 := fun e => h3 (by rw [e])
  have e4 : g4 ≠ g1 := fun e => h4 (by rw [e])
  simp [List.count_append, List.count_replicate, e2, e3, e4]

theorem count_four_blocks_last (g1 g2 g3 g4 : Gene_t) (a b c d : Nat)
    (h1 : g1.fitness ≠ g4.fitness) (h2 : g2.fitness ≠ g4.fitness)
    (h3 : g3.fitness ≠ g4.fitness) :
    (List.replicate a g1 ++ (List.replicate b g2 ++ (List.replicate c g3 ++
      List.replicate d g4))).count g4 = d := by
  have e1 : g1 ≠ g4 := fun e => h1 (by rw [e])
  have e2 : g2 ≠ g4 := fun e => h2 (by rw [e])
  have e3 : g3 ≠ g4 := fun e => h3 (by rw [e])
  simp [List.count_append, List.count_replicate, e1, e2, e3]

/-- C17. Proportionality scenario: for a population of four genes with fitness
10, 20, 30 and 40, the selection list that `createNextGeneration` builds holds
10 copies of the fitness-10 gene and 40 copies of the fitness-40 gene, hence at
least four times as many of the latter. -/
theorem pool_proportion_scenario (ga : correlationGA) (x1 y1 x2 y2 x3 y3 x4 y4 : Nat)
    (hpop : ga.population = [⟨x1, y1, 10⟩, ⟨x2, y2, 20⟩, ⟨x3, y3, 30⟩, ⟨x4, y4, 40⟩])
    (hsize : ga.populationSize = 4) :
    ∃ pool, selectionList ga = some pool ∧
      pool.count ⟨x1, y1, 10⟩ = 10 ∧ pool.count ⟨x4, y4, 40⟩ = 40 ∧
      4 * pool.count ⟨x1, y1, 10⟩ ≤ pool.count ⟨x4, y4, 40⟩ := by
  have hcount1 := count_four_blocks_first ⟨x1, y1, 10⟩ ⟨x2, y2, 20⟩ ⟨x3, y3, 30⟩
    ⟨x4, y4, 40⟩ 10 20 30 40 (by simp) (by simp) (by simp)
  have hcount4 := count_four_blocks_last ⟨x1, y1, 10⟩ ⟨x2, y2, 20⟩ ⟨x3, y3, 30⟩
    ⟨x4, y4, 40⟩ 10 20 30 40 (by simp) (by simp) (by simp)
  refine ⟨_, selectionList_ten_to_forty ga _ _ _ _ hpop hsize rfl rfl rfl rfl, hcount1,
    hcount4, ?_⟩
  rw [hcount1, hcount4]

theorem pool_proportion_scenario_witness :
    ∃ pool, selectionList (exampleGA [⟨1, 1, 10⟩, ⟨2, 2, 20⟩, ⟨3, 3, 30⟩, ⟨4, 4, 40⟩] 1 0) =
        some pool ∧
      pool.count ⟨1, 1, 10⟩ = 10 ∧ pool.count ⟨4, 4, 40⟩ = 40 ∧
      4 * pool.count ⟨1, 1, 10⟩ ≤ pool.count ⟨4, 4, 40⟩ :=
  pool_proportion_scenario (exampleGA [⟨1, 1, 10⟩, ⟨2, 2, 20⟩, ⟨3, 3, 30⟩, ⟨4, 4, 40⟩] 1 0)
    1 1 2 2 3 3 4 4 rfl rfl

/-- C18. Pool counts are monotone in fitness: for every population with
`sumFitness > 0` the selection list consists, in population order, of `n g`
copies of each gene `g`, where `n` is monotone in the fitness (a gene with
fitness at least that of another is inserted at least as many times) and a gene
with fitness 0 is inserted zero times. -/
theorem pool_counts_monotone (ga : correlationGA) (hsize : SizeInvariant ga)
    (hsum : 0 < (ga.population.map Gene_t.fitness).sum) :
    ∃ n : Gene_t → Nat,
      selectionList ga = some (ga.population.flatMap fun g => List.replicate (n g) g) ∧
      (∀ g h : Gene_t, h.fitness ≤ g.fitness → n h ≤ n g) ∧
      (∀ g : Gene_t, g.fitness = 0 → n g = 0) := by
  refine ⟨fun g => (Int.ceil (g.fitness / (ga.population.map Gene_t.fitness).sum * 100)).toNat,
    selectionList_eq ga hsize (ne_of_gt hsum), ?_, ?_⟩
  · intro g h hle
    apply Int.toNat_le_toNat
    apply Int.ceil_mono
    have := div_le_div_of_nonneg_right hle (le_of_lt hsum)
    linarith
  · intro g hg
    simp [hg]

theorem pool_counts_monotone_witness :
    ∃ n : Gene_t → Nat,
      selectionList (exampleGA [⟨1, 1, 1⟩, ⟨2, 2, 0⟩] 0 0) =
        some ((exampleGA [⟨1, 1, 1⟩, ⟨2, 2, 0⟩] 0 0).population.flatMap
          fun g => List.replicate (n g) g) ∧
      (∀ g h : Gene_t, h.fitness ≤ g.fitness → n h ≤ n g) ∧
      (∀ g : Gene_t, g.fitness = 0 → n g = 0) :=
  pool_counts_monotone (exampleGA [⟨1, 1, 1⟩, ⟨2, 2, 0⟩] 0 0)
    (by simp [SizeInvariant, exampleGA]) (by simp [exampleGA])

/-! ## A perfect match -/

/-- C14. In a 100 x 80 image with a 10 x 10 template whose squared difference at
`(x, y)` is `(x - 3)^2 + (y - 4)^2`, the gene at `(3, 4)` passes the four range
checks and its match score is exactly 0: `fitness` divides 1 by that score and
yields no finite value. -/
theorem fitness_perfect_match_faults :
    ((3 : Int) < 100 ∧ (4 : Int) < 80 ∧ (3 : Int) + 10 < 100 ∧ (4 : Int) + 10 < 80) ∧
    ((3 : ℚ) - 3) ^ 2 + ((4 : ℚ) - 4) ^ 2 = 0 ∧
    fitness ⟨0, 0, ⟨fun k => 7 * k + 3, 0⟩, [], 0, ⟨100, 80⟩, ⟨10, 10⟩,
      fun x y => ((x : ℚ) - 3) ^ 2 + ((y : ℚ) - 4) ^ 2⟩ ⟨3, 4, 0⟩ = none := by
  refine ⟨by decide, by norm_num, ?_⟩
  simp [fitness]

/-! ## One mutation step -/

theorem flip_ne (x pos : Nat) (hpos : pos < 2) : ((x % 2 ^ 2) ^^^ 2 ^ pos) % 65536 ≠ x := by
  have h4 : x % 2 ^ 2 < 4 := Nat.mod_lt _ (by decide)
  intro h
  have hx : x % 2 ^ 2 = x := by
    rw [← h]
    interval_cases pos <;> interval_cases (x % 2 ^ 2) <;> decide
  rw [hx] at h h4
  interval_cases pos <;> interval_cases x <;> revert h <;> decide

theorem mutation_changes (A : Gene_t) (r : RNG) (m : Gene_t × RNG)
    (h : mutation A r = some m) :
    (m.1.x ≠ A.x ∧ m.1.y = A.y) ∨ (m.1.x = A.x ∧ m.1.y ≠ A.y) := by
  have hpos : ((r.random 2).2.random (sizeofUnsignedShort : Nat)).1 < 2 := by
    have := random_lt (r.random 2).2 (sizeofUnsignedShort : Nat) (by decide)
    have e : ((sizeofUnsignedShort : Nat) : Int) = 2 := rfl
    omega
  have hpos' : ((r.random 2).2.random (sizeofUnsignedShort : Nat)).1 < sizeofUnsignedShort :=
    hpos
  unfold mutation at h
  simp only [bitsetFlip, hpos', if_true, Option.map_some'] at h
  split_ifs at h with hxy
  · rw [← Option.some.inj h]
    exact Or.inl ⟨flip_ne A.x _ hpos, rfl⟩
  · rw [← Option.some.inj h]
    exact Or.inr ⟨rfl, flip_ne A.y _ hpos⟩

/-- C20. Mutation is unconditional and local: one mutation step on slot
`mutated`, holding `g`, completes (no location being a perfect match), leaves in
that slot a gene that differs from `g` in exactly one of `x` and `y`, whose
stored fitness is the value `fitness` computes for the new coordinates (no
comparison with the old fitness is made), and leaves every other slot
unchanged. -/
theorem mutationStep_unconditional_local (ga : correlationGA) (hmatch : NoPerfectMatch ga)
    (mutated : Nat) (next_population : List Gene_t) (r : RNG) (g : Gene_t)
    (hg : next_population[mutated]? = some g) :
    ∃ t g', mutationStep ga mutated (next_population, r) = some t ∧
      t.1[mutated]? = some g' ∧
      ((g'.x ≠ g.x ∧ g'.y = g.y) ∨ (g'.x = g.x ∧ g'.y ≠ g.y)) ∧
      fitness ga g' = some g'.fitness ∧
      t.1.length = next_population.length ∧
      ∀ j, j ≠ mutated → t.1[j]? = next_population[j]? := by
  have hlt : mutated < next_population.length := (List.getElem?_eq_some_iff.mp hg).1
  obtain ⟨m, hm, -⟩ := mutation_total g r
  obtain ⟨f, hf⟩ := fitness_total ga hmatch m.1
  refine ⟨(next_population.set mutated ⟨m.1.x, m.1.y, f⟩, m.2), ⟨m.1.x, m.1.y, f⟩, ?_, ?_,
    mutation_changes g r m hm, ?_, ?_, ?_⟩
  · unfold mutationStep
    simp only [hg, Option.some_bind, hm, hf, Option.map_some']
  · simp [hlt]
  · rw [← hf]
    exact fitness_eq_of_fields ga ga _ _ rfl rfl rfl rfl rfl
  · simp
  · intro j hj
    simp [List.getElem?_set, Ne.symm hj]

theorem mutationStep_unconditional_local_witness :
    ∃ t g', mutationStep (exampleGA [] 0 1) 0 ([⟨1, 2, 1 / 4⟩, ⟨3, 4, 1 / 8⟩],
        ⟨fun k => 7 * k + 3, 0⟩) = some t ∧
      t.1[0]? = some g' ∧
      ((g'.x ≠ 1 ∧ g'.y = 2) ∨ (g'.x = 1 ∧ g'.y ≠ 2)) ∧
      fitness (exampleGA [] 0 1) g' = some g'.fitness ∧
      t.1.length = [(⟨1, 2, 1 / 4⟩ : Gene_t), ⟨3, 4, 1 / 8⟩].length ∧
      ∀ j, j ≠ 0 → t.1[j]? = [(⟨1, 2, 1 / 4⟩ : Gene_t), ⟨3, 4, 1 / 8⟩][j]? :=
  mutationStep_unconditional_local (exampleGA [] 0 1) (exampleGA_noPerfectMatch _ _ _) 0
    [⟨1, 2, 1 / 4⟩, ⟨3, 4, 1 / 8⟩] ⟨fun k => 7 * k + 3, 0⟩ ⟨1, 2, 1 / 4⟩ rfl

/-! ## Calls of the template matcher -/

theorem fitnessTraced_result (ga : correlationGA) (gene : Gene_t) :
    (fitnessTraced ga gene).1 = fitness ga gene := by
  simp only [fitnessTraced, fitness]
  split_ifs <;> rfl

/-- C21. The template matcher is only reached in bounds: `fitness` invokes the
external match at most on the rectangle `(x, y, template width, template
height)` of its gene, and whenever it does, `x + template width < image width`
and `y + template height < image height` (and `x`, `y` are not negative). -/
theorem matcher_only_in_bounds (ga : correlationGA) (gene : Gene_t) (r : Rect)
    (hr : r ∈ (fitnessTraced ga gene).2) :
    (fitnessTraced ga gene).1 = fitness ga gene ∧
    r = ⟨gene.x, gene.y, ga.correlation_template.cols, ga.correlation_template.rows⟩ ∧
    0 ≤ r.x ∧ 0 ≤ r.y ∧
    r.x + r.width < ga.image.cols ∧ r.y + r.height < ga.image.rows := by
  refine ⟨fitnessTraced_result ga gene, ?_⟩
  simp only [fitnessTraced] at hr
  split_ifs at hr with h1 h2 h3 h4 h5 <;>
    first
    | (simp at hr; done)
    | (rw [List.mem_singleton.mp hr]
       exact ⟨rfl, Int.natCast_nonneg _, Int.natCast_nonneg _, not_le.mp h3, not_le.mp h4⟩)

theorem matcher_only_in_bounds_witness :
    (fitnessTraced (exampleGA [] 0 0) ⟨1, 2, 0⟩).1 = fitness (exampleGA [] 0 0) ⟨1, 2, 0⟩ ∧
    (⟨1, 2, 10, 10⟩ : Rect) = ⟨((⟨1, 2, 0⟩ : Gene_t).x : Int), ((⟨1, 2, 0⟩ : Gene_t).y : Int),
      (exampleGA [] 0 0).correlation_template.cols,
      (exampleGA [] 0 0).correlation_template.rows⟩ ∧
    0 ≤ (⟨1, 2, 10, 10⟩ : Rect).x ∧ 0 ≤ (⟨1, 2, 10, 10⟩ : Rect).y ∧
    (⟨1, 2, 10, 10⟩ : Rect).x + (⟨1, 2, 10, 10⟩ : Rect).width <
      (exampleGA [] 0 0).image.cols ∧
    (⟨1, 2, 10, 10⟩ : Rect).y + (⟨1, 2, 10, 10⟩ : Rect).height <
      (exampleGA [] 0 0).image.rows :=
  matcher_only_in_bounds (exampleGA [] 0 0) ⟨1, 2, 0⟩ ⟨1, 2, 10, 10⟩
    (by simp [fitnessTraced, exampleGA])

/-! ## The two bits of a mutation -/

theorem xor_lt_four (v b : Nat) (hv : v < 4) (hb : b < 2) : v ^^^ 2 ^ b < 4 := by
  interval_cases b <;> interval_cases v <;> decide

/-- C26. Mutation truncates the coordinate to two bits: for every gene and every
state of the generator, `mutation` completes, and for a bit index `b` in
`{0, 1}` either `x` becomes `(old x mod 4) xor 2^b` with `y` kept, or `y` becomes
`(old y mod 4) xor 2^b` with `x` kept; the new value of the mutated coordinate
lies in `0..3` whatever the old value was. -/
theorem mutation_two_bits (A : Gene_t) (r : RNG) :
    ∃ m b, mutation A r = some m ∧ b < 2 ∧
      ((m.1.x = (A.x % 4) ^^^ 2 ^ b ∧ m.1.x < 4 ∧ m.1.y = A.y) ∨
        (m.1.y = (A.y % 4) ^^^ 2 ^ b ∧ m.1.y < 4 ∧ m.1.x = A.x)) := by
  have hpos : ((r.random 2).2.random (sizeofUnsignedShort : Nat)).1 < 2 := by
    have := random_lt (r.random 2).2 (sizeofUnsignedShort : Nat) (by decide)
    have e : ((sizeofUnsignedShort : Nat) : Int) = 2 := rfl
    omega
  have hpos' : ((r.random 2).2.random (sizeofUnsignedShort : Nat)).1 < sizeofUnsignedShort :=
    hpos
  have hx := xor_lt_four (A.x % 4) _ (Nat.mod_lt _ (by decide)) hpos
  have hy := xor_lt_four (A.y % 4) _ (Nat.mod_lt _ (by decide)) hpos
  unfold mutation
  simp only [bitsetFlip, hpos', if_true, Option.map_some']
  have e4 : 2 ^ sizeofUnsignedShort = 4 := rfl
  split_ifs with hxy
  · refine ⟨_, _, rfl, hpos, Or.inl ⟨?_, ?_, rfl⟩⟩
    · show (bitsetOfNat sizeofUnsignedShort A.x ^^^ _) % 65536 = _
      rw [bitsetOfNat, e4]
      exact Nat.mod_eq_of_lt (by omega)
    · show (bitsetOfNat sizeofUnsignedShort A.x ^^^ _) % 65536 < 4
      rw [bitsetOfNat, e4]
      exact lt_of_le_of_lt (Nat.mod_le _ _) hx
  · refine ⟨_, _, rfl, hpos, Or.inr ⟨?_, ?_, rfl⟩⟩
    · show (bitsetOfNat sizeofUnsignedShort A.y ^^^ _) % 65536 = _
      rw [bitsetOfNat, e4]
      exact Nat.mod_eq_of_lt (by omega)
    · show (bitsetOfNat sizeofUnsignedShort A.y ^^^ _) % 65536 < 4
      rw [bitsetOfNat, e4]
      exact lt_of_le_of_lt (Nat.mod_le _ _) hy

/-! ## Lengths of blocks of copies -/

theorem length_flatMap_replicate (n : Gene_t → Nat) (l : List Gene_t) :
    (l.flatMap fun g => List.replicate (n g) g).length = (l.map n).sum := by
  induction l with
  | nil => rfl
  | cons a t ih =>
    rw [List.flatMap_cons, List.length_append, List.length_replicate, ih, List.map_cons,
      List.sum_cons]

theorem ceil_toNat_bounds (q : ℚ) (h : 0 ≤ q) :
    q ≤ ((Int.ceil q).toNat : ℚ) ∧ ((Int.ceil q).toNat : ℚ) < q + 1 := by
  have hc : 0 ≤ Int.ceil q := Int.ceil_nonneg h
  have e : ((Int.ceil q).toNat : ℤ) = Int.ceil q := Int.toNat_of_nonneg hc
  have e' : ((Int.ceil q).toNat : ℚ) = ((Int.ceil q : ℤ) : ℚ) := by
    exact_mod_cast congrArg (Int.cast : ℤ → ℚ) e
  rw [e']
  exact ⟨Int.le_ceil q, Int.ceil_lt_add_one q⟩

theorem sum_ceil_bounds (s : Gene_t → ℚ) (l : List Gene_t) (h : ∀ g ∈ l, 0 ≤ s g) :
    (l.map s).sum ≤ (((l.map fun g => (Int.ceil (s g)).toNat).sum : Nat) : ℚ) ∧
    (((l.map fun g => (Int.ceil (s g)).toNat).sum : Nat) : ℚ) ≤ (l.map s).sum + l.length ∧
    (l ≠ [] →
      (((l.map fun g => (Int.ceil (s g)).toNat).sum : Nat) : ℚ) < (l.map s).sum + l.length) := by
  induction l with
  | nil => simp
  | cons a t ih =>
    obtain ⟨ih1, ih2, -⟩ := ih fun g hg => h g (List.mem_cons_of_mem _ hg)
    obtain ⟨b1, b2⟩ := ceil_toNat_bounds (s a) (h a (List.mem_cons_self _ _))
    simp only [List.map_cons, List.sum_cons, List.length_cons, Nat.cast_add, Nat.cast_one]
    refine ⟨by linarith, by linarith, fun _ => by linarith⟩

/-! ## Indices -/

theorem sum_pos_of_nonneg (l : List Gene_t) (hnonneg : ∀ g ∈ l, 0 ≤ g.fitness)
    (hex : ∃ g ∈ l, 0 < g.fitness) : 0 < (l.map Gene_t.fitness).sum := by
  induction l with
  | nil =>
    obtain ⟨g, hg, -⟩ := hex
    simp at hg
  | cons a t ih =>
    rw [List.map_cons, List.sum_cons]
    have hrest : 0 ≤ (t.map Gene_t.fitness).sum :=
      List.sum_nonneg (by
        intro x hx
        obtain ⟨g, hg, rfl⟩ := List.mem_map.mp hx
        exact hnonneg g (List.mem_cons_of_mem _ hg))
    obtain ⟨g, hg, hpos⟩ := hex
    rcases List.mem_cons.mp hg with rfl | hg
    · linarith
    · have := ih (fun g hg => hnonneg g (List.mem_cons_of_mem _ hg)) ⟨g, hg, hpos⟩
      have := hnonneg a (List.mem_cons_self _ _)
      linarith

/-- C27. Indexing in `createNextGeneration` is in range: if `populationSize > 0`,
every fitness is non-negative and at least one is positive, then the selection
list is built and is non-empty, every index drawn into it is below its size,
every index drawn for `first`, `second` and `mutated` is below `populationSize`,
the size of `next_population` (on which every completed call ends), and, no
location being a perfect match, the call completes without an access out of
range. -/
theorem indexing_in_range (ga : correlationGA) (hsize : SizeInvariant ga)
    (hpos : 0 < ga.populationSize) (hnonneg : ∀ g ∈ ga.population, 0 ≤ g.fitness)
    (hex : ∃ g ∈ ga.population, 0 < g.fitness) :
    ∃ pool, selectionList ga = some pool ∧ pool ≠ [] ∧
      (∀ r : RNG, (r.random (pool.length : Nat)).1 < pool.length) ∧
      (∀ st, selectNext ga pool = some st → st.1.length = ga.populationSize.toNat) ∧
      (∀ r : RNG, (r.random ga.populationSize).1 < ga.populationSize.toNat) ∧
      (NoPerfectMatch ga → ∃ next, createNextGeneration ga = some next ∧
        next.population.length = ga.populationSize.toNat) := by
  have hsum := sum_pos_of_nonneg ga.population hnonneg hex
  obtain ⟨pool, hpool, hne, -⟩ := selectionList_pos ga hsize hsum
  refine ⟨pool, hpool, hne, fun r => random_lt_length r pool hne, ?_, ?_, ?_⟩
  · intro st hst
    obtain ⟨st', hst', hlen⟩ := selectNext_total ga pool hne
    rw [hst] at hst'
    rw [Option.some.inj hst']
    exact hlen
  · intro r
    have := random_lt r ga.populationSize hpos
    omega
  · intro hmatch
    obtain ⟨next, hnext, -, hlen⟩ := createNextGeneration_total ga pool hmatch hpool hne
    exact ⟨next, hnext, hlen⟩

theorem indexing_in_range_witness :
    ∃ pool, selectionList (exampleGA [⟨1, 1, 1⟩, ⟨2, 2, 2⟩] 1 1) = some pool ∧ pool ≠ [] ∧
      (∀ r : RNG, (r.random (pool.length : Nat)).1 < pool.length) ∧
      (∀ r : RNG, (r.random (exampleGA [⟨1, 1, 1⟩, ⟨2, 2, 2⟩] 1 1).populationSize).1 <
        (exampleGA [⟨1, 1, 1⟩, ⟨2, 2, 2⟩] 1 1).populationSize.toNat) ∧
      ∃ next, createNextGeneration (exampleGA [⟨1, 1, 1⟩, ⟨2, 2, 2⟩] 1 1) = some next ∧
        next.population.length =
          (exampleGA [⟨1, 1, 1⟩, ⟨2, 2, 2⟩] 1 1).populationSize.toNat := by
  obtain ⟨pool, h1, h2, h3, -, h5, h6⟩ :=
    indexing_in_range (exampleGA [⟨1, 1, 1⟩, ⟨2, 2, 2⟩] 1 1)
      (by simp [SizeInvariant, exampleGA]) (by simp [exampleGA]) (by simp [exampleGA])
      ⟨⟨1, 1, 1⟩, by simp [exampleGA], by norm_num⟩
  exact ⟨pool, h1, h2, h3, h5, h6 (exampleGA_noPerfectMatch _ _ _)⟩

/-! ## Coordinates after cross-over -/

theorem crossoverStep_same_slot (ga : correlationGA) (k : Nat) (np : List Gene_t) (g : Gene_t)
    (hk : np[k]? = some g) (hc : fitness ga g = some g.fitness) :
    crossoverStep ga k k np = some np := by
  have hf : fitness ga (crossover g g) = some g.fitness := by
    rw [← hc]
    exact fitness_eq_of_fields ga ga _ _ rfl rfl rfl rfl rfl
  rw [crossoverStep_eq ga k k np g g g.fitness g.fitness hk hk hf hf]
  have hirr : ¬ g.fitness > g.fitness := lt_irrefl _
  simp only [hirr, if_false, hk, Option.map_some']

theorem createNextGeneration_coordinates (ga next : correlationGA) (hm : ga.mutationCount = 0)
    (h : createNextGeneration ga = some next) :
    ∀ g ∈ next.population,
      (∃ a ∈ ga.population, a.x = g.x) ∧ (∃ b ∈ ga.population, b.y = g.y) := by
  unfold createNextGeneration at h
  simp only [Option.bind_eq_some, Option.map_eq_some'] at h
  obtain ⟨pool, hpool, st0, h0, st1, h1, st2, h2, e⟩ := h
  have c0 : ∀ g ∈ st0.1,
      (∃ a ∈ ga.population, a.x = g.x) ∧ (∃ b ∈ ga.population, b.y = g.y) := by
    intro g hg
    have hmem := selectionList_mem ga pool hpool g (selectNext_mem ga pool st0 h0 g hg)
    exact ⟨⟨g, hmem, rfl⟩, ⟨g, hmem, rfl⟩⟩
  have c1 := crossoverLoop_forall ga
    (fun g => (∃ a ∈ ga.population, a.x = g.x) ∧ (∃ b ∈ ga.population, b.y = g.y))
    (by
      intro pf ps f hpf hps _
      exact ⟨hpf.1, hps.2⟩)
    st0 st1 h1 c0
  have e2 : st2 = st1 := by
    have : mutationLoop ga st1 = some st1 := forLoop_zero _ hm _ _
    rw [this] at h2
    exact (Option.some.inj h2).symm
  intro g hg
  subst e
  subst e2
  exact c1 g hg

/-- C29. Cross-over introduces no new coordinate values: with `mutationCount =
0`, after every `createNextGeneration` that completes, each `x` in the population
is the `x` of some gene of the previous population and each `y` is the `y` of
some gene of the previous population; and a cross-over step with `first =
second` on a slot whose gene carries the fitness of its coordinates leaves the
population unchanged. -/
theorem crossover_no_new_coordinates (ga : correlationGA) (hm : ga.mutationCount = 0) :
    (∀ next, createNextGeneration ga = some next →
      ∀ g ∈ next.population,
        (∃ a ∈ ga.population, a.x = g.x) ∧ (∃ b ∈ ga.population, b.y = g.y)) ∧
    (∀ (k : Nat) (next_population : List Gene_t) (g : Gene_t),
      next_population[k]? = some g → fitness ga g = some g.fitness →
        crossoverStep ga k k next_population = some next_population) :=
  ⟨fun next h => createNextGeneration_coordinates ga next hm h,
    fun k np g hk hc => crossoverStep_same_slot ga k np g hk hc⟩

theorem crossover_no_new_coordinates_witness :
    (∃ next, createNextGeneration (exampleGA [⟨1, 2, 1 / 4⟩, ⟨3, 4, 1 / 8⟩] 1 0) = some next ∧
      ∀ g ∈ next.population,
        (∃ a ∈ (exampleGA [⟨1, 2, 1 / 4⟩, ⟨3, 4, 1 / 8⟩] 1 0).population, a.x = g.x) ∧
        (∃ b ∈ (exampleGA [⟨1, 2, 1 / 4⟩, ⟨3, 4, 1 / 8⟩] 1 0).population, b.y = g.y)) ∧
    crossoverStep (exampleGA [⟨1, 2, 1 / 4⟩, ⟨3, 4, 1 / 8⟩] 1 0) 0 0
      [⟨1, 2, 1 / 4⟩, ⟨3, 4, 1 / 8⟩] = some [⟨1, 2, 1 / 4⟩, ⟨3, 4, 1 / 8⟩] := by
  have h := crossover_no_new_coordinates (exampleGA [⟨1, 2, 1 / 4⟩, ⟨3, 4, 1 / 8⟩] 1 0) rfl
  obtain ⟨pool, hpool, hne, -⟩ := selectionList_pos
    (exampleGA [⟨1, 2, 1 / 4⟩, ⟨3, 4, 1 / 8⟩] 1 0) (by simp [SizeInvariant, exampleGA])
    (by simp [exampleGA]; norm_num)
  obtain ⟨next, hnext, -⟩ := createNextGeneration_total
    (exampleGA [⟨1, 2, 1 / 4⟩, ⟨3, 4, 1 / 8⟩] 1 0) pool (exampleGA_noPerfectMatch _ _ _)
    hpool hne
  exact ⟨⟨next, hnext, h.1 next hnext⟩,
    h.2 0 [⟨1, 2, 1 / 4⟩, ⟨3, 4, 1 / 8⟩] ⟨1, 2, 1 / 4⟩ rfl
      (by simp [fitness, exampleGA]; norm_num)⟩

/-! ## Loops with a bounded body -/

theorem forLoopFrom_total_lt {σ : Type} (P : Nat → σ → Prop) (body : Nat → σ → Option σ)
    (k i : Nat)
    (hstep : ∀ j s, i ≤ j → j < i + k → P j s → ∃ t, body j s = some t ∧ P (j + 1) t)
    (s : σ) (h : P i s) :
    ∃ t, forLoopFrom body i k s = some t ∧ P (i + k) t := by
  induction k generalizing i s with
  | zero => exact ⟨s, rfl, h⟩
  | succ k ih =>
    obtain ⟨t, ht, hP⟩ := hstep i s (le_refl _) (by omega) h
    obtain ⟨u, hu, hQ⟩ := ih (i + 1)
      (fun j s' h1 h2 hp => hstep j s' (by omega) (by omega) hp) t hP
    refine ⟨u, ?_, ?_⟩
    · rw [forLoopFrom, ht]; exact hu
    · have : i + (k + 1) = i + 1 + k := by omega
      rw [this]; exact hQ

end GA

namespace SelectLines

/-- C16. With `min = 1` and `max = 2` on the three-line input `a`, `b`, `c`, the
tool writes the lines `b` and `c`, the second and third, not the first and
second; with `min = 1` and `max = 3`, the whole range of the usage note, it
writes `b` and `c` and drops line 1: `lineN` counts from 0. -/
theorem main_counts_from_zero :
    main 1 2 ['a', Char.ofNat 10, 'b', Char.ofNat 10, 'c', Char.ofNat 10] =
      some [some ['b'], some ['c']] ∧
    main 1 3 ['a', Char.ofNat 10, 'b', Char.ofNat 10, 'c', Char.ofNat 10] =
      some [some ['b'], some ['c']] := by
  constructor <;> decide

end SelectLines

namespace DecisionTree

theorem wrapInt32_add_left (a b : Int) : wrapInt32 (wrapInt32 a + b) = wrapInt32 (a + b) := by
  unfold wrapInt32
  omega

theorem wrapInt32_range (z : Int) :
    -2147483648 ≤ wrapInt32 z ∧ wrapInt32 z < 2147483648 ∧
      (wrapInt32 z - z) % 4294967296 = 0 := by
  unfold wrapInt32
  omega

theorem shift_add_eq (h : Int) : wrapInt32 (wrapInt32 (h * 2 ^ 5) + h) = wrapInt32 (33 * h) := by
  rw [wrapInt32_add_left]
  congr 1
  ring

theorem hashStep_eq (h c : Int) : hashStep h c = wrapInt32 (33 * h + c) := by
  unfold hashStep
  rw [wrapInt32_add_left, add_assoc, wrapInt32_add_left]
  congr 1
  ring

theorem hashLoop_append (s : List Int) (c h : Int) (hs : ∀ a ∈ s, a ≠ 0) (hc : c ≠ 0) :
    hashLoop (s ++ [c]) h = hashStep (hashLoop s h) c := by
  induction s generalizing h with
  | nil => simp [hashLoop, hc]
  | cons a t ih =>
    have ha : a ≠ 0 := hs a (List.mem_cons_self _ _)
    simp only [List.cons_append, hashLoop, ha, if_false]
    exact ih _ fun b hb => hs b (List.mem_cons_of_mem _ hb)

/-- C25. String hash is djb2 with 32-bit wrap-around: the hash of the empty
string is 5381; for every string `s` and character `c` (none of them the
terminating 0), `hash(s followed by c)` is `33 * hash(s) + c` reduced modulo
`2^32` into the range of a signed 32-bit `int`; and `(h << 5) + h` equals
`33 * h` in that arithmetic. -/
theorem hash_djb2 :
    hash [] = 5381 ∧
    (∀ (s : List Int) (c : Int), (∀ a ∈ s, a ≠ 0) → c ≠ 0 →
      hash (s ++ [c]) = wrapInt32 (33 * hash s + c)) ∧
    (∀ h : Int, wrapInt32 (wrapInt32 (h * 2 ^ 5) + h) = wrapInt32 (33 * h)) ∧
    (∀ z : Int, -2147483648 ≤ wrapInt32 z ∧ wrapInt32 z < 2147483648 ∧
      (wrapInt32 z - z) % 4294967296 = 0) := by
  refine ⟨rfl, ?_, shift_add_eq, wrapInt32_range⟩
  intro s c hs hc
  unfold hash
  rw [hashLoop_append s c 5381 hs hc, hashStep_eq]

theorem hash_djb2_witness :
    hash [] = 5381 ∧ hash ([104] ++ [105]) = wrapInt32 (33 * hash [104] + 105) ∧
    wrapInt32 (wrapInt32 (5381 * 2 ^ 5) + 5381) = wrapInt32 (33 * 5381) :=
  ⟨hash_djb2.1,
    hash_djb2.2.1 [104] 105 (by decide) (by decide),
    hash_djb2.2.2.1 5381⟩

end DecisionTree

namespace OpticalDigits.BoostTree

open GA in
/-- C24. Boosted-tree class decision: for a test sample whose ten per-class
summed weak responses all exceed `INT_MIN`, the loop over the classes ends with
`best_class` in `0..9`, `max_sum` the summed response of `best_class`, no class
with a greater summed response, and every class of smaller index with a strictly
smaller one: `best_class` is the smallest class index whose summed response is
maximal. -/
theorem best_class_first_maximum (responseSum : Nat → ℚ) (best_class : Nat)
    (h : ∀ c, c < NUMBER_OF_CLASSES → (INT_MIN : ℚ) < responseSum c) :
    ∃ max_sum best, classLoop responseSum best_class = some (max_sum, best) ∧
      best < NUMBER_OF_CLASSES ∧ max_sum = responseSum best ∧
      (∀ c, c < NUMBER_OF_CLASSES → responseSum c ≤ responseSum best) ∧
      (∀ c, c < best → responseSum c < responseSum best) := by
  have key := forLoopFrom_total
    (fun c (st : ℚ × Nat) =>
      (c = 0 ∧ st = ((INT_MIN : ℚ), best_class)) ∨
      (0 < c ∧ st.2 < c ∧ st.1 = responseSum st.2 ∧
        (∀ c', c' < c → responseSum c' ≤ responseSum st.2) ∧
        (∀ c', c' < st.2 → responseSum c' < responseSum st.2)))
    (fun c st => some (if responseSum c > st.1 then (responseSum c, c) else st))
    (by
      intro c st hst
      refine ⟨_, rfl, Or.inr ?_⟩
      rcases hst with ⟨hc, hst⟩ | ⟨hc, hlt, hmax, hle, hfirst⟩
      · subst hc
        subst hst
        have h0 : responseSum 0 > ((INT_MIN : Int) : ℚ) := h 0 (by decide)
        rw [if_pos h0]
        refine ⟨by omega, by omega, rfl, ?_, ?_⟩
        · intro c' hc'
          have : c' = 0 := by omega
          rw [this]
        · intro c' hc'
          omega
      · split_ifs with hgt
        · rw [hmax] at hgt
          refine ⟨by omega, by omega, rfl, ?_, ?_⟩
          · intro c' hc'
            rcases Nat.lt_succ_iff_lt_or_eq.mp hc' with hlt' | heq
            · exact le_trans (hle c' hlt') (le_of_lt hgt)
            · rw [heq]
          · intro c' hc'
            exact lt_of_le_of_lt (hle c' hc') hgt
        · rw [hmax] at hgt
          refine ⟨by omega, by omega, hmax, ?_, hfirst⟩
          intro c' hc'
          rcases Nat.lt_succ_iff_lt_or_eq.mp hc' with hlt' | heq
          · exact hle c' hlt'
          · rw [heq]
            exact not_lt.mp hgt)
    NUMBER_OF_CLASSES 0 ((INT_MIN : ℚ), best_class) (by simp)
  obtain ⟨t, ht, hP⟩ := key
  rcases hP with ⟨hc, -⟩ | ⟨-, hlt, hmax, hle, hfirst⟩
  · exact absurd hc (by decide)
  · refine ⟨t.1, t.2, ht, ?_, hmax, ?_, hfirst⟩
    · simpa using hlt
    · intro c hc
      exact hle c (by simpa using hc)

theorem best_class_first_maximum_witness :
    ∃ max_sum best,
      classLoop (fun c => if c = 3 ∨ c = 7 then 5 else -1) 9 = some (max_sum, best) ∧
      best < NUMBER_OF_CLASSES ∧
      max_sum = (fun c => if c = 3 ∨ c = 7 then (5 : ℚ) else -1) best ∧
      (∀ c, c < NUMBER_OF_CLASSES →
        (fun c => if c = 3 ∨ c = 7 then (5 : ℚ) else -1) c ≤
          (fun c => if c = 3 ∨ c = 7 then (5 : ℚ) else -1) best) ∧
      (∀ c, c < best →
        (fun c => if c = 3 ∨ c = 7 then (5 : ℚ) else -1) c <
          (fun c => if c = 3 ∨ c = 7 then (5 : ℚ) else -1) best) :=
  best_class_first_maximum (fun c => if c = 3 ∨ c = 7 then 5 else -1) 9
    (by
      intro c _
      simp only [INT_MIN]
      split_ifs <;> norm_num)

end OpticalDigits.BoostTree

namespace OpticalDigits

theorem Mat.write_some {α : Type} (m : Mat α) (r c : Nat) (v : α) (hr : r < m.rows)
    (hc : c < m.cols) :
    m.write r c v =
      some ⟨m.rows, m.cols, fun r' c' => if r' = r ∧ c' = c then v else m.elems r' c'⟩ := by
  unfold Mat.write
  rw [if_pos ⟨hr, hc⟩]

theorem Mat.read_some {α : Type} (m : Mat α) (r c : Nat) (hr : r < m.rows) (hc : c < m.cols) :
    m.read r c = some (m.elems r c) := by
  unfold Mat.read
  rw [if_pos ⟨hr, hc⟩]

theorem toInt_natCast (c : Nat) : toInt (c : ℚ) = (c : Int) := by
  unfold toInt
  rw [if_pos (Nat.cast_nonneg c)]
  exact Int.floor_natCast c

end OpticalDigits

namespace OpticalDigits.BoostTree

open GA in
theorem copy_loop (td : Mat ℚ) (i R : Nat) (nd : Mat ℚ) (hi : i < td.rows)
    (htd : td.cols = 64) (hR : R < nd.rows) (hcols : nd.cols = 65) :
    ∃ nd', forLoopFrom (fun k nd => (td.read i k).bind fun v => nd.write R k v) 0 64 nd =
        some nd' ∧
      nd'.rows = nd.rows ∧ nd'.cols = nd.cols ∧
      ∀ r' c', nd'.elems r' c' = if r' = R ∧ c' < 64 then td.elems i c' else nd.elems r' c' := by
  have key := forLoopFrom_total_lt
    (fun k (m : Mat ℚ) => m.rows = nd.rows ∧ m.cols = nd.cols ∧
      ∀ r' c', m.elems r' c' = if r' = R ∧ c' < k then td.elems i c' else nd.elems r' c')
    (fun k nd => (td.read i k).bind fun v => nd.write R k v) 64 0
    (by
      intro k m _ hk hm
      obtain ⟨h1, h2, h3⟩ := hm
      beta_reduce
      rw [Mat.read_some td i k hi (by omega), Option.some_bind,
        Mat.write_some m R k _ (by omega) (by omega)]
      refine ⟨_, rfl, h1, h2, ?_⟩
      intro r' c'
      show (if r' = R ∧ c' = k then td.elems i k else m.elems r' c') = _
      rw [h3]
      by_cases hr : r' = R
      · by_cases hc : c' = k
        · subst hc
          simp [hr]
        · have e : (c' < k + 1) = (c' < k) := by
            apply propext
            omega
          simp only [hr, hc, and_false, if_false, true_and, e]
      · simp [hr])
    nd ⟨rfl, rfl, by intro r' c'; simp⟩
  obtain ⟨t, ht, h1, h2, h3⟩ := key
  exact ⟨t, ht, h1, h2, by simpa using h3⟩

theorem unrollRow_spec (td tc : Mat ℚ) (i j : Nat) (st : Unrolled) (hi : i < td.rows)
    (htd : td.cols = 64) (hi' : i < tc.rows) (htc : 0 < tc.cols)
    (hR : i * 10 + j < st.new_data.rows) (hcols : st.new_data.cols = 65)
    (hR' : i * 10 + j < st.new_responses.rows) (hcols' : 0 < st.new_responses.cols) :
    ∃ st', unrollRow td tc i j st = some st' ∧
      st'.new_data.rows = st.new_data.rows ∧ st'.new_data.cols = st.new_data.cols ∧
      st'.new_responses.rows = st.new_responses.rows ∧
      st'.new_responses.cols = st.new_responses.cols ∧
      (∀ r' c', st'.new_data.elems r' c' =
        if r' = i * 10 + j ∧ c' = 64 then (j : ℚ)
        else if r' = i * 10 + j ∧ c' < 64 then td.elems i c' else st.new_data.elems r' c') ∧
      (∀ r' c', st'.new_responses.elems r' c' =
        if r' = i * 10 + j ∧ c' = 0 then (if toInt (tc.elems i 0) = (j : Int) then 1 else 0)
        else st.new_responses.elems r' c') := by
  obtain ⟨nd, hnd, h1, h2, h3⟩ := copy_loop td i (i * 10 + j) st.new_data hi htd hR hcols
  unfold unrollRow
  simp only [NUMBER_OF_CLASSES, ATTRIBUTES_PER_SAMPLE]
  rw [hnd, Option.some_bind, Mat.write_some nd _ 64 _ (by omega) (by omega), Option.some_bind,
    Mat.read_some tc i 0 hi' htc, Option.some_bind,
    Mat.write_some st.new_responses _ 0 _ hR' hcols', Option.map_some']
  refine ⟨_, rfl, h1, h2, rfl, rfl, ?_, ?_⟩
  · intro r' c'
    show (if r' = i * 10 + j ∧ c' = 64 then (j : ℚ) else nd.elems r' c') = _
    rw [h3]
  · intro r' c'
    rfl

end OpticalDigits.BoostTree

namespace OpticalDigits.BoostTree

theorem unrollRow_step (td tc : Mat ℚ) (total i j : Nat) (st : Unrolled) (hi : i < td.rows)
    (htd : td.cols = 64) (hi' : i < tc.rows) (htc : 0 < tc.cols) (hj : j < 10)
    (hR : i * 10 + j < total) (h : UnrolledUpTo td tc total (i * 10 + j) st) :
    ∃ st', unrollRow td tc i j st = some st' ∧ UnrolledUpTo td tc total (i * 10 + j + 1) st' := by
  obtain ⟨d1, d2, d3, d4, hrows⟩ := h
  obtain ⟨st', hrun, e1, e2, e3, e4, hdata, hresp⟩ := unrollRow_spec td tc i j st hi htd hi' htc
    (by omega) d2 (by omega) (by omega)
  refine ⟨st', hrun, by omega, by omega, by omega, by omega, ?_⟩
  intro r hr
  by_cases hrR : r = i * 10 + j
  · have hdiv : r / 10 = i := by omega
    have hmod : r % 10 = j := by omega
    refine ⟨?_, ?_, ?_⟩
    · intro k hk
      have hk64 : ¬ k = 64 := by omega
      rw [hdata, hdiv]
      simp only [hrR, hk64, and_false, if_false, hk, and_self, if_true]
    · rw [hdata, hmod]
      simp only [hrR, and_self, if_true]
    · rw [hresp, hdiv, hmod]
      simp only [hrR, and_self, if_true]
  · obtain ⟨o1, o2, o3⟩ := hrows r (by omega)
    refine ⟨?_, ?_, ?_⟩
    · intro k hk
      rw [hdata]
      simp only [hrR, false_and, if_false]
      exact o1 k hk
    · rw [hdata]
      simp only [hrR, false_and, if_false]
      exact o2
    · rw [hresp]
      simp only [hrR, false_and, if_false]
      exact o3

open GA in
theorem unroll_total (td tc : Mat ℚ) (st : Unrolled) (htd : td.cols = 64)
    (htdr : td.rows = NUMBER_OF_TRAINING_SAMPLES) (htcr : tc.rows = NUMBER_OF_TRAINING_SAMPLES)
    (htc : 0 < tc.cols)
    (h : UnrolledUpTo td tc (NUMBER_OF_TRAINING_SAMPLES * 10) 0 st) :
    ∃ st', unroll td tc st = some st' ∧
      UnrolledUpTo td tc (NUMBER_OF_TRAINING_SAMPLES * 10) (NUMBER_OF_TRAINING_SAMPLES * 10)
        st' := by
  have key := forLoopFrom_total_lt
    (fun i st => UnrolledUpTo td tc (NUMBER_OF_TRAINING_SAMPLES * 10) (i * 10) st)
    (fun i st => forLoopFrom (fun j st => unrollRow td tc i j st) 0 NUMBER_OF_CLASSES st)
    NUMBER_OF_TRAINING_SAMPLES 0
    (by
      intro i s _ hi hs
      have inner := forLoopFrom_total_lt
        (fun j st => UnrolledUpTo td tc (NUMBER_OF_TRAINING_SAMPLES * 10) (i * 10 + j) st)
        (fun j st => unrollRow td tc i j st) NUMBER_OF_CLASSES 0
        (by
          intro j s' _ hj hs'
          have hj10 : j < 10 := by
            simp only [NUMBER_OF_CLASSES] at hj
            omega
          exact unrollRow_step td tc _ i j s' (by omega) htd (by omega) htc hj10 (by omega) hs')
        s hs
      obtain ⟨t, ht, hP⟩ := inner
      refine ⟨t, ht, ?_⟩
      have e : 0 + NUMBER_OF_CLASSES = 10 := rfl
      have e2 : i * 10 + (0 + NUMBER_OF_CLASSES) = (i + 1) * 10 := by rw [e]; ring
      rw [e2] at hP
      exact hP)
    st (by simpa using h)
  obtain ⟨t, ht, hP⟩ := key
  refine ⟨t, ht, ?_⟩
  simpa using hP

end OpticalDigits.BoostTree

namespace OpticalDigits.BoostTree

/-- C22. Boosted-tree unrolling: the unrolling loops of `main` complete, and for
every training sample `i` and every `j` in `0..9`, row `i*10+j` of `new_data`
carries the 64 attributes of sample `i` plus the extra attribute `j`; when the
class label of sample `i` is `label` in `0..9`, row `i*10+j` of `new_responses`
is 1 for `j = label` and 0 for the other nine; distinct `(i, j)` give distinct
rows, and every one of the `10*N` rows is of the form `i*10+j`. -/
theorem unrolled_rows (trainData trainLabels : Nat → Nat → ℚ) (u1 : Nat → Nat → ℚ)
    (u2 : Nat → Nat → Int) :
    ∃ res, mainUnroll trainData trainLabels u1 u2 = some res ∧
      res.new_data.rows = NUMBER_OF_TRAINING_SAMPLES * NUMBER_OF_CLASSES ∧
      res.new_responses.rows = NUMBER_OF_TRAINING_SAMPLES * NUMBER_OF_CLASSES ∧
      (∀ i j, i < NUMBER_OF_TRAINING_SAMPLES → j < NUMBER_OF_CLASSES →
        (∀ k, k < ATTRIBUTES_PER_SAMPLE →
          res.new_data.read (i * NUMBER_OF_CLASSES + j) k = some (trainData i k)) ∧
        res.new_data.read (i * NUMBER_OF_CLASSES + j) ATTRIBUTES_PER_SAMPLE = some (j : ℚ) ∧
        (∀ label : Nat, label < NUMBER_OF_CLASSES → trainLabels i 0 = (label : ℚ) →
          res.new_responses.read (i * NUMBER_OF_CLASSES + j) 0 =
            some (if j = label then 1 else 0))) ∧
      (∀ i j i' j', j < NUMBER_OF_CLASSES → j' < NUMBER_OF_CLASSES →
        i * NUMBER_OF_CLASSES + j = i' * NUMBER_OF_CLASSES + j' → i = i' ∧ j = j') ∧
      (∀ r, r < NUMBER_OF_TRAINING_SAMPLES * NUMBER_OF_CLASSES →
        ∃ i j, i < NUMBER_OF_TRAINING_SAMPLES ∧ j < NUMBER_OF_CLASSES ∧
          r = i * NUMBER_OF_CLASSES + j) := by
  obtain ⟨res, hrun, d1, d2, d3, d4, hrows⟩ := unroll_total
    ⟨NUMBER_OF_TRAINING_SAMPLES, ATTRIBUTES_PER_SAMPLE, trainData⟩
    ⟨NUMBER_OF_TRAINING_SAMPLES, 1, trainLabels⟩
    ⟨Mat.create (NUMBER_OF_TRAINING_SAMPLES * NUMBER_OF_CLASSES) (ATTRIBUTES_PER_SAMPLE + 1) u1,
      Mat.create (NUMBER_OF_TRAINING_SAMPLES * NUMBER_OF_CLASSES) 1 u2⟩
    rfl rfl rfl Nat.one_pos ⟨rfl, rfl, rfl, rfl, fun r hr => absurd hr (Nat.not_lt_zero r)⟩
  refine ⟨res, hrun, d1, d3, ?_, ?_, ?_⟩
  · intro i j hi hj
    simp only [NUMBER_OF_CLASSES, ATTRIBUTES_PER_SAMPLE] at hj ⊢
    have hR : i * 10 + j < NUMBER_OF_TRAINING_SAMPLES * 10 := by omega
    obtain ⟨o1, o2, o3⟩ := hrows (i * 10 + j) hR
    have hdiv : (i * 10 + j) / 10 = i := by omega
    have hmod : (i * 10 + j) % 10 = j := by omega
    rw [hdiv] at o1 o3
    rw [hmod] at o2 o3
    refine ⟨?_, ?_, ?_⟩
    · intro k hk
      rw [Mat.read_some _ _ _ (by omega) (by omega), o1 k hk]
    · rw [Mat.read_some _ _ _ (by omega) (by omega), o2]
    · intro label _ hlabel
      rw [Mat.read_some _ _ _ (by omega) (by omega), o3]
      have e : toInt (trainLabels i 0) = (label : Int) := by
        rw [hlabel]
        exact toInt_natCast label
      rw [e]
      by_cases hjl : j = label
      · simp [hjl]
      · have : ¬ (label : Int) = (j : Int) := by omega
        simp [hjl, this]
  · intro i j i' j' hj hj' h
    simp only [NUMBER_OF_CLASSES] at hj hj' h
    omega
  · intro r hr
    simp only [NUMBER_OF_CLASSES] at hr ⊢
    exact ⟨r / 10, r % 10, by omega, by omega, by omega⟩

end OpticalDigits.BoostTree

namespace OpticalDigits.BoostTree

theorem unrolled_rows_witness :
    ∃ res, mainUnroll (fun _ _ => 0) (fun _ _ => 3) (fun _ _ => 7) (fun _ _ => 9) = some res ∧
      res.new_data.read (5 * NUMBER_OF_CLASSES + 4) ATTRIBUTES_PER_SAMPLE = some 4 ∧
      res.new_responses.read (5 * NUMBER_OF_CLASSES + 3) 0 = some 1 ∧
      res.new_responses.read (5 * NUMBER_OF_CLASSES + 4) 0 = some 0 := by
  obtain ⟨res, hrun, -, -, hrows, -⟩ :=
    unrolled_rows (fun _ _ => 0) (fun _ _ => 3) (fun _ _ => 7) (fun _ _ => 9)
  have h3 := (hrows 5 3 (by decide) (by decide)).2.2 3 (by decide) (by norm_num)
  have h4 := (hrows 5 4 (by decide) (by decide)).2.2 3 (by decide) (by norm_num)
  have h5 := (hrows 5 4 (by decide) (by decide)).2.1
  refine ⟨res, hrun, ?_, ?_, ?_⟩
  · rw [h5]
    norm_num
  · rw [h3]
    rfl
  · rw [h4]
    rfl

end OpticalDigits.BoostTree

namespace OpticalDigits.NeuralNetwork

open GA in
theorem line_loop (file : Nat → Nat → ℚ) (n line : Nat) (st : Mat ℚ × Mat ℚ)
    (hline : line < n) (hlabel : 0 ≤ toInt (file line 64))
    (hlabel' : (toInt (file line 64)).toNat < 10)
    (d1 : st.1.rows = n) (d2 : st.1.cols = 64) (d3 : st.2.rows = n) (d4 : st.2.cols = 10) :
    ∃ t, forLoopFrom
        (fun attr st =>
          if attr < 64 then
            (st.1.write line attr (file line attr)).map fun d => (d, st.2)
          else if attr = 64 then
            if toInt (file line attr) < 0 then none
            else (st.2.write line (toInt (file line attr)).toNat 1).map fun c => (st.1, c)
          else some st)
        0 (ATTRIBUTES_PER_SAMPLE + 1) st = some t ∧
      t.1.rows = n ∧ t.1.cols = 64 ∧ t.2.rows = n ∧ t.2.cols = 10 ∧
      ∀ r c, t.2.elems r c =
        if r = line ∧ c = (toInt (file line 64)).toNat then 1 else st.2.elems r c := by
  have key := forLoopFrom_total_lt
    (fun a (t : Mat ℚ × Mat ℚ) =>
      t.1.rows = n ∧ t.1.cols = 64 ∧ t.2.rows = n ∧ t.2.cols = 10 ∧
      (a ≤ 64 → t.2.elems = st.2.elems) ∧
      (a = 65 → ∀ r c, t.2.elems r c =
        if r = line ∧ c = (toInt (file line 64)).toNat then 1 else st.2.elems r c))
    (fun attr st =>
      if attr < 64 then
        (st.1.write line attr (file line attr)).map fun d => (d, st.2)
      else if attr = 64 then
        if toInt (file line attr) < 0 then none
        else (st.2.write line (toInt (file line attr)).toNat 1).map fun c => (st.1, c)
      else some st)
    (ATTRIBUTES_PER_SAMPLE + 1) 0
    (by
      intro a t _ ha ht
      have ha65 : a < 65 := by
        simp only [ATTRIBUTES_PER_SAMPLE] at ha
        omega
      obtain ⟨e1, e2, e3, e4, hsame, -⟩ := ht
      beta_reduce
      by_cases h64 : a < 64
      · rw [if_pos h64, Mat.write_some t.1 line a _ (by omega) (by omega), Option.map_some']
        exact ⟨_, rfl, e1, e2, e3, e4, fun _ => hsame (by omega), fun h => by omega⟩
      · have ha : a = 64 := by omega
        subst ha
        have hneg : ¬ toInt (file line 64) < 0 := not_lt.mpr hlabel
        rw [if_neg h64, if_pos rfl, if_neg hneg,
          Mat.write_some t.2 line _ _ (by omega) (by omega), Option.map_some']
        refine ⟨_, rfl, e1, e2, e3, e4, fun h => by omega, fun _ => ?_⟩
        intro r c
        show (if r = line ∧ c = (toInt (file line 64)).toNat then (1 : ℚ)
          else t.2.elems r c) = _
        rw [hsame (le_refl _)])
    st ⟨d1, d2, d3, d4, fun _ => rfl, fun h => by omega⟩
  obtain ⟨t, ht, e1, e2, e3, e4, -, hfinal⟩ := key
  exact ⟨t, ht, e1, e2, e3, e4, hfinal rfl⟩

open GA in
theorem read_data_from_csv_classes (file : Nat → Nat → ℚ) (data classes : Mat ℚ) (n : Nat)
    (d1 : data.rows = n) (d2 : data.cols = 64) (d3 : classes.rows = n) (d4 : classes.cols = 10)
    (hlabel : ∀ line, line < n → 0 ≤ toInt (file line 64) ∧ (toInt (file line 64)).toNat < 10) :
    ∃ res, read_data_from_csv file data classes n = some res ∧
      res.2.rows = n ∧ res.2.cols = 10 ∧
      ∀ r c, res.2.elems r c =
        if r < n ∧ c = (toInt (file r 64)).toNat then 1 else classes.elems r c := by
  have key := forLoopFrom_total_lt
    (fun line (t : Mat ℚ × Mat ℚ) =>
      t.1.rows = n ∧ t.1.cols = 64 ∧ t.2.rows = n ∧ t.2.cols = 10 ∧
      ∀ r c, t.2.elems r c =
        if r < line ∧ c = (toInt (file r 64)).toNat then 1 else classes.elems r c)
    (fun line st => forLoopFrom
      (fun attr st =>
        if attr < 64 then
          (st.1.write line attr (file line attr)).map fun d => (d, st.2)
        else if attr = 64 then
          if toInt (file line attr) < 0 then none
          else (st.2.write line (toInt (file line attr)).toNat 1).map fun c => (st.1, c)
        else some st)
      0 (ATTRIBUTES_PER_SAMPLE + 1) st)
    n 0
    (by
      intro line t _ hline ht
      obtain ⟨e1, e2, e3, e4, hel⟩ := ht
      obtain ⟨u, hu, f1, f2, f3, f4, hnew⟩ := line_loop file n line t (by omega)
        (hlabel line (by omega)).1 (hlabel line (by omega)).2 e1 e2 e3 e4
      refine ⟨u, hu, f1, f2, f3, f4, ?_⟩
      intro r c
      rw [hnew, hel]
      by_cases hr : r = line
      · subst hr
        by_cases hc : c = (toInt (file r 64)).toNat
        · simp [hc]
        · simp [hc]
      · have e : (r < line + 1) = (r < line) := by
          apply propext
          omega
        simp only [hr, false_and, if_false, e])
    (data, classes) ⟨d1, d2, d3, d4, by intro r c; simp⟩
  obtain ⟨t, ht, -, -, e3, e4, hel⟩ := key
  refine ⟨t, ht, e3, e4, ?_⟩
  intro r c
  rw [hel]
  simp

end OpticalDigits.NeuralNetwork

namespace OpticalDigits.NeuralNetwork

theorem toInt_three : toInt (if (64 : Nat) = 64 then (3 : ℚ) else 0) = 3 := by
  rw [if_pos rfl]
  exact toInt_natCast 3

/-- C23. With a training file whose every sample has class label 3 and a
`training_classifications` whose memory holds 5 everywhere when it is
constructed, row 0 after `read_data_from_csv` has 1 in column 3 and still 5 in
column 0: only the column of the label is assigned.  The testing matrix, which
`main` constructs with `Mat::zeros`, has 1 in column 3 and 0 in column 0. -/
theorem training_rows_not_one_hot :
    (∃ res, loadTraining (fun _ k => if k = 64 then 3 else 0) (fun _ _ => 0) (fun _ _ => 5) =
        some res ∧
      res.2.read 0 3 = some 1 ∧ res.2.read 0 0 = some 5) ∧
    (∃ res, loadTesting (fun _ k => if k = 64 then 3 else 0) (fun _ _ => 0) = some res ∧
      res.2.read 0 3 = some 1 ∧ res.2.read 0 0 = some 0) := by
  have hlabel : ∀ n line : Nat, line < n →
      0 ≤ toInt ((fun (_ : Nat) (k : Nat) => if k = 64 then (3 : ℚ) else 0) line 64) ∧
      (toInt ((fun (_ : Nat) (k : Nat) => if k = 64 then (3 : ℚ) else 0) line 64)).toNat <
        10 := by
    intro n line _
    beta_reduce
    rw [toInt_three]
    decide
  constructor
  · obtain ⟨res, hrun, e3, e4, hel⟩ := read_data_from_csv_classes
      (fun _ k => if k = 64 then 3 else 0)
      (Mat.create NUMBER_OF_TRAINING_SAMPLES ATTRIBUTES_PER_SAMPLE fun _ _ => 0)
      (Mat.create NUMBER_OF_TRAINING_SAMPLES NUMBER_OF_CLASSES fun _ _ => 5)
      NUMBER_OF_TRAINING_SAMPLES rfl rfl rfl rfl (hlabel _)
    refine ⟨res, hrun, ?_, ?_⟩
    · rw [Mat.read_some res.2 0 3 (by rw [e3]; decide) (by rw [e4]; decide), hel]
      rw [toInt_three]
      simp [NUMBER_OF_TRAINING_SAMPLES]
    · rw [Mat.read_some res.2 0 0 (by rw [e3]; decide) (by rw [e4]; decide), hel]
      rw [toInt_three]
      simp [Mat.create]
  · obtain ⟨res, hrun, e3, e4, hel⟩ := read_data_from_csv_classes
      (fun _ k => if k = 64 then 3 else 0)
      (Mat.create NUMBER_OF_TESTING_SAMPLES ATTRIBUTES_PER_SAMPLE fun _ _ => 0)
      (Mat.zeros NUMBER_OF_TESTING_SAMPLES NUMBER_OF_CLASSES)
      NUMBER_OF_TESTING_SAMPLES rfl rfl rfl rfl (hlabel _)
    refine ⟨res, hrun, ?_, ?_⟩
    · rw [Mat.read_some res.2 0 3 (by rw [e3]; decide) (by rw [e4]; decide), hel]
      rw [toInt_three]
      simp [NUMBER_OF_TESTING_SAMPLES]
    · rw [Mat.read_some res.2 0 0 (by rw [e3]; decide) (by rw [e4]; decide), hel]
      rw [toInt_three]
      simp [Mat.zeros]

end OpticalDigits.NeuralNetwork

namespace GA

/-! ## Rounding to `double` -/

theorem roundHalfEven_intCast (z : Int) : roundHalfEven (z : ℚ) = z := by
  unfold roundHalfEven
  rw [Int.floor_intCast]
  simp

theorem roundHalfEven_bounds (q : ℚ) :
    (roundHalfEven q : ℚ) ≤ q + 1 / 2 ∧ q - 1 / 2 ≤ (roundHalfEven q : ℚ) ∧
    Int.floor q ≤ roundHalfEven q ∧ roundHalfEven q ≤ Int.floor q + 1 := by
  have h1 := Int.floor_le q
  have h2 := Int.lt_floor_add_one q
  unfold roundHalfEven
  split_ifs with a b c
  · refine ⟨by linarith, by linarith, le_refl _, by omega⟩
  · refine ⟨by push_cast; linarith, by push_cast; linarith, by omega, le_refl _⟩
  · refine ⟨by linarith, by linarith, le_refl _, by omega⟩
  · refine ⟨by push_cast; linarith, by push_cast; linarith, by omega, le_refl _⟩

theorem roundHalfEven_near (q : ℚ) (m : Int) (h1 : (m : ℚ) - 1 / 2 < q)
    (h2 : q < (m : ℚ) + 1 / 2) : roundHalfEven q = m := by
  have f1 := Int.floor_le q
  have f2 := Int.lt_floor_add_one q
  have a1 : m - 1 ≤ Int.floor q := by
    have : ((m - 1 : Int) : ℚ) < (Int.floor q : ℚ) + 1 := by push_cast; linarith
    have : m - 1 < Int.floor q + 1 := by exact_mod_cast this
    omega
  have a2 : Int.floor q ≤ m := by
    have : ((Int.floor q : Int) : ℚ) < ((m + 1 : Int) : ℚ) := by push_cast; linarith
    have : Int.floor q < m + 1 := by exact_mod_cast this
    omega
  rcases (by omega : Int.floor q = m - 1 ∨ Int.floor q = m) with e | e
  · unfold roundHalfEven
    have c1 : ¬ q - ((Int.floor q : Int) : ℚ) < 1 / 2 := by
      rw [e]; push_cast; linarith
    have c2 : 1 / 2 < q - ((Int.floor q : Int) : ℚ) := by
      rw [e]; push_cast; linarith
    rw [if_neg c1, if_pos c2, e]
    ring
  · unfold roundHalfEven
    have c1 : q - ((Int.floor q : Int) : ℚ) < 1 / 2 := by
      rw [e]; linarith
    rw [if_pos c1, e]

theorem log_two_bounds (q : ℚ) (hq : 0 < q) :
    (2 : ℚ) ^ Int.log 2 q ≤ q ∧ q < (2 : ℚ) ^ (Int.log 2 q + 1) := by
  have h1 := Int.zpow_log_le_self (b := 2) (r := q) (by decide) hq
  have h2 := Int.lt_zpow_succ_log_self (b := 2) (by decide) q
  simpa using And.intro h1 h2

theorem log_two_eq (q : ℚ) (e : Int) (h1 : (2 : ℚ) ^ e ≤ q) (h2 : q < (2 : ℚ) ^ (e + 1)) :
    Int.log 2 q = e := by
  have hq : 0 < q := lt_of_lt_of_le (zpow_pos (by norm_num) e) h1
  have a : e ≤ Int.log 2 q := by
    apply (Int.zpow_le_iff_le_log (b := 2) (by decide) hq).mp
    simpa using h1
  have b : Int.log 2 q < e + 1 := by
    apply (Int.lt_zpow_iff_log_lt (b := 2) (by decide) hq).mp
    simpa using h2
  omega

theorem binade_ge (q : ℚ) : -1022 ≤ binade q := le_max_right _ _

theorem lt_two_pow_binade (q : ℚ) (hq : 0 < q) : q < (2 : ℚ) ^ (binade q + 1) := by
  obtain ⟨-, l2⟩ := log_two_bounds q hq
  apply lt_of_lt_of_le l2
  apply zpow_le_zpow_right₀ (by norm_num)
  have : Int.log 2 q ≤ binade q := le_max_left _ _
  omega

theorem binade_cases (q : ℚ) (hq : 0 < q) :
    ((2 : ℚ) ^ binade q ≤ q) ∨ (binade q = -1022 ∧ q < (2 : ℚ) ^ (-1022 : Int)) := by
  obtain ⟨l1, l2⟩ := log_two_bounds q hq
  rcases le_or_lt (-1022) (Int.log 2 q) with h | h
  · left
    have : binade q = Int.log 2 q := max_eq_left h
    rw [this]
    exact l1
  · right
    have e : binade q = -1022 := max_eq_right (le_of_lt h)
    refine ⟨e, lt_of_lt_of_le l2 ?_⟩
    apply zpow_le_zpow_right₀ (by norm_num)
    omega

theorem binade_eq (q : ℚ) (e : Int) (h1 : (2 : ℚ) ^ e ≤ q) (h2 : q < (2 : ℚ) ^ (e + 1))
    (he : -1022 ≤ e) : binade q = e := by
  unfold binade
  rw [log_two_eq q e h1 h2]
  exact max_eq_left he

theorem roundDouble_pos (q : ℚ) (hq : 0 < q) :
    roundDouble q =
      (roundHalfEven (q / 2 ^ (binade q - 52)) : ℚ) * 2 ^ (binade q - 52) := by
  unfold roundDouble
  rw [if_neg (ne_of_gt hq), if_pos hq]

theorem roundDouble_zero : roundDouble 0 = 0 := by
  simp [roundDouble]

theorem roundDouble_neg (q : ℚ) : roundDouble (-q) = -roundDouble q := by
  unfold roundDouble
  rcases lt_trichotomy q 0 with h | h | h
  · have h1 : ¬ -q = 0 := by intro e; linarith
    have h2 : 0 < -q := by linarith
    have h3 : ¬ q = 0 := ne_of_lt h
    have h4 : ¬ 0 < q := by linarith
    simp only [h1, h2, h3, h4, if_true, if_false, neg_neg]
  · subst h
    simp
  · have h1 : ¬ -q = 0 := by intro e; linarith
    have h2 : ¬ 0 < -q := by linarith
    have h3 : ¬ q = 0 := ne_of_gt h
    simp only [h1, h2, h3, h, if_true, if_false, neg_neg]

theorem roundDouble_eval (q : ℚ) (e m : Int) (h1 : (2 : ℚ) ^ e ≤ q) (h2 : q < (2 : ℚ) ^ (e + 1))
    (he : -1022 ≤ e) (hm1 : (m : ℚ) - 1 / 2 < q / 2 ^ (e - 52))
    (hm2 : q / 2 ^ (e - 52) < (m : ℚ) + 1 / 2) :
    roundDouble q = (m : ℚ) * 2 ^ (e - 52) := by
  have hq : 0 < q := lt_of_lt_of_le (zpow_pos (by norm_num) e) h1
  rw [roundDouble_pos q hq, binade_eq q e h1 h2 he, roundHalfEven_near _ m hm1 hm2]

theorem roundDouble_abs_error (q : ℚ) (hq : 0 < q) :
    q - 2 ^ (binade q - 53) ≤ roundDouble q ∧ roundDouble q ≤ q + 2 ^ (binade q - 53) := by
  rw [roundDouble_pos q hq]
  have hu : (0 : ℚ) < 2 ^ (binade q - 52) := zpow_pos (by norm_num) _
  obtain ⟨b1, b2, -, -⟩ := roundHalfEven_bounds (q / 2 ^ (binade q - 52))
  have hdiv : q / 2 ^ (binade q - 52) * 2 ^ (binade q - 52) = q := by
    field_simp
  have e1 : (2 : ℚ) ^ (binade q - 52) = 2 * 2 ^ (binade q - 53) := by
    have : binade q - 52 = 1 + (binade q - 53) := by ring
    rw [this, zpow_add₀ (by norm_num), zpow_one]
  have hv : (0 : ℚ) < 2 ^ (binade q - 53) := zpow_pos (by norm_num) _
  constructor
  · have := mul_le_mul_of_nonneg_right b2 (le_of_lt hu)
    rw [sub_mul, hdiv] at this
    rw [e1] at this ⊢
    linarith
  · have := mul_le_mul_of_nonneg_right b1 (le_of_lt hu)
    rw [add_mul, hdiv] at this
    rw [e1] at this ⊢
    linarith

theorem roundDouble_error_normal (q : ℚ) (hq : (2 : ℚ) ^ (-1022 : Int) ≤ q) :
    q * (1 - 1 / 2 ^ 53) ≤ roundDouble q ∧ roundDouble q ≤ q * (1 + 1 / 2 ^ 53) := by
  have hpos : 0 < q := lt_of_lt_of_le (zpow_pos (by norm_num) _) hq
  obtain ⟨a1, a2⟩ := roundDouble_abs_error q hpos
  have hb : (2 : ℚ) ^ binade q ≤ q := by
    rcases binade_cases q hpos with h | ⟨-, h⟩
    · exact h
    · linarith
  have e1 : (2 : ℚ) ^ (binade q - 53) = 2 ^ binade q * (1 / 2 ^ 53) := by
    rw [zpow_sub₀ (by norm_num)]
    norm_num
    ring
  rw [e1] at a1 a2
  have : (2 : ℚ) ^ binade q * (1 / 2 ^ 53) ≤ q * (1 / 2 ^ 53) :=
    mul_le_mul_of_nonneg_right hb (by norm_num)
  constructor <;> linarith

theorem roundDouble_error (q : ℚ) (hq : 0 ≤ q) :
    q * (1 - 1 / 2 ^ 53) - 1 / 2 ^ 1075 ≤ roundDouble q ∧
    roundDouble q ≤ q * (1 + 1 / 2 ^ 53) + 1 / 2 ^ 1075 := by
  rcases eq_or_lt_of_le hq with h | h
  · subst h
    rw [roundDouble_zero]
    norm_num
  · rcases le_or_lt ((2 : ℚ) ^ (-1022 : Int)) q with hn | hs
    · obtain ⟨a1, a2⟩ := roundDouble_error_normal q hn
      have : (0 : ℚ) < 1 / 2 ^ 1075 := by positivity
      constructor <;> linarith
    · obtain ⟨a1, a2⟩ := roundDouble_abs_error q h
      have hb : binade q = -1022 := by
        rcases binade_cases q h with h' | ⟨h', -⟩
        · have := binade_ge q
          have : (2 : ℚ) ^ (-1022 : Int) ≤ 2 ^ binade q :=
            zpow_le_zpow_right₀ (by norm_num) this
          linarith
        · exact h'
      rw [hb] at a1 a2
      have e : (2 : ℚ) ^ ((-1022 : Int) - 53) = 1 / 2 ^ 1075 := by
        rw [show ((-1022 : Int) - 53) = -((1075 : ℕ) : Int) by norm_num, zpow_neg, zpow_natCast,
          one_div]
      rw [e] at a1 a2
      have h1 : q * (1 / 2 ^ 53) ≥ 0 := by positivity
      constructor <;> linarith

theorem roundDouble_nonneg (q : ℚ) (hq : 0 ≤ q) : 0 ≤ roundDouble q := by
  rcases eq_or_lt_of_le hq with h | h
  · subst h
    rw [roundDouble_zero]
  · rw [roundDouble_pos q h]
    apply mul_nonneg _ (le_of_lt (zpow_pos (by norm_num) _))
    obtain ⟨-, -, f1, -⟩ := roundHalfEven_bounds (q / 2 ^ (binade q - 52))
    have : 0 ≤ Int.floor (q / 2 ^ (binade q - 52)) :=
      Int.floor_nonneg.mpr (div_nonneg hq (le_of_lt (zpow_pos (by norm_num) _)))
    exact_mod_cast le_trans this f1

theorem roundDouble_nonpos (q : ℚ) (hq : q ≤ 0) : roundDouble q ≤ 0 := by
  have h := roundDouble_nonneg (-q) (by linarith)
  rw [roundDouble_neg] at h
  linarith
/-! ## Values on the grid of `double` -/

theorem roundDouble_of_pos_mantissa (M : Nat) (k : Int) (hM : 0 < M) (hlt : M < 2 ^ 53)
    (hk : -1074 ≤ k) : roundDouble ((M : ℚ) * 2 ^ k) = (M : ℚ) * 2 ^ k := by
  have hL1 : 2 ^ Nat.log 2 M ≤ M := Nat.pow_log_le_self 2 (by omega)
  have hL2 : M < 2 ^ (Nat.log 2 M + 1) := Nat.lt_pow_succ_log_self (by decide) M
  have hL : Nat.log 2 M < 53 := by
    have : 2 ^ Nat.log 2 M < 2 ^ 53 := lt_of_le_of_lt hL1 hlt
    exact (Nat.pow_lt_pow_iff_right (by decide)).mp this
  have h2k : (0 : ℚ) < 2 ^ k := zpow_pos (by norm_num) k
  have hMq : (0 : ℚ) < M := by exact_mod_cast hM
  have hx : (0 : ℚ) < (M : ℚ) * 2 ^ k := mul_pos hMq h2k
  have b1 : (2 : ℚ) ^ ((Nat.log 2 M : Int) + k) ≤ (M : ℚ) * 2 ^ k := by
    rw [zpow_add₀ (by norm_num), zpow_natCast]
    apply mul_le_mul_of_nonneg_right _ (le_of_lt h2k)
    exact_mod_cast hL1
  have b2 : (M : ℚ) * 2 ^ k < (2 : ℚ) ^ ((Nat.log 2 M : Int) + k + 1) := by
    have e : ((Nat.log 2 M : Int) + k + 1) = ((Nat.log 2 M + 1 : Nat) : Int) + k := by
      push_cast
      ring
    rw [e, zpow_add₀ (by norm_num), zpow_natCast]
    apply mul_lt_mul_of_pos_right _ h2k
    exact_mod_cast hL2
  have hlog := log_two_eq _ _ b1 b2
  have hb : binade ((M : ℚ) * 2 ^ k) - 52 ≤ k := by
    unfold binade
    rw [hlog]
    rcases le_total ((Nat.log 2 M : Int) + k) (-1022) with h | h
    · rw [max_eq_right h]
      omega
    · rw [max_eq_left h]
      omega
  obtain ⟨d, hd⟩ : ∃ d : Nat, k = binade ((M : ℚ) * 2 ^ k) - 52 + (d : Int) :=
    ⟨(k - (binade ((M : ℚ) * 2 ^ k) - 52)).toNat, by omega⟩
  have hu : (0 : ℚ) < 2 ^ (binade ((M : ℚ) * 2 ^ k) - 52) := zpow_pos (by norm_num) _
  have hn : (M : ℚ) * 2 ^ k / 2 ^ (binade ((M : ℚ) * 2 ^ k) - 52) =
      (((M * 2 ^ d : Nat) : Int) : ℚ) := by
    rw [div_eq_iff (ne_of_gt hu)]
    conv_lhs => rw [hd]
    rw [zpow_add₀ (by norm_num), zpow_natCast]
    push_cast
    ring
  rw [roundDouble_pos _ hx, hn, roundHalfEven_intCast, ← hn]
  field_simp

theorem roundDouble_of_representable (x : ℚ) (h : Representable x) : roundDouble x = x := by
  obtain ⟨m, k, hm, hk, rfl⟩ := h
  rcases lt_trichotomy m 0 with hneg | hzero | hpos
  · have e : (m : ℚ) * 2 ^ k = -(((-m).toNat : ℚ) * 2 ^ k) := by
      have : (((-m).toNat : Int) : ℚ) = ((-m : Int) : ℚ) := by
        rw [Int.toNat_of_nonneg (by omega)]
      rw [← Int.cast_natCast, this]
      push_cast
      ring
    rw [e, roundDouble_neg, roundDouble_of_pos_mantissa _ k (by omega)
      (by
        have := abs_lt.mp hm
        omega) hk]
  · subst hzero
    simp [roundDouble]
  · have e : (m : ℚ) * 2 ^ k = ((m.toNat : ℚ) * 2 ^ k) := by
      have : ((m.toNat : Int) : ℚ) = (m : ℚ) := by
        rw [Int.toNat_of_nonneg (by omega)]
      rw [← Int.cast_natCast, this]
    rw [e, roundDouble_of_pos_mantissa _ k (by omega)
      (by
        have := abs_lt.mp hm
        omega) hk]

theorem representable_neg (x : ℚ) (h : Representable x) : Representable (-x) := by
  obtain ⟨m, k, hm, hk, rfl⟩ := h
  exact ⟨-m, k, by rwa [abs_neg], hk, by push_cast; ring⟩

theorem representable_zero : Representable 0 :=
  ⟨0, 0, by norm_num, by norm_num, by simp⟩

theorem representable_intCast (z : Int) (h : |z| < 2 ^ 53) : Representable (z : ℚ) :=
  ⟨z, 0, h, by norm_num, by simp⟩

theorem roundDouble_representable (q : ℚ) : Representable (roundDouble q) := by
  have pos : ∀ q : ℚ, 0 < q → Representable (roundDouble q) := by
    intro q hq
    have l2 := lt_two_pow_binade q hq
    have hbg := binade_ge q
    rw [roundDouble_pos q hq]
    have hu : (0 : ℚ) < 2 ^ (binade q - 52) := zpow_pos (by norm_num) _
    have e2 : (2 : ℚ) ^ (binade q + 1) = 2 ^ (53 : ℕ) * 2 ^ (binade q - 52) := by
      rw [← zpow_natCast, ← zpow_add₀ (by norm_num)]
      congr 1
      omega
    have n2 : q / 2 ^ (binade q - 52) < (2 : ℚ) ^ (53 : ℕ) := by
      rw [div_lt_iff₀ hu, ← e2]
      exact l2
    obtain ⟨-, -, f1, f2⟩ := roundHalfEven_bounds (q / 2 ^ (binade q - 52))
    have g1 : 0 ≤ Int.floor (q / 2 ^ (binade q - 52)) :=
      Int.floor_nonneg.mpr (div_nonneg (le_of_lt hq) (le_of_lt hu))
    have g2 : Int.floor (q / 2 ^ (binade q - 52)) < (2 : Int) ^ 53 := by
      apply Int.floor_lt.mpr
      exact_mod_cast n2
    by_cases hmax : roundHalfEven (q / 2 ^ (binade q - 52)) = 2 ^ 53
    · refine ⟨1, binade q + 1, by norm_num, by omega, ?_⟩
      rw [hmax, e2]
      push_cast
      ring
    · refine ⟨roundHalfEven (q / 2 ^ (binade q - 52)), binade q - 52, ?_, by omega, rfl⟩
      rw [abs_lt]
      constructor <;> omega
  rcases lt_trichotomy q 0 with h | h | h
  · have := representable_neg _ (pos (-q) (by linarith))
    rw [roundDouble_neg, neg_neg] at this
    exact this
  · subst h
    rw [roundDouble_zero]
    exact representable_zero
  · exact pos q h

theorem representable_sub_one (p : ℚ) (h : Representable p) (h1 : 1 ≤ p)
    (h2 : p ≤ 2 ^ 53) : Representable (p - 1) := by
  obtain ⟨m, k, hm, hk1074, rfl⟩ := h
  have h2k : (0 : ℚ) < 2 ^ k := zpow_pos (by norm_num) k
  have hmpos : 0 < m := by
    by_contra hc
    have : (m : ℚ) ≤ 0 := by exact_mod_cast not_lt.mp hc
    have := mul_nonpos_of_nonpos_of_nonneg this (le_of_lt h2k)
    linarith
  rcases le_or_lt 0 k with hk | hk
  · have e : (m : ℚ) * 2 ^ k = ((m * 2 ^ k.toNat : Int) : ℚ) := by
      push_cast
      rw [← zpow_natCast, Int.toNat_of_nonneg hk]
    rw [e] at h1 h2 ⊢
    have a1 : (1 : Int) ≤ m * 2 ^ k.toNat := by exact_mod_cast h1
    have a2 : m * 2 ^ k.toNat ≤ (2 : Int) ^ 53 := by exact_mod_cast h2
    refine ⟨m * 2 ^ k.toNat - 1, 0, ?_, by norm_num, by push_cast; ring⟩
    rw [abs_lt]
    constructor <;> omega
  · have e : (2 : ℚ) ^ k = 1 / 2 ^ (-k).toNat := by
      have hk2 : k = -(((-k).toNat : Nat) : Int) := by omega
      conv_lhs => rw [hk2]
      rw [zpow_neg, zpow_natCast, one_div]
    have hpow : (0 : ℚ) < 2 ^ (-k).toNat := by positivity
    have a1 : ((2 ^ (-k).toNat : Int) : ℚ) ≤ (m : ℚ) := by
      rw [e] at h1
      rw [mul_one_div, le_div_iff₀ hpow] at h1
      push_cast
      linarith
    have a1' : (2 : Int) ^ (-k).toNat ≤ m := by exact_mod_cast a1
    have hpos' : (0 : Int) < 2 ^ (-k).toNat := by positivity
    refine ⟨m - 2 ^ (-k).toNat, k, ?_, hk1074, ?_⟩
    · have := abs_lt.mp hm
      rw [abs_lt]
      constructor <;> omega
    · push_cast
      rw [sub_mul]
      congr 1
      rw [e]
      field_simp

/-- A value on the grid is a whole multiple of the subnormal spacing. -/
theorem representable_multiple (x : ℚ) (h : Representable x) :
    ∃ N : Int, x = (N : ℚ) * 2 ^ (-1074 : Int) := by
  obtain ⟨m, k, -, hk, rfl⟩ := h
  refine ⟨m * 2 ^ (k + 1074).toNat, ?_⟩
  push_cast
  rw [mul_assoc, ← zpow_natCast, ← zpow_add₀ (by norm_num), Int.toNat_of_nonneg (by omega)]
  congr 2
  ring

/-- The sum of two non-negative `double` values is rounded with a relative error
of at most `2 ^ (-53)`, also in the subnormal range, where it is exact. -/
theorem roundDouble_add_error (a b : ℚ) (ha : Representable a) (hb : Representable b)
    (ha0 : 0 ≤ a) (hb0 : 0 ≤ b) :
    (a + b) * (1 - 1 / 2 ^ 53) ≤ roundDouble (a + b) ∧
    roundDouble (a + b) ≤ (a + b) * (1 + 1 / 2 ^ 53) := by
  rcases le_or_lt ((2 : ℚ) ^ (-1022 : Int)) (a + b) with hn | hs
  · exact roundDouble_error_normal _ hn
  · obtain ⟨Na, hNa⟩ := representable_multiple a ha
    obtain ⟨Nb, hNb⟩ := representable_multiple b hb
    have hu : (0 : ℚ) < 2 ^ (-1074 : Int) := zpow_pos (by norm_num) _
    have hsum : a + b = ((Na + Nb : Int) : ℚ) * 2 ^ (-1074 : Int) := by
      rw [hNa, hNb]
      push_cast
      ring
    have hN0 : 0 ≤ Na + Nb := by
      have : (0 : ℚ) ≤ ((Na + Nb : Int) : ℚ) * 2 ^ (-1074 : Int) := by
        rw [← hsum]
        linarith
      have : (0 : ℚ) ≤ ((Na + Nb : Int) : ℚ) := by
        by_contra hc
        have := mul_neg_of_neg_of_pos (not_le.mp hc) hu
        linarith
      exact_mod_cast this
    have hN1 : Na + Nb < 2 ^ 53 := by
      have e : (2 : ℚ) ^ (-1022 : Int) = 2 ^ (52 : ℕ) * 2 ^ (-1074 : Int) := by
        rw [← zpow_natCast, ← zpow_add₀ (by norm_num)]
        norm_num
      rw [hsum, e] at hs
      have : ((Na + Nb : Int) : ℚ) < 2 ^ (52 : ℕ) := lt_of_mul_lt_mul_right hs (le_of_lt hu)
      have : Na + Nb < 2 ^ 52 := by exact_mod_cast this
      omega
    have hrep : Representable (a + b) :=
      ⟨Na + Nb, -1074, by rw [abs_lt]; constructor <;> omega, le_refl _, hsum⟩
    rw [roundDouble_of_representable _ hrep]
    have : 0 ≤ a + b := by linarith
    constructor
    · nlinarith
    · nlinarith

/-! ## Loops over the population with a body that may fault -/

theorem forLoopFrom_foldlM {σ α : Type} (l : List α) (f : σ → α → Option σ)
    (body : Nat → σ → Option σ) (hbody : ∀ j s, j < l.length → body j s = (l[j]?).bind (f s))
    (k i : Nat) (s : σ) (h : i + k ≤ l.length) :
    forLoopFrom body i k s = ((l.drop i).take k).foldlM f s := by
  induction k generalizing i s with
  | zero => simp [forLoopFrom]
  | succ k ih =>
    have hi : i < l.length := by omega
    rw [forLoopFrom, hbody i s hi, List.getElem?_eq_getElem hi, Option.some_bind,
      List.drop_eq_getElem_cons hi, List.take_succ_cons, List.foldlM_cons]
    cases hf : f s l[i] with
    | none => rfl
    | some t =>
      rw [Option.some_bind, ih (i + 1) t (by omega)]
      rfl

theorem forLoop_foldlM {σ α : Type} (l : List α) (f : σ → α → Option σ) (n : Int)
    (body : Nat → σ → Option σ) (hbody : ∀ j s, j < l.length → body j s = (l[j]?).bind (f s))
    (s : σ) (h : l.length = n.toNat) :
    forLoop n body s = l.foldlM f s := by
  rw [forLoop, forLoopFrom_foldlM l f body hbody n.toNat 0 s (by omega)]
  simp [← h]

theorem toDouble_eq_some (q r : ℚ) (h : toDouble q = some r) : r = roundDouble q := by
  unfold toDouble at h
  split_ifs at h
  exact (Option.some.inj h).symm

theorem toDouble_of_lt (q : ℚ) (h : |roundDouble q| < 2 ^ 1024) :
    toDouble q = some (roundDouble q) := by
  unfold toDouble
  rw [if_pos h]

/-! ## The rounded sum of the fitness values -/

theorem sum_step_bounds (e J T acc f a : ℚ) (he0 : 0 ≤ e) (he1 : e ≤ 1) (hJ : 0 ≤ J)
    (hJ1 : (J + 1) * e ≤ 1) (hacc : 0 ≤ acc) (hf : 0 ≤ f)
    (hT : 0 ≤ T) (h1 : T * (1 - J * e) ≤ acc) (h2 : acc * (1 - J * e) ≤ T)
    (a1 : (acc + f) * (1 - e) ≤ a) (a2 : a ≤ (acc + f) * (1 + e)) :
    (T + f) * (1 - (J + 1) * e) ≤ a ∧ a * (1 - (J + 1) * e) ≤ T + f := by
  have hJe : 0 ≤ J * e := mul_nonneg hJ he0
  have hJe1 : J * e ≤ 1 := by nlinarith
  constructor
  · have s1 : (T + f) * (1 - (J + 1) * e) ≤ (T + f) * (1 - J * e) * (1 - e) := by
      have : 0 ≤ (T + f) * (J * e * e) := by positivity
      nlinarith
    have s2 : (T + f) * (1 - J * e) ≤ acc + f := by
      have : 0 ≤ f * (J * e) := by positivity
      nlinarith
    have s3 : (T + f) * (1 - J * e) * (1 - e) ≤ (acc + f) * (1 - e) :=
      mul_le_mul_of_nonneg_right s2 (by linarith)
    linarith
  · have s1 : a * (1 - (J + 1) * e) ≤ (acc + f) * (1 + e) * (1 - (J + 1) * e) :=
      mul_le_mul_of_nonneg_right a2 (by linarith)
    have s2 : (acc + f) * (1 + e) * (1 - (J + 1) * e) ≤ (acc + f) * (1 - J * e) := by
      have : 0 ≤ (acc + f) * ((J + 1) * e * e) := by positivity
      nlinarith
    have s3 : (acc + f) * (1 - J * e) ≤ T + f := by
      have : 0 ≤ f * (J * e) := by positivity
      nlinarith
    linarith

theorem foldlM_sum_bounds (l : List Gene_t) (hrep : ∀ g ∈ l, Representable g.fitness)
    (hnn : ∀ g ∈ l, 0 ≤ g.fitness) (j : Nat) (T acc S : ℚ)
    (hj : ((j + l.length : Nat) : ℚ) * (1 / 2 ^ 53) ≤ 1)
    (hacc : 0 ≤ acc) (hr : Representable acc) (hT : 0 ≤ T)
    (h1 : T * (1 - (j : ℚ) * (1 / 2 ^ 53)) ≤ acc) (h2 : acc * (1 - (j : ℚ) * (1 / 2 ^ 53)) ≤ T)
    (hrun : l.foldlM (fun acc g => toDouble (acc + g.fitness)) acc = some S) :
    0 ≤ S ∧ Representable S ∧
      (T + (l.map Gene_t.fitness).sum) * (1 - ((j + l.length : Nat) : ℚ) * (1 / 2 ^ 53)) ≤ S ∧
      S * (1 - ((j + l.length : Nat) : ℚ) * (1 / 2 ^ 53)) ≤ T + (l.map Gene_t.fitness).sum := by
  induction l generalizing j T acc with
  | nil =>
    simp only [List.foldlM_nil] at hrun
    have hS : acc = S := Option.some.inj hrun
    subst hS
    simp only [List.length_nil, Nat.add_zero, List.map_nil, List.sum_nil, add_zero]
    exact ⟨hacc, hr, h1, h2⟩
  | cons g t ih =>
    rw [List.foldlM_cons] at hrun
    cases hd : toDouble (acc + g.fitness) with
    | none =>
      rw [hd] at hrun
      exact absurd hrun (by simp)
    | some a =>
      rw [hd] at hrun
      have ha := toDouble_eq_some _ _ hd
      have hg0 := hnn g (List.mem_cons_self _ _)
      obtain ⟨a1, a2⟩ := roundDouble_add_error acc g.fitness hr
        (hrep g (List.mem_cons_self _ _)) hacc hg0
      rw [← ha] at a1 a2
      have hlen : ((j + (g :: t).length : Nat) : ℚ) = ((j + 1 + t.length : Nat) : ℚ) := by
        rw [List.length_cons]
        congr 1
        omega
      rw [hlen] at hj ⊢
      have hj1 : ((j : ℚ) + 1) * (1 / 2 ^ 53) ≤ 1 := by
        have : ((j : ℚ) + 1) ≤ ((j + 1 + t.length : Nat) : ℚ) := by
          push_cast
          have : (0 : ℚ) ≤ (t.length : ℚ) := Nat.cast_nonneg _
          linarith
        have : ((j : ℚ) + 1) * (1 / 2 ^ 53) ≤ ((j + 1 + t.length : Nat) : ℚ) * (1 / 2 ^ 53) :=
          mul_le_mul_of_nonneg_right this (by norm_num)
        linarith
      obtain ⟨b1, b2⟩ := sum_step_bounds (1 / 2 ^ 53) j T acc g.fitness a (by norm_num)
        (by norm_num) (Nat.cast_nonneg _) hj1 hacc hg0 hT h1 h2 a1 a2
      have ha0 : 0 ≤ a := by
        rw [ha]
        exact roundDouble_nonneg _ (by linarith)
      have har : Representable a := by
        rw [ha]
        exact roundDouble_representable _
      have := ih (fun x hx => hrep x (List.mem_cons_of_mem _ hx))
        (fun x hx => hnn x (List.mem_cons_of_mem _ hx)) (j + 1) (T + g.fitness) a hj ha0 har
        (by linarith) (by push_cast; exact b1) (by push_cast; exact b2) hrun
      rw [List.map_cons, List.sum_cons, ← add_assoc]
      exact this

theorem sumFitnessD_eq_foldlM (ga : correlationGA) (h : SizeInvariant ga) :
    sumFitnessD ga = ga.population.foldlM (fun acc g => toDouble (acc + g.fitness)) 0 := by
  unfold sumFitnessD
  exact forLoop_foldlM ga.population _ _ _ (fun j s _ => rfl) _ h

/-- The rounded sum `S` of at most `2 ^ 31` non-negative `double` values and their
exact sum `T` differ by a relative error of at most `2 ^ (-22)`. -/
theorem sumFitnessD_bounds (ga : correlationGA) (hsize : SizeInvariant ga)
    (hint : ga.populationSize < 2 ^ 31)
    (hrep : ∀ g ∈ ga.population, Representable g.fitness)
    (hnn : ∀ g ∈ ga.population, 0 ≤ g.fitness) (S : ℚ) (hsum : sumFitnessD ga = some S) :
    0 ≤ S ∧ (ga.population.map Gene_t.fitness).sum * (1 - 1 / 2 ^ 22) ≤ S ∧
      S * (1 - 1 / 2 ^ 22) ≤ (ga.population.map Gene_t.fitness).sum := by
  rw [sumFitnessD_eq_foldlM ga hsize] at hsum
  have hlen : ga.population.length < 2 ^ 31 := by
    unfold SizeInvariant at hsize
    omega
  have hlenq : (ga.population.length : ℚ) ≤ 2 ^ 31 := by
    exact_mod_cast le_of_lt hlen
  have hT : 0 ≤ (ga.population.map Gene_t.fitness).sum :=
    List.sum_nonneg (by
      intro x hx
      obtain ⟨g, hg, rfl⟩ := List.mem_map.mp hx
      exact hnn g hg)
  have key : (ga.population.length : ℚ) * (1 / 2 ^ 53) ≤ 1 / 2 ^ 22 := by
    have : (ga.population.length : ℚ) * (1 / 2 ^ 53) ≤ 2 ^ 31 * (1 / 2 ^ 53) :=
      mul_le_mul_of_nonneg_right hlenq (by norm_num)
    have e : (2 : ℚ) ^ 31 * (1 / 2 ^ 53) = 1 / 2 ^ 22 := by norm_num
    linarith
  obtain ⟨s0, -, s1, s2⟩ := foldlM_sum_bounds ga.population hrep hnn 0 0 0 S
    (by
      have : (1 : ℚ) / 2 ^ 22 ≤ 1 := by norm_num
      rw [Nat.zero_add]
      linarith)
    (le_refl _) representable_zero (le_refl _) (by simp) (by simp) hsum
  simp only [Nat.zero_add, zero_add] at s1 s2
  refine ⟨s0, ?_, ?_⟩
  · have : (ga.population.map Gene_t.fitness).sum *
        ((ga.population.length : ℚ) * (1 / 2 ^ 53)) ≤
        (ga.population.map Gene_t.fitness).sum * (1 / 2 ^ 22) :=
      mul_le_mul_of_nonneg_left key hT
    linarith
  · have : S * ((ga.population.length : ℚ) * (1 / 2 ^ 53)) ≤ S * (1 / 2 ^ 22) :=
      mul_le_mul_of_nonneg_left key s0
    linarith

/-! ## Shares and the inner loop in `double` arithmetic -/

theorem abs_roundDouble_le (q : ℚ) : |roundDouble q| ≤ 2 * |q| + 1 := by
  have pos : ∀ x : ℚ, 0 ≤ x → |roundDouble x| ≤ 2 * x + 1 := by
    intro x hx
    obtain ⟨-, h2⟩ := roundDouble_error x hx
    rw [abs_of_nonneg (roundDouble_nonneg x hx)]
    have e1 : x * (1 + 1 / 2 ^ 53) ≤ 2 * x := by
      have : (1 : ℚ) + 1 / 2 ^ 53 ≤ 2 := by norm_num
      nlinarith
    have e2 : (1 : ℚ) / 2 ^ 1075 ≤ 1 := by
      rw [div_le_one (by positivity)]
      exact one_le_pow₀ (by norm_num)
    linarith
  rcases le_total 0 q with h | h
  · rw [abs_of_nonneg h]
    exact pos q h
  · have := pos (-q) (by linarith)
    rw [roundDouble_neg, abs_neg] at this
    rw [abs_of_nonpos h]
    exact this

theorem toDouble_of_abs_le (q : ℚ) (h : |q| ≤ 2 ^ 53) :
    toDouble q = some (roundDouble q) := by
  apply toDouble_of_lt
  have h1 := abs_roundDouble_le q
  have h2 : (2 : ℚ) * 2 ^ 53 + 1 < 2 ^ 1024 := by norm_num
  linarith

theorem insertWhileD_eq (g : Gene_t) (n fuel : Nat) (p : ℚ) (sl : List Gene_t)
    (hn : (Int.ceil p).toNat = n) (hfuel : n < fuel) (hr : Representable p)
    (hp : p ≤ 2 ^ 53) :
    insertWhileD fuel g p sl = some (sl ++ List.replicate n g) := by
  induction n generalizing fuel p sl with
  | zero =>
    have hp0 : ¬ 0 < p := by
      intro h
      have := Int.ceil_pos.mpr h
      omega
    obtain ⟨f, rfl⟩ : ∃ f, fuel = f + 1 := ⟨fuel - 1, by omega⟩
    rw [insertWhileD, if_neg hp0]
    simp
  | succ n ih =>
    have hp0 : 0 < p := by
      apply Int.ceil_pos.mp
      omega
    obtain ⟨f, rfl⟩ : ∃ f, fuel = f + 1 := ⟨fuel - 1, by omega⟩
    have key : (Int.ceil (roundDouble (p - 1))).toNat = n ∧ roundDouble (p - 1) ≤ 2 ^ 53 := by
      rcases le_or_lt 1 p with h1 | h1
      · rw [roundDouble_of_representable _ (representable_sub_one p hr h1 hp)]
        have hc : Int.ceil (p - 1) = Int.ceil p - 1 := Int.ceil_sub_one p
        exact ⟨by omega, by linarith⟩
      · have h0 := roundDouble_nonpos (p - 1) (by linarith)
        have hc : Int.ceil (roundDouble (p - 1)) ≤ 0 := Int.ceil_le.mpr (by exact_mod_cast h0)
        have hc1 : Int.ceil p = 1 := by
          rw [Int.ceil_eq_iff]
          constructor
          · push_cast
            linarith
          · push_cast
            linarith
        refine ⟨by omega, ?_⟩
        have : (0 : ℚ) ≤ 2 ^ 53 := by norm_num
        linarith
    have hfin : toDouble (p - 1) = some (roundDouble (p - 1)) := by
      apply toDouble_of_abs_le
      rw [abs_le]
      constructor <;> linarith
    rw [insertWhileD, if_pos hp0, hfin, Option.some_bind,
      ih f _ (sl ++ [g]) key.1 (by omega) (roundDouble_representable _) key.2,
      List.replicate_succ, List.append_assoc]
    rfl

theorem share_step_bounds (e n a r s : ℚ) (he0 : 0 ≤ e) (he1 : e ≤ 1 / 100) (hn : 0 ≤ n)
    (r1 : a * (1 - e) - n ≤ r) (r2 : r ≤ a * (1 + e) + n)
    (s1 : r * 100 * (1 - e) - n ≤ s) (s2 : s ≤ r * 100 * (1 + e) + n) :
    100 * (1 - e) ^ 2 * a - 101 * n ≤ s ∧ s ≤ 100 * (1 + e) ^ 2 * a + 102 * n := by
  constructor
  · have t1 : (a * (1 - e) - n) * (100 * (1 - e)) ≤ r * (100 * (1 - e)) :=
      mul_le_mul_of_nonneg_right r1 (by linarith)
    have t2 : 0 ≤ n * e := mul_nonneg hn he0
    nlinarith
  · have t1 : r * (100 * (1 + e)) ≤ (a * (1 + e) + n) * (100 * (1 + e)) :=
      mul_le_mul_of_nonneg_right r2 (by linarith)
    have t2 : n * e ≤ n * (1 / 100) := mul_le_mul_of_nonneg_left he1 hn
    nlinarith

theorem shareValue_bounds (f S : ℚ) (hf : 0 ≤ f) (hS : 0 < S) :
    0 ≤ shareValue f S ∧
      100 * (1 - 1 / 2 ^ 53) ^ 2 * (f / S) - 101 * (1 / 2 ^ 1075) ≤ shareValue f S ∧
      shareValue f S ≤ 100 * (1 + 1 / 2 ^ 53) ^ 2 * (f / S) + 102 * (1 / 2 ^ 1075) := by
  have ha : 0 ≤ f / S := div_nonneg hf (le_of_lt hS)
  have hr := roundDouble_nonneg (f / S) ha
  obtain ⟨r1, r2⟩ := roundDouble_error (f / S) ha
  obtain ⟨s1, s2⟩ := roundDouble_error (roundDouble (f / S) * 100) (by positivity)
  unfold shareValue
  refine ⟨roundDouble_nonneg _ (by positivity), ?_⟩
  exact share_step_bounds (1 / 2 ^ 53) (1 / 2 ^ 1075) (f / S) (roundDouble (f / S)) _
    (by norm_num) (by norm_num) (by positivity) r1 r2 s1 s2

theorem sum_shareValue_bounds (S : ℚ) (hS : 0 < S) (l : List Gene_t)
    (hnn : ∀ g ∈ l, 0 ≤ g.fitness) :
    100 * (1 - 1 / 2 ^ 53) ^ 2 * ((l.map Gene_t.fitness).sum / S) -
        101 * (1 / 2 ^ 1075) * (l.length : ℚ) ≤
      (l.map fun g => shareValue g.fitness S).sum ∧
    (l.map fun g => shareValue g.fitness S).sum ≤
      100 * (1 + 1 / 2 ^ 53) ^ 2 * ((l.map Gene_t.fitness).sum / S) +
        102 * (1 / 2 ^ 1075) * (l.length : ℚ) := by
  induction l with
  | nil => simp
  | cons g t ih =>
    obtain ⟨i1, i2⟩ := ih fun x hx => hnn x (List.mem_cons_of_mem _ hx)
    obtain ⟨-, b1, b2⟩ := shareValue_bounds g.fitness S (hnn g (List.mem_cons_self _ _)) hS
    simp only [List.map_cons, List.sum_cons, List.length_cons, Nat.cast_add, Nat.cast_one,
      add_div]
    constructor
    · linarith
    · linarith

theorem fitness_le_sum (l : List Gene_t) (hnn : ∀ g ∈ l, 0 ≤ g.fitness) (g : Gene_t)
    (hg : g ∈ l) : g.fitness ≤ (l.map Gene_t.fitness).sum := by
  induction l with
  | nil => simp at hg
  | cons a t ih =>
    rw [List.map_cons, List.sum_cons]
    have hrest : 0 ≤ (t.map Gene_t.fitness).sum :=
      List.sum_nonneg (by
        intro x hx
        obtain ⟨y, hy, rfl⟩ := List.mem_map.mp hx
        exact hnn y (List.mem_cons_of_mem _ hy))
    rcases List.mem_cons.mp hg with rfl | h
    · linarith
    · have := ih (fun x hx => hnn x (List.mem_cons_of_mem _ hx)) h
      have := hnn a (List.mem_cons_self _ _)
      linarith

/-- The ratio of the exact sum `T` to the rounded sum `S`. -/
theorem ratio_bounds (T S : ℚ) (hS : 0 < S) (h1 : T * (1 - 1 / 2 ^ 22) ≤ S)
    (h2 : S * (1 - 1 / 2 ^ 22) ≤ T) :
    1 - 1 / 2 ^ 22 ≤ T / S ∧ T / S ≤ 1 + 1 / 2 ^ 21 := by
  constructor
  · rw [le_div_iff₀ hS]
    linarith
  · rw [div_le_iff₀ hS]
    have : T * (1 - 1 / 2 ^ 22) * (1 + 1 / 2 ^ 21) ≤ S * (1 + 1 / 2 ^ 21) :=
      mul_le_mul_of_nonneg_right h1 (by norm_num)
    have hT : 0 ≤ T := by
      have : (0 : ℚ) ≤ S * (1 - 1 / 2 ^ 22) := mul_nonneg (le_of_lt hS) (by norm_num)
      linarith
    have e : T ≤ T * (1 - 1 / 2 ^ 22) * (1 + 1 / 2 ^ 21) := by
      have : (1 : ℚ) ≤ (1 - 1 / 2 ^ 22) * (1 + 1 / 2 ^ 21) := by norm_num
      nlinarith
    linarith

theorem shareValue_lt (f S : ℚ) (hf : 0 ≤ f) (hS : 0 < S) (hx : f / S ≤ 1 + 1 / 2 ^ 21) :
    shareValue f S < 101 := by
  obtain ⟨-, -, b2⟩ := shareValue_bounds f S hf hS
  have c : (0 : ℚ) ≤ 100 * (1 + 1 / 2 ^ 53) ^ 2 := by positivity
  have t1 : 100 * (1 + 1 / 2 ^ 53) ^ 2 * (f / S) ≤
      100 * (1 + 1 / 2 ^ 53) ^ 2 * (1 + 1 / 2 ^ 21) := mul_le_mul_of_nonneg_left hx c
  have t2 : (100 : ℚ) * (1 + 1 / 2 ^ 53) ^ 2 * (1 + 1 / 2 ^ 21) + 102 * (1 / 2 ^ 1075) < 101 := by
    norm_num
  linarith

theorem shareD_eq (f S : ℚ) (hf : 0 ≤ f) (hS : 0 < S) (hx : f / S ≤ 1 + 1 / 2 ^ 21) :
    shareD f S = some (shareValue f S) := by
  have ha : 0 ≤ f / S := div_nonneg hf (le_of_lt hS)
  have h1 : toDouble (f / S) = some (roundDouble (f / S)) := by
    apply toDouble_of_abs_le
    rw [abs_of_nonneg ha]
    have : (1 : ℚ) + 1 / 2 ^ 21 ≤ 2 ^ 53 := by norm_num
    linarith
  have hr := abs_roundDouble_le (f / S)
  rw [abs_of_nonneg ha, abs_of_nonneg (roundDouble_nonneg _ ha)] at hr
  have h2 : toDouble (roundDouble (f / S) * 100) = some (shareValue f S) := by
    unfold shareValue
    apply toDouble_of_abs_le
    rw [abs_of_nonneg (mul_nonneg (roundDouble_nonneg _ ha) (by norm_num))]
    have : (1 : ℚ) + 1 / 2 ^ 21 ≤ 2 := by norm_num
    have : ((2 : ℚ) * 2 + 1) * 100 ≤ 2 ^ 53 := by norm_num
    nlinarith
  unfold shareD
  rw [if_neg (ne_of_gt hS), h1, Option.some_bind, h2]

theorem foldlM_insertWhileD (fuel : Nat) (S : ℚ) (l acc : List Gene_t)
    (h : ∀ g ∈ l, shareD g.fitness S = some (shareValue g.fitness S) ∧
      shareValue g.fitness S < 101) (hfuel : 102 ≤ fuel) :
    l.foldlM (fun sl g => (shareD g.fitness S).bind fun p => insertWhileD fuel g p sl) acc =
      some (acc ++ l.flatMap fun g =>
        List.replicate (Int.ceil (shareValue g.fitness S)).toNat g) := by
  induction l generalizing acc with
  | nil => simp
  | cons g t ih =>
    obtain ⟨h1, h2⟩ := h g (List.mem_cons_self _ _)
    have hc : Int.ceil (shareValue g.fitness S) ≤ 101 :=
      Int.ceil_le.mpr (by push_cast; linarith)
    have hstep := insertWhileD_eq g _ fuel (shareValue g.fitness S) acc rfl (by omega)
      (roundDouble_representable _) (by
        have : (101 : ℚ) ≤ 2 ^ 53 := by norm_num
        linarith)
    rw [List.foldlM_cons, h1, Option.some_bind, hstep]
    rw [List.flatMap_cons, ← List.append_assoc]
    exact ih _ fun x hx => h x (List.mem_cons_of_mem _ hx)

theorem selectionListD_eq (ga : correlationGA) (fuel : Nat) (S : ℚ) (hsize : SizeInvariant ga)
    (hint : ga.populationSize < 2 ^ 31)
    (hrep : ∀ g ∈ ga.population, Representable g.fitness)
    (hnn : ∀ g ∈ ga.population, 0 ≤ g.fitness) (hsum : sumFitnessD ga = some S)
    (hpos : 0 < S) (hfuel : 102 ≤ fuel) :
    (∀ g ∈ ga.population, shareD g.fitness S = some (shareValue g.fitness S)) ∧
    selectionListD fuel ga = some (ga.population.flatMap fun g =>
      List.replicate (Int.ceil (shareValue g.fitness S)).toNat g) := by
  obtain ⟨-, s1, s2⟩ := sumFitnessD_bounds ga hsize hint hrep hnn S hsum
  obtain ⟨-, x2⟩ := ratio_bounds _ S hpos s1 s2
  have hx : ∀ g ∈ ga.population, g.fitness / S ≤ 1 + 1 / 2 ^ 21 := by
    intro g hg
    have := fitness_le_sum ga.population hnn g hg
    have : g.fitness / S ≤ (ga.population.map Gene_t.fitness).sum / S :=
      div_le_div_of_nonneg_right this (le_of_lt hpos)
    linarith
  have hshare : ∀ g ∈ ga.population, shareD g.fitness S = some (shareValue g.fitness S) :=
    fun g hg => shareD_eq g.fitness S (hnn g hg) hpos (hx g hg)
  refine ⟨hshare, ?_⟩
  unfold selectionListD
  rw [hsum, Option.some_bind,
    forLoop_foldlM ga.population
      (fun sl g => (shareD g.fitness S).bind fun p => insertWhileD fuel g p sl)
      _ _ (fun j s _ => rfl) _ hsize,
    foldlM_insertWhileD fuel S ga.population []
      (fun g hg => ⟨hshare g hg, shareValue_lt g.fitness S (hnn g hg) hpos (hx g hg)⟩) hfuel,
    List.nil_append]

theorem selectionListD_length (ga : correlationGA) (S : ℚ) (hsize : SizeInvariant ga)
    (hint : ga.populationSize < 2 ^ 31)
    (hrep : ∀ g ∈ ga.population, Representable g.fitness)
    (hnn : ∀ g ∈ ga.population, 0 ≤ g.fitness) (hsum : sumFitnessD ga = some S)
    (hpos : 0 < S) :
    100 ≤ (ga.population.flatMap fun g =>
      List.replicate (Int.ceil (shareValue g.fitness S)).toNat g).length ∧
    (ga.population.flatMap fun g =>
      List.replicate (Int.ceil (shareValue g.fitness S)).toNat g).length ≤
      100 + ga.population.length := by
  obtain ⟨-, s1, s2⟩ := sumFitnessD_bounds ga hsize hint hrep hnn S hsum
  obtain ⟨x1, x2⟩ := ratio_bounds _ S hpos s1 s2
  obtain ⟨t1, t2⟩ := sum_shareValue_bounds S hpos ga.population hnn
  have hlen : (ga.population.length : ℚ) ≤ 2 ^ 31 := by
    have : ga.population.length < 2 ^ 31 := by
      unfold SizeInvariant at hsize
      omega
    exact_mod_cast le_of_lt this
  have lo : (99 : ℚ) < (ga.population.map fun g => shareValue g.fitness S).sum := by
    have c : (0 : ℚ) ≤ 100 * (1 - 1 / 2 ^ 53) ^ 2 := by positivity
    have u1 := mul_le_mul_of_nonneg_left x1 c
    have u2 : (101 : ℚ) * (1 / 2 ^ 1075) * (ga.population.length : ℚ) ≤
        101 * (1 / 2 ^ 1075) * 2 ^ 31 := mul_le_mul_of_nonneg_left hlen (by positivity)
    have u3 : (99 : ℚ) < 100 * (1 - 1 / 2 ^ 53) ^ 2 * (1 - 1 / 2 ^ 22) -
        101 * (1 / 2 ^ 1075) * 2 ^ 31 := by norm_num
    linarith
  have hi : (ga.population.map fun g => shareValue g.fitness S).sum < 101 := by
    have c : (0 : ℚ) ≤ 100 * (1 + 1 / 2 ^ 53) ^ 2 := by positivity
    have u1 := mul_le_mul_of_nonneg_left x2 c
    have u2 : (102 : ℚ) * (1 / 2 ^ 1075) * (ga.population.length : ℚ) ≤
        102 * (1 / 2 ^ 1075) * 2 ^ 31 := mul_le_mul_of_nonneg_left hlen (by positivity)
    have u3 : (100 : ℚ) * (1 + 1 / 2 ^ 53) ^ 2 * (1 + 1 / 2 ^ 21) +
        102 * (1 / 2 ^ 1075) * 2 ^ 31 < 101 := by norm_num
    linarith
  obtain ⟨c1, c2, -⟩ := sum_ceil_bounds (fun g => shareValue g.fitness S) ga.population
    (fun g hg => (shareValue_bounds g.fitness S (hnn g hg) hpos).1)
  rw [length_flatMap_replicate]
  constructor
  · have : ((99 : Nat) : ℚ) < (((ga.population.map fun g =>
        (Int.ceil (shareValue g.fitness S)).toNat).sum : Nat) : ℚ) := by
      push_cast
      push_cast at c1
      linarith
    have := Nat.cast_lt.mp this
    omega
  · have : (((ga.population.map fun g =>
        (Int.ceil (shareValue g.fitness S)).toNat).sum : Nat) : ℚ) <
        ((101 + ga.population.length : Nat) : ℚ) := by
      push_cast
      push_cast at c2
      linarith
    have := Nat.cast_lt.mp this
    omega

/-! ## The selection list of two examples -/

theorem sumFitnessD_one_two (c m : Int) :
    sumFitnessD (exampleGA [⟨1, 1, 1⟩, ⟨2, 2, 2⟩] c m) = some 3 := by
  rw [sumFitnessD_eq_foldlM _ (by simp [SizeInvariant, exampleGA])]
  have e1 : toDouble ((0 : ℚ) + 1) = some 1 := by
    rw [toDouble_of_abs_le _ (by norm_num), zero_add,
      roundDouble_of_representable 1 (by simpa using representable_intCast 1 (by norm_num))]
  have e2 : toDouble ((1 : ℚ) + 2) = some 3 := by
    rw [toDouble_of_abs_le _ (by norm_num)]
    norm_num
    simpa using roundDouble_of_representable 3
      (by simpa using representable_intCast 3 (by norm_num))
  simp only [exampleGA, List.foldlM_cons, List.foldlM_nil, e1, e2, Option.some_bind,
    Option.bind_eq_bind]
  rfl

theorem ceil_shareValue_one_of_three : Int.ceil (shareValue 1 3) = 34 := by
  obtain ⟨-, b1, b2⟩ := shareValue_bounds 1 3 (by norm_num) (by norm_num)
  rw [Int.ceil_eq_iff]
  constructor
  · refine lt_of_lt_of_le ?_ b1
    norm_num
  · refine le_trans b2 ?_
    norm_num

theorem ceil_shareValue_two_of_three : Int.ceil (shareValue 2 3) = 67 := by
  obtain ⟨-, b1, b2⟩ := shareValue_bounds 2 3 (by norm_num) (by norm_num)
  rw [Int.ceil_eq_iff]
  constructor
  · refine lt_of_lt_of_le ?_ b1
    norm_num
  · refine le_trans b2 ?_
    norm_num

theorem floor_shareValue_one_of_three : Int.floor (shareValue 1 3) = 33 := by
  obtain ⟨-, b1, b2⟩ := shareValue_bounds 1 3 (by norm_num) (by norm_num)
  rw [Int.floor_eq_iff]
  constructor
  · refine le_trans ?_ b1
    norm_num
  · refine lt_of_le_of_lt b2 ?_
    norm_num

theorem floor_shareValue_two_of_three : Int.floor (shareValue 2 3) = 66 := by
  obtain ⟨-, b1, b2⟩ := shareValue_bounds 2 3 (by norm_num) (by norm_num)
  rw [Int.floor_eq_iff]
  constructor
  · refine le_trans ?_ b1
    norm_num
  · refine lt_of_le_of_lt b2 ?_
    norm_num

theorem exampleGA_one_two_doubles (c m : Int) :
    ∀ g ∈ (exampleGA [⟨1, 1, 1⟩, ⟨2, 2, 2⟩] c m).population,
      Representable g.fitness ∧ 0 ≤ g.fitness := by
  intro g hg
  simp only [exampleGA, List.mem_cons, List.mem_singleton, List.not_mem_nil, or_false] at hg
  rcases hg with rfl | rfl
  · exact ⟨by simpa using representable_intCast 1 (by norm_num), by norm_num⟩
  · exact ⟨by simpa using representable_intCast 2 (by norm_num), by norm_num⟩

theorem selectionListD_one_two (fuel : Nat) (hfuel : 102 ≤ fuel) :
    selectionListD fuel (exampleGA [⟨1, 1, 1⟩, ⟨2, 2, 2⟩] 0 0) =
      some (List.replicate 34 ⟨1, 1, 1⟩ ++ List.replicate 67 ⟨2, 2, 2⟩) := by
  rw [(selectionListD_eq _ fuel 3 (by simp [SizeInvariant, exampleGA])
    (by simp [exampleGA]) (fun g hg => (exampleGA_one_two_doubles 0 0 g hg).1)
    (fun g hg => (exampleGA_one_two_doubles 0 0 g hg).2) (sumFitnessD_one_two 0 0)
    (by norm_num) hfuel).2]
  simp only [exampleGA, List.flatMap_cons, List.flatMap_nil, List.append_nil,
    ceil_shareValue_one_of_three, ceil_shareValue_two_of_three]
  rfl

theorem roundDouble_eq_of (q r : ℚ) (e m : Int) (he : -1022 ≤ e)
    (hr : r = (m : ℚ) * 2 ^ (e - 52)) (h1 : (2 : ℚ) ^ e ≤ q) (h2 : q < (2 : ℚ) ^ (e + 1))
    (hm1 : (m : ℚ) - 1 / 2 < q / 2 ^ (e - 52)) (hm2 : q / 2 ^ (e - 52) < (m : ℚ) + 1 / 2) :
    roundDouble q = r := by
  rw [hr]
  exact roundDouble_eval q e m h1 h2 he hm1 hm2

theorem roundHalfEven_tie_even (q : ℚ) (m : Int) (h : q = (m : ℚ) + 1 / 2)
    (hm : m % 2 = 0) : roundHalfEven q = m := by
  have hf : Int.floor q = m := by
    rw [Int.floor_eq_iff]
    constructor <;> linarith
  unfold roundHalfEven
  rw [hf]
  have c1 : ¬ q - (m : ℚ) < 1 / 2 := by linarith
  have c2 : ¬ 1 / 2 < q - (m : ℚ) := by linarith
  rw [if_neg c1, if_neg c2, if_pos hm]

theorem roundDouble_eq_of_tie (q r : ℚ) (e m : Int) (he : -1022 ≤ e)
    (hr : r = (m : ℚ) * 2 ^ (e - 52)) (h1 : (2 : ℚ) ^ e ≤ q) (h2 : q < (2 : ℚ) ^ (e + 1))
    (hm : q / 2 ^ (e - 52) = (m : ℚ) + 1 / 2) (heven : m % 2 = 0) :
    roundDouble q = r := by
  have hq : 0 < q := lt_of_lt_of_le (zpow_pos (by norm_num) e) h1
  rw [hr, roundDouble_pos q hq, binade_eq q e h1 h2 he, roundHalfEven_tie_even _ m hm heven]

theorem roundDouble_one_seventh :
    roundDouble (1 / 7) = 2573485501354569 / 18014398509481984 := by
  apply roundDouble_eq_of _ _ (-3) 5146971002709138 <;> norm_num

theorem roundDouble_one_fortythird :
    roundDouble (1 / 43) = 1675758000882045 / 72057594037927936 := by
  apply roundDouble_eq_of _ _ (-6) 6703032003528180 <;> norm_num

theorem representable_one_seventh :
    Representable (2573485501354569 / 18014398509481984) :=
  ⟨2573485501354569, -54, by norm_num, by norm_num, by norm_num⟩

theorem representable_one_fortythird :
    Representable (1675758000882045 / 72057594037927936) :=
  ⟨1675758000882045, -56, by norm_num, by norm_num, by norm_num⟩

theorem exampleGA_seventh_fortythird_doubles :
    ∀ g ∈ (exampleGA [⟨3, 3, 2573485501354569 / 18014398509481984⟩,
        ⟨21, 21, 1675758000882045 / 72057594037927936⟩] 0 0).population,
      Representable g.fitness ∧ 0 ≤ g.fitness := by
  intro g hg
  simp only [exampleGA, List.mem_cons, List.mem_singleton, List.not_mem_nil, or_false] at hg
  rcases hg with rfl | rfl
  · exact ⟨representable_one_seventh, by norm_num⟩
  · exact ⟨representable_one_fortythird, by norm_num⟩

theorem sumFitnessD_seventh_fortythird :
    sumFitnessD (exampleGA [⟨3, 3, 2573485501354569 / 18014398509481984⟩,
        ⟨21, 21, 1675758000882045 / 72057594037927936⟩] 0 0) =
      some (374053125196885 / 2251799813685248) := by
  rw [sumFitnessD_eq_foldlM _ (by simp [SizeInvariant, exampleGA])]
  have e1 : toDouble ((0 : ℚ) + 2573485501354569 / 18014398509481984) =
      some (2573485501354569 / 18014398509481984) := by
    rw [toDouble_of_abs_le _ (by rw [abs_le]; constructor <;> norm_num), zero_add,
      roundDouble_of_representable _ representable_one_seventh]
  have e2 : toDouble ((2573485501354569 / 18014398509481984 : ℚ) +
      1675758000882045 / 72057594037927936) = some (374053125196885 / 2251799813685248) := by
    rw [toDouble_of_abs_le _ (by rw [abs_le]; constructor <;> norm_num)]
    congr 1
    apply roundDouble_eq_of_tie _ _ (-3) 5984850003150160 <;> norm_num
  simp only [exampleGA, List.foldlM_cons, List.foldlM_nil, e1, e2, Option.some_bind,
    Option.bind_eq_bind]
  rfl

theorem ceil_shareValue_seventh :
    Int.ceil (shareValue (2573485501354569 / 18014398509481984)
      (374053125196885 / 2251799813685248)) = 87 := by
  have r : roundDouble ((2573485501354569 / 18014398509481984 : ℚ) /
      (374053125196885 / 2251799813685248)) = 3873095679538627 / 4503599627370496 := by
    apply roundDouble_eq_of _ _ (-1) 7746191359077254 <;> norm_num
  have s : roundDouble ((3873095679538627 / 4503599627370496 : ℚ) * 100) =
      6051711999279105 / 70368744177664 := by
    apply roundDouble_eq_of _ _ 6 6051711999279105 <;> norm_num
  unfold shareValue
  rw [r, s, Int.ceil_eq_iff]
  norm_num

theorem ceil_shareValue_fortythird :
    Int.ceil (shareValue (1675758000882045 / 72057594037927936)
      (374053125196885 / 2251799813685248)) = 15 := by
  have r : roundDouble ((1675758000882045 / 72057594037927936 : ℚ) /
      (374053125196885 / 2251799813685248)) = 1261007895663739 / 9007199254740992 := by
    apply roundDouble_eq_of _ _ (-3) 5044031582654956 <;> norm_num
  have s : roundDouble ((1261007895663739 / 9007199254740992 : ℚ) * 100) =
      7881299347898369 / 562949953421312 := by
    apply roundDouble_eq_of _ _ 3 7881299347898369 <;> norm_num
  unfold shareValue
  rw [r, s, Int.ceil_eq_iff]
  norm_num

theorem fitnessD_seventh_fortythird :
    fitnessD (exampleGA [] 0 0) ⟨3, 3, 0⟩ = some (2573485501354569 / 18014398509481984) ∧
    fitnessD (exampleGA [] 0 0) ⟨21, 21, 0⟩ = some (1675758000882045 / 72057594037927936) := by
  constructor
  · have : toDouble ((1 : ℚ) / 7) = some (2573485501354569 / 18014398509481984) := by
      rw [toDouble_of_abs_le _ (by rw [abs_le]; constructor <;> norm_num), roundDouble_one_seventh]
    simp only [fitnessD, exampleGA, GA_BAD_FITNESS]
    norm_num
    exact this
  · have : toDouble ((1 : ℚ) / 43) = some (1675758000882045 / 72057594037927936) := by
      rw [toDouble_of_abs_le _ (by rw [abs_le]; constructor <;> norm_num), roundDouble_one_fortythird]
    simp only [fitnessD, exampleGA, GA_BAD_FITNESS]
    norm_num
    exact this

/-! ## A loop that does not end -/

theorem toDouble_of_representable (x : ℚ) (h : Representable x) (hx : |x| < 2 ^ 1024) :
    toDouble x = some x := by
  unfold toDouble
  rw [roundDouble_of_representable x h, if_pos hx]

theorem insertWhileD_stuck (fuel : Nat) (g : Gene_t) (sl : List Gene_t) :
    insertWhileD fuel g 450359962737049600 sl = none := by
  induction fuel generalizing sl with
  | zero => rfl
  | succ n ih =>
    have hr : roundDouble ((450359962737049600 : ℚ) - 1) = 450359962737049600 := by
      apply roundDouble_eq_of _ _ 58 7036874417766400 <;> norm_num
    have hd : toDouble ((450359962737049600 : ℚ) - 1) = some 450359962737049600 := by
      rw [toDouble_of_lt _ (by rw [hr, abs_lt]; constructor <;> norm_num), hr]
    rw [insertWhileD, if_pos (by norm_num), hd, Option.some_bind]
    exact ih _

/-- Why the fitness values are taken non-negative below: with the fitness values
`2 ^ 60` and `-(2 ^ 60 - 256)` the sum is 256 and the first share is
`2 ^ 52 * 100`, which the subtraction of 1.0 leaves unchanged, so the inner loop
does not end, whatever the number of iterations allowed. -/
theorem selectionListD_negative_fitness (fuel : Nat) :
    sumFitnessD (exampleGA [⟨1, 1, 1152921504606846976⟩,
      ⟨2, 2, -1152921504606846720⟩] 0 0) = some 256 ∧
    shareD 1152921504606846976 256 = some 450359962737049600 ∧
    selectionListD fuel (exampleGA [⟨1, 1, 1152921504606846976⟩,
      ⟨2, 2, -1152921504606846720⟩] 0 0) = none := by
  have e1 : toDouble ((0 : ℚ) + 1152921504606846976) = some 1152921504606846976 := by
    rw [zero_add]
    exact toDouble_of_representable _ ⟨1, 60, by norm_num, by norm_num, by norm_num⟩
      (by rw [abs_lt]; constructor <;> norm_num)
  have e2 : toDouble ((1152921504606846976 : ℚ) + -1152921504606846720) = some 256 := by
    have : (1152921504606846976 : ℚ) + -1152921504606846720 = 256 := by norm_num
    rw [this]
    exact toDouble_of_representable _ ⟨256, 0, by norm_num, by norm_num, by norm_num⟩
      (by rw [abs_lt]; constructor <;> norm_num)
  have hsum : sumFitnessD (exampleGA [⟨1, 1, 1152921504606846976⟩,
      ⟨2, 2, -1152921504606846720⟩] 0 0) = some 256 := by
    rw [sumFitnessD_eq_foldlM _ (by simp [SizeInvariant, exampleGA])]
    simp only [exampleGA, List.foldlM_cons, List.foldlM_nil, e1, e2, Option.some_bind,
      Option.bind_eq_bind]
    rfl
  have s1 : toDouble ((1152921504606846976 : ℚ) / 256) = some 4503599627370496 := by
    have : (1152921504606846976 : ℚ) / 256 = 4503599627370496 := by norm_num
    rw [this]
    exact toDouble_of_representable _ ⟨1, 52, by norm_num, by norm_num, by norm_num⟩
      (by rw [abs_lt]; constructor <;> norm_num)
  have s2 : toDouble ((4503599627370496 : ℚ) * 100) = some 450359962737049600 := by
    have : (4503599627370496 : ℚ) * 100 = 450359962737049600 := by norm_num
    rw [this]
    exact toDouble_of_representable _ ⟨25, 54, by norm_num, by norm_num, by norm_num⟩
      (by rw [abs_lt]; constructor <;> norm_num)
  have hshare : shareD 1152921504606846976 256 = some 450359962737049600 := by
    unfold shareD
    rw [if_neg (by norm_num), s1, Option.some_bind, s2]
  refine ⟨hsum, hshare, ?_⟩
  unfold selectionListD
  rw [hsum, Option.some_bind,
    forLoop_foldlM (exampleGA [⟨1, 1, 1152921504606846976⟩,
      ⟨2, 2, -1152921504606846720⟩] 0 0).population
      (fun sl g => (shareD g.fitness 256).bind fun p => insertWhileD fuel g p sl)
      _ _ (fun j s _ => rfl) _ (by simp [SizeInvariant, exampleGA])]
  simp only [exampleGA, List.foldlM_cons, hshare, Option.some_bind, insertWhileD_stuck]
  rfl

/-! ## The selection list in `double` arithmetic: copies and size -/

/-- C2 (as stated) fails: for the population with fitness values 1 and 2 the
rounded sum is 3 and the shares computed in `double` arithmetic have floor 33
and 66, as the exact shares 33.3 and 66.7 have; the selection list holds 34
copies of the first gene and 67 of the second. -/
theorem selectionListD_not_floor_copies :
    sumFitnessD (exampleGA [⟨1, 1, 1⟩, ⟨2, 2, 2⟩] 0 0) = some 3 ∧
    shareD 1 3 = some (shareValue 1 3) ∧ shareD 2 3 = some (shareValue 2 3) ∧
    Int.floor (shareValue 1 3) = 33 ∧ Int.floor (shareValue 2 3) = 66 ∧
    Int.floor ((1 : ℚ) / 3 * 100) = 33 ∧ Int.floor ((2 : ℚ) / 3 * 100) = 66 ∧
    selectionListD 102 (exampleGA [⟨1, 1, 1⟩, ⟨2, 2, 2⟩] 0 0) =
      some (List.replicate 34 ⟨1, 1, 1⟩ ++ List.replicate 67 ⟨2, 2, 2⟩) ∧
    selectionListD 102 (exampleGA [⟨1, 1, 1⟩, ⟨2, 2, 2⟩] 0 0) ≠
      some (List.replicate 33 ⟨1, 1, 1⟩ ++ List.replicate 66 ⟨2, 2, 2⟩) := by
  refine ⟨sumFitnessD_one_two 0 0, shareD_eq 1 3 (by norm_num) (by norm_num) (by norm_num),
    shareD_eq 2 3 (by norm_num) (by norm_num) (by norm_num), floor_shareValue_one_of_three,
    floor_shareValue_two_of_three, by rw [Int.floor_eq_iff]; norm_num,
    by rw [Int.floor_eq_iff]; norm_num, selectionListD_one_two 102 (le_refl _), ?_⟩
  rw [selectionListD_one_two 102 (le_refl _)]
  intro h
  have hlen := congrArg (fun o => o.map List.length) h
  simp only [Option.map_some', List.length_append, List.length_replicate,
    Option.some.injEq] at hlen
  revert hlen
  decide

/-- C2 (amended). Selection pool construction in `double` arithmetic: for every
population of fewer than `2 ^ 31` genes whose fitness values are non-negative
`double` values and whose rounded sum `sumFitness` is finite and greater than 0,
every share `(fitness_i / sumFitness) * 100` is finite, the loops end, and the
selection list consists, in population order, of one block per individual,
individual `i` being inserted exactly `ceil(share_i)` times, where `share_i` is
the share as computed, with its division and its multiplication rounded. -/
theorem selectionListD_ceil_copies (ga : correlationGA) (fuel : Nat) (S : ℚ)
    (hsize : SizeInvariant ga) (hint : ga.populationSize < 2 ^ 31)
    (hrep : ∀ g ∈ ga.population, Representable g.fitness)
    (hnn : ∀ g ∈ ga.population, 0 ≤ g.fitness) (hsum : sumFitnessD ga = some S)
    (hpos : 0 < S) (hfuel : 102 ≤ fuel) :
    (∀ g ∈ ga.population, shareD g.fitness S = some (shareValue g.fitness S)) ∧
    selectionListD fuel ga = some (ga.population.flatMap fun g =>
      List.replicate (Int.ceil (shareValue g.fitness S)).toNat g) :=
  selectionListD_eq ga fuel S hsize hint hrep hnn hsum hpos hfuel

theorem selectionListD_ceil_copies_witness :
    (∀ g ∈ (exampleGA [⟨1, 1, 1⟩, ⟨2, 2, 2⟩] 0 0).population,
      shareD g.fitness 3 = some (shareValue g.fitness 3)) ∧
    selectionListD 102 (exampleGA [⟨1, 1, 1⟩, ⟨2, 2, 2⟩] 0 0) =
      some ((exampleGA [⟨1, 1, 1⟩, ⟨2, 2, 2⟩] 0 0).population.flatMap fun g =>
        List.replicate (Int.ceil (shareValue g.fitness 3)).toNat g) :=
  selectionListD_ceil_copies (exampleGA [⟨1, 1, 1⟩, ⟨2, 2, 2⟩] 0 0) 102 3
    (by simp [SizeInvariant, exampleGA]) (by simp [exampleGA])
    (fun g hg => (exampleGA_one_two_doubles 0 0 g hg).1)
    (fun g hg => (exampleGA_one_two_doubles 0 0 g hg).2) (sumFitnessD_one_two 0 0)
    (by norm_num) (le_refl _)

/-- C28 (as stated) fails: take the two genes at `(3, 3)` and `(21, 21)`, whose
squared differences are 7 and 43 and whose fitness values are the `double`
values of `1.0 / 7` and `1.0 / 43`.  The exact share of the first is just below
86, with ceiling 86; its share computed in `double` arithmetic is just above
86, and the second's just above 14, so the selection list holds 87 and 15
copies, 102 genes in all, more than `99 + 2`. -/
theorem selectionListD_exceeds_bound :
    fitnessD (exampleGA [] 0 0) ⟨3, 3, 0⟩ = some (2573485501354569 / 18014398509481984) ∧
    fitnessD (exampleGA [] 0 0) ⟨21, 21, 0⟩ = some (1675758000882045 / 72057594037927936) ∧
    Int.ceil ((2573485501354569 / 18014398509481984 : ℚ) /
      (2573485501354569 / 18014398509481984 + 1675758000882045 / 72057594037927936) * 100) =
      86 ∧
    selectionListD 102 (exampleGA [⟨3, 3, 2573485501354569 / 18014398509481984⟩,
        ⟨21, 21, 1675758000882045 / 72057594037927936⟩] 0 0) =
      some (List.replicate 87 ⟨3, 3, 2573485501354569 / 18014398509481984⟩ ++
        List.replicate 15 ⟨21, 21, 1675758000882045 / 72057594037927936⟩) ∧
    99 + (exampleGA [⟨3, 3, 2573485501354569 / 18014398509481984⟩,
        ⟨21, 21, 1675758000882045 / 72057594037927936⟩] 0 0).population.length <
      (List.replicate 87 (⟨3, 3, 2573485501354569 / 18014398509481984⟩ : Gene_t) ++
        List.replicate 15 (⟨21, 21, 1675758000882045 / 72057594037927936⟩ : Gene_t)).length := by
  refine ⟨fitnessD_seventh_fortythird.1, fitnessD_seventh_fortythird.2,
    by rw [Int.ceil_eq_iff]; norm_num, ?_, by simp [exampleGA]⟩
  rw [(selectionListD_eq _ 102 (374053125196885 / 2251799813685248)
    (by simp [SizeInvariant, exampleGA]) (by simp [exampleGA])
    (fun g hg => (exampleGA_seventh_fortythird_doubles g hg).1)
    (fun g hg => (exampleGA_seventh_fortythird_doubles g hg).2)
    sumFitnessD_seventh_fortythird (by norm_num) (le_refl _)).2]
  simp only [exampleGA, List.flatMap_cons, List.flatMap_nil, List.append_nil,
    ceil_shareValue_seventh, ceil_shareValue_fortythird]
  rfl

/-- C28 (amended). Selection pool size bounds in `double` arithmetic: for every
population of `n < 2 ^ 31` genes whose fitness values are non-negative `double`
values and whose rounded sum `sumFitness` is finite and greater than 0, the
loops end, the selection list holds individual `i` exactly `ceil(share_i)`
times, in population order, `share_i` being the share as computed in `double`
arithmetic, and its size is at least 100 and at most `100 + n`. -/
theorem selectionListD_size_bounds (ga : correlationGA) (fuel : Nat) (S : ℚ)
    (hsize : SizeInvariant ga) (hint : ga.populationSize < 2 ^ 31)
    (hrep : ∀ g ∈ ga.population, Representable g.fitness)
    (hnn : ∀ g ∈ ga.population, 0 ≤ g.fitness) (hsum : sumFitnessD ga = some S)
    (hpos : 0 < S) (hfuel : 102 ≤ fuel) :
    ∃ pool, selectionListD fuel ga = some pool ∧
      pool = (ga.population.flatMap fun g =>
        List.replicate (Int.ceil (shareValue g.fitness S)).toNat g) ∧
      100 ≤ pool.length ∧ pool.length ≤ 100 + ga.population.length :=
  ⟨_, (selectionListD_eq ga fuel S hsize hint hrep hnn hsum hpos hfuel).2, rfl,
    selectionListD_length ga S hsize hint hrep hnn hsum hpos⟩

theorem selectionListD_size_bounds_witness :
    ∃ pool, selectionListD 102 (exampleGA [⟨3, 3, 2573485501354569 / 18014398509481984⟩,
        ⟨21, 21, 1675758000882045 / 72057594037927936⟩] 0 0) = some pool ∧
      pool = ((exampleGA [⟨3, 3, 2573485501354569 / 18014398509481984⟩,
        ⟨21, 21, 1675758000882045 / 72057594037927936⟩] 0 0).population.flatMap fun g =>
        List.replicate
          (Int.ceil (shareValue g.fitness (374053125196885 / 2251799813685248))).toNat g) ∧
      100 ≤ pool.length ∧
      pool.length ≤ 100 + (exampleGA [⟨3, 3, 2573485501354569 / 18014398509481984⟩,
        ⟨21, 21, 1675758000882045 / 72057594037927936⟩] 0 0).population.length :=
  selectionListD_size_bounds (exampleGA [⟨3, 3, 2573485501354569 / 18014398509481984⟩,
    ⟨21, 21, 1675758000882045 / 72057594037927936⟩] 0 0) 102
    (374053125196885 / 2251799813685248)
    (by simp [SizeInvariant, exampleGA]) (by simp [exampleGA])
    (fun g hg => (exampleGA_seventh_fortythird_doubles g hg).1)
    (fun g hg => (exampleGA_seventh_fortythird_doubles g hg).2)
    sumFitnessD_seventh_fortythird (by norm_num) (le_refl _)

/-! ## The constructor in `double` arithmetic -/

theorem fitnessD_total (ga : correlationGA) (h : FiniteFitness ga.minSqDiff) (g : Gene_t) :
    ∃ f, fitnessD ga g = some f := by
  unfold fitnessD
  split_ifs with h1 h2 h3 h4
  · exact ⟨_, rfl⟩
  · exact ⟨_, rfl⟩
  · exact ⟨_, rfl⟩
  · exact ⟨_, rfl⟩
  · simp only
    rw [if_neg (h g.x g.y).1, toDouble_of_lt _ (h g.x g.y).2]
    exact ⟨_, rfl⟩

theorem count_eq (q : ℚ) (h1 : -2147483648 ≤ Int.floor (roundDouble q))
    (h2 : Int.floor (roundDouble q) ≤ 2147483647) :
    ((toDouble q).bind fun pc => toInt32 (Int.floor pc)) =
      some (Int.floor (roundDouble q)) := by
  have f1 := Int.floor_le (roundDouble q)
  have f2 := Int.lt_floor_add_one (roundDouble q)
  have a1 : (-2147483648 : ℚ) ≤ (Int.floor (roundDouble q) : ℚ) := by exact_mod_cast h1
  have a2 : (Int.floor (roundDouble q) : ℚ) ≤ 2147483647 := by exact_mod_cast h2
  have hfin : |roundDouble q| < 2 ^ 1024 := by
    rw [abs_lt]
    constructor
    · have : -(2 : ℚ) ^ 1024 < -2147483648 := by norm_num
      linarith
    · have : (2147483647 : ℚ) + 1 < 2 ^ 1024 := by norm_num
      linarith
  rw [toDouble_of_lt _ hfin, Option.some_bind]
  unfold toInt32
  rw [if_pos ⟨h1, h2⟩]

theorem count_of_some (q : ℚ) (cc : Int)
    (h : ((toDouble q).bind fun pc => toInt32 (Int.floor pc)) = some cc) :
    cc = Int.floor (roundDouble q) := by
  obtain ⟨pc, hpc, hcc⟩ := Option.bind_eq_some.mp h
  have := toDouble_eq_some _ _ hpc
  subst this
  unfold toInt32 at hcc
  split_ifs at hcc
  exact (Option.some.inj hcc).symm

theorem constructStepD_eq (img : Mat) (ga : correlationGA) :
    constructStepD img ga =
      (fitnessD ga ⟨(ga.random.random img.cols).1 % 65536,
        ((ga.random.random img.cols).2.random img.rows).1 % 65536, 0⟩).map fun f =>
      (⟨ga.crossoverCount, ga.mutationCount, ((ga.random.random img.cols).2.random img.rows).2,
        ga.population ++ [⟨(ga.random.random img.cols).1 % 65536,
          ((ga.random.random img.cols).2.random img.rows).1 % 65536, f⟩],
        ga.populationSize, ga.image, ga.correlation_template, ga.minSqDiff⟩ : correlationGA) :=
  rfl

theorem constructD_loop_total (popSize cc mc : Int) (img roi : Mat)
    (minSqDiff : Nat → Nat → ℚ) (seed : RNG) (hmatch : FiniteFitness minSqDiff) :
    ∃ ga, forLoop popSize (fun _ ga => constructStepD img ga)
        ⟨cc, mc, seed, [], popSize, img, roi, minSqDiff⟩ = some ga ∧
      ga.populationSize = popSize ∧ ga.population.length = popSize.toNat ∧
      ga.crossoverCount = cc ∧ ga.mutationCount = mc := by
  unfold forLoop
  have h := forLoopFrom_total
    (fun j (ga : correlationGA) =>
      ga.population.length = j ∧ ga.populationSize = popSize ∧ FiniteFitness ga.minSqDiff ∧
        ga.crossoverCount = cc ∧ ga.mutationCount = mc)
    (fun _ ga => constructStepD img ga)
    (by
      intro j ga hga
      obtain ⟨f, hf⟩ := fitnessD_total ga hga.2.2.1 ⟨(ga.random.random img.cols).1 % 65536,
        ((ga.random.random img.cols).2.random img.rows).1 % 65536, 0⟩
      beta_reduce
      rw [constructStepD_eq, hf]
      exact ⟨_, rfl, by simp [hga.1], hga.2.1, hga.2.2.1, hga.2.2.2.1, hga.2.2.2.2⟩)
    popSize.toNat 0
    ⟨cc, mc, seed, [], popSize, img, roi, minSqDiff⟩
    ⟨rfl, rfl, hmatch, rfl, rfl⟩
  obtain ⟨ga, hrun, hlen, hps, -, hc, hm⟩ := h
  exact ⟨ga, hrun, hps, by simpa using hlen, hc, hm⟩

theorem constructD_loop_fields (popSize cc mc : Int) (img roi : Mat)
    (minSqDiff : Nat → Nat → ℚ) (seed : RNG) (ga : correlationGA)
    (h : forLoop popSize (fun _ ga => constructStepD img ga)
        ⟨cc, mc, seed, [], popSize, img, roi, minSqDiff⟩ = some ga) :
    ga.crossoverCount = cc ∧ ga.mutationCount = mc := by
  unfold forLoop at h
  exact forLoopFrom_completed
    (fun _ (ga : correlationGA) => ga.crossoverCount = cc ∧ ga.mutationCount = mc)
    _ (by
      intro j s t hs hb
      rw [constructStepD_eq] at hb
      obtain ⟨f, -, rfl⟩ := Option.map_eq_some'.mp hb
      exact hs)
    popSize.toNat 0 _ ga ⟨rfl, rfl⟩ h

theorem constructD_fields (popSize : Int) (crossover mutation : ℚ) (img roi : Mat)
    (minSqDiff : Nat → Nat → ℚ) (seed : RNG) (ga : correlationGA)
    (h : constructD popSize crossover mutation img roi minSqDiff seed = some ga) :
    ga.crossoverCount = Int.floor (roundDouble ((popSize : ℚ) * crossover)) ∧
    ga.mutationCount = Int.floor (roundDouble ((popSize : ℚ) * mutation)) := by
  unfold constructD at h
  obtain ⟨pc, hpc, h⟩ := Option.bind_eq_some.mp h
  obtain ⟨cc, hcc, h⟩ := Option.bind_eq_some.mp h
  obtain ⟨pm, hpm, h⟩ := Option.bind_eq_some.mp h
  obtain ⟨mc, hmc, h⟩ := Option.bind_eq_some.mp h
  have e1 := count_of_some ((popSize : ℚ) * crossover) cc (by rw [hpc]; exact hcc)
  have e2 := count_of_some ((popSize : ℚ) * mutation) mc (by rw [hpm]; exact hmc)
  obtain ⟨f1, f2⟩ := constructD_loop_fields popSize cc mc img roi minSqDiff seed ga h
  rw [f1, f2, e1, e2]
  exact ⟨rfl, rfl⟩

theorem constructD_total (popSize : Int) (crossover mutation : ℚ) (img roi : Mat)
    (minSqDiff : Nat → Nat → ℚ) (seed : RNG)
    (hc1 : -2147483648 ≤ Int.floor (roundDouble ((popSize : ℚ) * crossover)))
    (hc2 : Int.floor (roundDouble ((popSize : ℚ) * crossover)) ≤ 2147483647)
    (hm1 : -2147483648 ≤ Int.floor (roundDouble ((popSize : ℚ) * mutation)))
    (hm2 : Int.floor (roundDouble ((popSize : ℚ) * mutation)) ≤ 2147483647)
    (hmatch : FiniteFitness minSqDiff) :
    ∃ ga, constructD popSize crossover mutation img roi minSqDiff seed = some ga ∧
      ga.populationSize = popSize ∧ ga.population.length = popSize.toNat := by
  obtain ⟨ga, hrun, hps, hlen, -, -⟩ := constructD_loop_total popSize
    (Int.floor (roundDouble ((popSize : ℚ) * crossover)))
    (Int.floor (roundDouble ((popSize : ℚ) * mutation))) img roi minSqDiff seed hmatch
  refine ⟨ga, ?_, hps, hlen⟩
  have e1 := count_eq _ hc1 hc2
  have e2 := count_eq _ hm1 hm2
  obtain ⟨pc, hpc, hcc⟩ := Option.bind_eq_some.mp e1
  obtain ⟨pm, hpm, hmc⟩ := Option.bind_eq_some.mp e2
  unfold constructD
  rw [hpc, Option.some_bind, hcc, Option.some_bind, hpm, Option.some_bind, hmc,
    Option.some_bind]
  exact hrun

theorem floor_roundDouble_range (q : ℚ) (h : |q| ≤ 2 ^ 29) :
    -2147483648 ≤ Int.floor (roundDouble q) ∧ Int.floor (roundDouble q) ≤ 2147483647 := by
  have hr := abs_roundDouble_le q
  have hb : |roundDouble q| ≤ 2 ^ 30 + 1 := by
    have : (2 : ℚ) * 2 ^ 29 + 1 = 2 ^ 30 + 1 := by norm_num
    linarith
  obtain ⟨b1, b2⟩ := abs_le.mp hb
  constructor
  · apply Int.le_floor.mpr
    push_cast
    have : (-2147483648 : ℚ) ≤ -(2 ^ 30 + 1) := by norm_num
    linarith
  · have : Int.floor (roundDouble q) < 2147483648 := by
      apply Int.floor_lt.mpr
      push_cast
      have : (2 : ℚ) ^ 30 + 1 < 2147483648 := by norm_num
      linarith
    omega

theorem finiteFitness_example : FiniteFitness (fun x y => (x : ℚ) + (y : ℚ) + 1) := by
  intro x y
  show (x : ℚ) + (y : ℚ) + 1 ≠ 0 ∧ |roundDouble (1 / ((x : ℚ) + (y : ℚ) + 1))| < 2 ^ 1024
  have h1 : (1 : ℚ) ≤ (x : ℚ) + (y : ℚ) + 1 := by
    have : (0 : ℚ) ≤ (x : ℚ) := Nat.cast_nonneg _
    have : (0 : ℚ) ≤ (y : ℚ) := Nat.cast_nonneg _
    linarith
  refine ⟨by linarith, ?_⟩
  have hr := abs_roundDouble_le (1 / ((x : ℚ) + (y : ℚ) + 1))
  have h2 : |1 / ((x : ℚ) + (y : ℚ) + 1)| ≤ 1 := by
    rw [abs_of_nonneg (by positivity), div_le_one (by linarith)]
    exact h1
  have : (2 : ℚ) * 1 + 1 < 2 ^ 1024 := by norm_num
  linarith

/-! ## The counts that `main` requests through the sliders -/

theorem slider_product_upper (e n k rate p P c : ℚ) (he0 : 0 ≤ e)
    (hP : 0 ≤ P) (hc : 0 ≤ c)
    (k2 : k ≤ 1 / 100 * (1 + e) + n) (r2 : rate ≤ k * c * (1 + e) + n)
    (p2 : p ≤ P * rate * (1 + e) + n) :
    p ≤ (1 / 100 * (1 + e) + n) * (1 + e) ^ 2 * (P * c) + (1 + e) * n * P + n := by
  have t1 : k * c ≤ (1 / 100 * (1 + e) + n) * c := mul_le_mul_of_nonneg_right k2 hc
  have t2 : k * c * (1 + e) ≤ (1 / 100 * (1 + e) + n) * c * (1 + e) :=
    mul_le_mul_of_nonneg_right t1 (by linarith)
  have t3 : P * rate ≤ P * ((1 / 100 * (1 + e) + n) * c * (1 + e) + n) :=
    mul_le_mul_of_nonneg_left (by linarith) hP
  have t4 : P * rate * (1 + e) ≤ P * ((1 / 100 * (1 + e) + n) * c * (1 + e) + n) * (1 + e) :=
    mul_le_mul_of_nonneg_right t3 (by linarith)
  have e1 : P * ((1 / 100 * (1 + e) + n) * c * (1 + e) + n) * (1 + e) =
      (1 / 100 * (1 + e) + n) * (1 + e) ^ 2 * (P * c) + (1 + e) * n * P := by ring
  linarith

theorem slider_product_lower (e n k rate p P c : ℚ) (he1 : e ≤ 1)
    (hP : 0 ≤ P) (hc : 0 ≤ c)
    (k1 : 1 / 100 * (1 - e) - n ≤ k) (r1 : k * c * (1 - e) - n ≤ rate)
    (p1 : P * rate * (1 - e) - n ≤ p) :
    (1 / 100 * (1 - e) - n) * (1 - e) ^ 2 * (P * c) - (1 - e) * n * P - n ≤ p := by
  have t1 : (1 / 100 * (1 - e) - n) * c ≤ k * c := mul_le_mul_of_nonneg_right k1 hc
  have t2 : (1 / 100 * (1 - e) - n) * c * (1 - e) ≤ k * c * (1 - e) :=
    mul_le_mul_of_nonneg_right t1 (by linarith)
  have t3 : P * ((1 / 100 * (1 - e) - n) * c * (1 - e) - n) ≤ P * rate :=
    mul_le_mul_of_nonneg_left (by linarith) hP
  have t4 : P * ((1 / 100 * (1 - e) - n) * c * (1 - e) - n) * (1 - e) ≤ P * rate * (1 - e) :=
    mul_le_mul_of_nonneg_right t3 (by linarith)
  have e1 : P * ((1 / 100 * (1 - e) - n) * c * (1 - e) - n) * (1 - e) =
      (1 / 100 * (1 - e) - n) * (1 - e) ^ 2 * (P * c) - (1 - e) * n * P := by ring
  linarith

/-- The rounded product `populationSize * (0.01 * value)` is within `2 ^ (-18)` of
the exact `populationSize * value / 100`. -/
theorem slider_product (P c : Int) (hP0 : 0 ≤ P) (hP : P < 2 ^ 31) (hc0 : 0 ≤ c)
    (hc : c ≤ 100) :
    0 ≤ roundDouble ((P : ℚ) * sliderRateD c) ∧
    (P : ℚ) * c / 100 - 1 / 2 ^ 18 ≤ roundDouble ((P : ℚ) * sliderRateD c) ∧
    roundDouble ((P : ℚ) * sliderRateD c) ≤ (P : ℚ) * c / 100 + 1 / 2 ^ 18 := by
  have hPq : (0 : ℚ) ≤ P := by exact_mod_cast hP0
  have hPq2 : (P : ℚ) ≤ 2 ^ 31 := by exact_mod_cast le_of_lt hP
  have hcq : (0 : ℚ) ≤ c := by exact_mod_cast hc0
  have hcq2 : (c : ℚ) ≤ 100 := by exact_mod_cast hc
  obtain ⟨k1, k2⟩ := roundDouble_error (1 / 100) (by norm_num)
  have hk0 := roundDouble_nonneg (1 / 100) (by norm_num)
  obtain ⟨r1, r2⟩ := roundDouble_error (roundDouble (1 / 100) * (c : ℚ)) (mul_nonneg hk0 hcq)
  have hr0 := roundDouble_nonneg (roundDouble (1 / 100) * (c : ℚ)) (mul_nonneg hk0 hcq)
  have hrate : sliderRateD c = roundDouble (roundDouble (1 / 100) * (c : ℚ)) := rfl
  rw [hrate]
  obtain ⟨p1, p2⟩ := roundDouble_error
    ((P : ℚ) * roundDouble (roundDouble (1 / 100) * (c : ℚ))) (mul_nonneg hPq hr0)
  have up := slider_product_upper (1 / 2 ^ 53) (1 / 2 ^ 1075) _ _ _ (P : ℚ) (c : ℚ)
    (by norm_num) hPq hcq k2 r2 p2
  have lo := slider_product_lower (1 / 2 ^ 53) (1 / 2 ^ 1075) _ _ _ (P : ℚ) (c : ℚ)
    (by norm_num) hPq hcq k1 r1 p1
  have hN0 : (0 : ℚ) ≤ (P : ℚ) * c := mul_nonneg hPq hcq
  have hN : (P : ℚ) * c ≤ 2 ^ 31 * 100 := mul_le_mul hPq2 hcq2 hcq (by norm_num)
  refine ⟨roundDouble_nonneg _ (mul_nonneg hPq hr0), ?_, ?_⟩
  · have c1 : (1 : ℚ) / 100 - 1 / 2 ^ 57 ≤
        (1 / 100 * (1 - 1 / 2 ^ 53) - 1 / 2 ^ 1075) * (1 - 1 / 2 ^ 53) ^ 2 := by norm_num
    have c2 : ((1 : ℚ) - 1 / 2 ^ 53) * (1 / 2 ^ 1075) ≤ 1 / 2 ^ 1000 := by norm_num
    have t1 : ((1 : ℚ) / 100 - 1 / 2 ^ 57) * ((P : ℚ) * c) ≤
        (1 / 100 * (1 - 1 / 2 ^ 53) - 1 / 2 ^ 1075) * (1 - 1 / 2 ^ 53) ^ 2 * ((P : ℚ) * c) :=
      mul_le_mul_of_nonneg_right c1 hN0
    have t2 : ((1 : ℚ) - 1 / 2 ^ 53) * (1 / 2 ^ 1075) * (P : ℚ) ≤ 1 / 2 ^ 1000 * 2 ^ 31 :=
      mul_le_mul c2 hPq2 hPq (by positivity)
    have t3 : (1 : ℚ) / 2 ^ 57 * ((P : ℚ) * c) ≤ 1 / 2 ^ 57 * (2 ^ 31 * 100) :=
      mul_le_mul_of_nonneg_left hN (by positivity)
    have t4 : (1 : ℚ) / 2 ^ 57 * (2 ^ 31 * 100) + 1 / 2 ^ 1000 * 2 ^ 31 + 1 / 2 ^ 1075 ≤
        1 / 2 ^ 18 := by norm_num
    linarith
  · have c1 : ((1 : ℚ) / 100 * (1 + 1 / 2 ^ 53) + 1 / 2 ^ 1075) * (1 + 1 / 2 ^ 53) ^ 2 ≤
        1 / 100 + 1 / 2 ^ 57 := by norm_num
    have c2 : ((1 : ℚ) + 1 / 2 ^ 53) * (1 / 2 ^ 1075) ≤ 1 / 2 ^ 1000 := by norm_num
    have t1 : ((1 : ℚ) / 100 * (1 + 1 / 2 ^ 53) + 1 / 2 ^ 1075) * (1 + 1 / 2 ^ 53) ^ 2 *
        ((P : ℚ) * c) ≤ (1 / 100 + 1 / 2 ^ 57) * ((P : ℚ) * c) :=
      mul_le_mul_of_nonneg_right c1 hN0
    have t2 : ((1 : ℚ) + 1 / 2 ^ 53) * (1 / 2 ^ 1075) * (P : ℚ) ≤ 1 / 2 ^ 1000 * 2 ^ 31 :=
      mul_le_mul c2 hPq2 hPq (by positivity)
    have t3 : (1 : ℚ) / 2 ^ 57 * ((P : ℚ) * c) ≤ 1 / 2 ^ 57 * (2 ^ 31 * 100) :=
      mul_le_mul_of_nonneg_left hN (by positivity)
    have t4 : (1 : ℚ) / 2 ^ 57 * (2 ^ 31 * 100) + 1 / 2 ^ 1000 * 2 ^ 31 + 1 / 2 ^ 1075 ≤
        1 / 2 ^ 18 := by norm_num
    linarith

/-- A value within `2 ^ (-18)` of `N / 100` has the floor of `N / 100`, unless
`N / 100` is whole, when its floor may be one less. -/
theorem floor_near_hundredth (N : Int) (p : ℚ) (h1 : (N : ℚ) / 100 - 1 / 2 ^ 18 ≤ p)
    (h2 : p ≤ (N : ℚ) / 100 + 1 / 2 ^ 18) :
    Int.floor ((N : ℚ) / 100) = N / 100 ∧
    (Int.floor p = N / 100 ∨ (100 ∣ N ∧ Int.floor p = N / 100 - 1)) := by
  have hdiv : N = 100 * (N / 100) + N % 100 := (Int.ediv_add_emod N 100).symm
  have hr0 : 0 ≤ N % 100 := Int.emod_nonneg N (by norm_num)
  have hr1 : N % 100 < 100 := Int.emod_lt_of_pos N (by norm_num)
  have hq : (N : ℚ) / 100 = ((N / 100 : Int) : ℚ) + ((N % 100 : Int) : ℚ) / 100 := by
    have : (N : ℚ) = 100 * ((N / 100 : Int) : ℚ) + ((N % 100 : Int) : ℚ) := by
      exact_mod_cast hdiv
    rw [div_eq_iff (by norm_num)]
    linarith
  have hr0q : (0 : ℚ) ≤ ((N % 100 : Int) : ℚ) := by exact_mod_cast hr0
  have hr1q : ((N % 100 : Int) : ℚ) ≤ 99 := by
    have : N % 100 ≤ 99 := by omega
    exact_mod_cast this
  have small : (1 : ℚ) / 2 ^ 18 < 1 / 100 := by norm_num
  constructor
  · rw [Int.floor_eq_iff, hq]
    constructor <;> linarith
  · rcases eq_or_lt_of_le hr0 with hz | hpos
    · have hdvd : (100 : Int) ∣ N := Int.dvd_of_emod_eq_zero hz.symm
      rw [← hz] at hq
      rcases le_or_lt ((N / 100 : Int) : ℚ) p with hp | hp
      · left
        rw [Int.floor_eq_iff]
        constructor
        · exact hp
        · rw [hq] at h2
          push_cast at h2
          linarith
      · right
        refine ⟨hdvd, ?_⟩
        rw [Int.floor_eq_iff]
        rw [hq] at h1
        push_cast at h1 ⊢
        constructor <;> linarith
    · left
      have hr2q : (1 : ℚ) ≤ ((N % 100 : Int) : ℚ) := by
        have : 1 ≤ N % 100 := by omega
        exact_mod_cast this
      rw [Int.floor_eq_iff]
      rw [hq] at h1 h2
      constructor <;> linarith

theorem slider_count (P c : Int) (hP0 : 0 ≤ P) (hP : P < 2 ^ 31) (hc0 : 0 ≤ c)
    (hc : c ≤ 100) :
    (Int.floor (roundDouble ((P : ℚ) * sliderRateD c)) = Int.floor ((P : ℚ) * c / 100) ∨
      (100 ∣ P * c ∧
        Int.floor (roundDouble ((P : ℚ) * sliderRateD c)) =
          Int.floor ((P : ℚ) * c / 100) - 1)) ∧
    0 ≤ Int.floor (roundDouble ((P : ℚ) * sliderRateD c)) ∧
    Int.floor (roundDouble ((P : ℚ) * sliderRateD c)) ≤ P := by
  obtain ⟨s0, s1, s2⟩ := slider_product P c hP0 hP hc0 hc
  have e : ((P * c : Int) : ℚ) = (P : ℚ) * c := by push_cast; ring
  obtain ⟨f1, f2⟩ := floor_near_hundredth (P * c) (roundDouble ((P : ℚ) * sliderRateD c))
    (by rw [e]; exact s1) (by rw [e]; exact s2)
  rw [e] at f1
  have hle : P * c / 100 ≤ P := by
    have : P * c ≤ P * 100 := Int.mul_le_mul_of_nonneg_left hc hP0
    have : P * c / 100 ≤ P * 100 / 100 := Int.ediv_le_ediv (by norm_num) this
    rw [Int.mul_ediv_cancel _ (by norm_num)] at this
    exact this
  refine ⟨?_, Int.floor_nonneg.mpr s0, ?_⟩
  · rw [f1]
    exact f2
  · rcases f2 with h | ⟨-, h⟩
    · rw [h]
      exact hle
    · rw [h]
      omega

theorem roundDouble_hundredth :
    roundDouble (1 / 100) = 5764607523034235 / 576460752303423488 := by
  apply roundDouble_eq_of _ _ (-7) 5764607523034235 <;> norm_num

theorem sliderRateD_twenty_nine :
    sliderRateD 29 = 5224175567749775 / 18014398509481984 := by
  unfold sliderRateD
  rw [roundDouble_hundredth]
  apply roundDouble_eq_of _ _ (-2) 5224175567749775 <;> norm_num

theorem floor_product_twenty_nine :
    Int.floor (roundDouble (((100 : Int) : ℚ) * sliderRateD 29)) = 28 := by
  have h : roundDouble (((100 : Int) : ℚ) * sliderRateD 29) =
      8162774324609023 / 281474976710656 := by
    rw [sliderRateD_twenty_nine]
    apply roundDouble_eq_of _ _ 4 8162774324609023 <;> norm_num
  rw [h, Int.floor_eq_iff]
  norm_num

/-- C15 (as stated) fails: with the population size 100 and the cross-over
slider at 29, the rate `0.01 * 29` is a `double` just below 0.29, and the
product `100 * (0.01 * 29)` rounds to the `double` just below 29; the
constructor completes and sets `crossoverCount = 28`, whereas
`floor(100 * 29 / 100) = 29`. -/
theorem constructD_slider_twenty_nine :
    sliderRateD 29 = 5224175567749775 / 18014398509481984 ∧
    Int.floor (((100 : Int) : ℚ) * ((29 : Int) : ℚ) / 100) = 29 ∧
    ∃ ga, constructD 100 (sliderRateD 29) (sliderRateD 3) ⟨100, 80⟩ ⟨10, 10⟩
        (fun x y => (x : ℚ) + (y : ℚ) + 1) ⟨fun k => 7 * k + 3, 0⟩ = some ga ∧
      ga.crossoverCount = 28 := by
  refine ⟨sliderRateD_twenty_nine, by rw [Int.floor_eq_iff]; norm_num, ?_⟩
  obtain ⟨-, c0, c1⟩ := slider_count 100 29 (by norm_num) (by norm_num) (by norm_num)
    (by norm_num)
  obtain ⟨-, m0, m1⟩ := slider_count 100 3 (by norm_num) (by norm_num) (by norm_num)
    (by norm_num)
  obtain ⟨ga, hga, -⟩ := constructD_total 100 (sliderRateD 29) (sliderRateD 3) ⟨100, 80⟩
    ⟨10, 10⟩ (fun x y => (x : ℚ) + (y : ℚ) + 1) ⟨fun k => 7 * k + 3, 0⟩
    (by omega) (by omega) (by omega) (by omega) finiteFitness_example
  refine ⟨ga, hga, ?_⟩
  rw [(constructD_fields _ _ _ _ _ _ _ ga hga).1]
  exact floor_product_twenty_nine

/-- C15 (amended). Cross-over and mutation counts in `double` arithmetic: when
`main` constructs the engine from the slider values `c` and `m` in `0..100`
(rates the rounded products `0.01 * c` and `0.01 * m`) and a population size
`0 <= popSize < 2 ^ 31`, a constructor call that completes has set
`crossoverCount` to the floor of the rounded product `popSize * (0.01 * c)`,
which is `floor(popSize * c / 100)` or, only when `popSize * c / 100` is a whole
number, possibly one less; the same holds of `mutationCount` and `m`; both
counts lie in `[0, popSize]`; and the call completes when no location matches
the template perfectly and every fitness is finite. -/
theorem constructD_slider_counts (popSize c m : Int) (img roi : Mat)
    (minSqDiff : Nat → Nat → ℚ) (seed : RNG) (hp : 0 ≤ popSize) (hp31 : popSize < 2 ^ 31)
    (hc0 : 0 ≤ c) (hc100 : c ≤ 100) (hm0 : 0 ≤ m) (hm100 : m ≤ 100) :
    (∀ ga, constructD popSize (sliderRateD c) (sliderRateD m) img roi minSqDiff seed = some ga →
      ga.crossoverCount = Int.floor (roundDouble ((popSize : ℚ) * sliderRateD c)) ∧
      ga.mutationCount = Int.floor (roundDouble ((popSize : ℚ) * sliderRateD m)) ∧
      (ga.crossoverCount = Int.floor ((popSize : ℚ) * c / 100) ∨
        (100 ∣ popSize * c ∧
          ga.crossoverCount = Int.floor ((popSize : ℚ) * c / 100) - 1)) ∧
      (ga.mutationCount = Int.floor ((popSize : ℚ) * m / 100) ∨
        (100 ∣ popSize * m ∧
          ga.mutationCount = Int.floor ((popSize : ℚ) * m / 100) - 1)) ∧
      0 ≤ ga.crossoverCount ∧ ga.crossoverCount ≤ popSize ∧
      0 ≤ ga.mutationCount ∧ ga.mutationCount ≤ popSize) ∧
    (FiniteFitness minSqDiff →
      ∃ ga, constructD popSize (sliderRateD c) (sliderRateD m) img roi minSqDiff seed =
        some ga) := by
  obtain ⟨c1, c2, c3⟩ := slider_count popSize c hp hp31 hc0 hc100
  obtain ⟨m1, m2, m3⟩ := slider_count popSize m hp hp31 hm0 hm100
  constructor
  · intro ga h
    obtain ⟨ec, em⟩ :=
      constructD_fields popSize (sliderRateD c) (sliderRateD m) img roi minSqDiff seed ga h
    rw [ec, em]
    exact ⟨rfl, rfl, c1, m1, c2, c3, m2, m3⟩
  · intro hmatch
    obtain ⟨ga, h, -⟩ := constructD_total popSize (sliderRateD c) (sliderRateD m) img roi
      minSqDiff seed (by omega) (by omega) (by omega) (by omega) hmatch
    exact ⟨ga, h⟩

theorem constructD_slider_counts_witness :
    ∃ ga, constructD 100 (sliderRateD 40) (sliderRateD 3) ⟨100, 80⟩ ⟨10, 10⟩
        (fun x y => (x : ℚ) + (y : ℚ) + 1) ⟨fun k => 7 * k + 3, 0⟩ = some ga ∧
      ga.crossoverCount = Int.floor (roundDouble (((100 : Int) : ℚ) * sliderRateD 40)) ∧
      ga.mutationCount = Int.floor (roundDouble (((100 : Int) : ℚ) * sliderRateD 3)) ∧
      (ga.crossoverCount = Int.floor (((100 : Int) : ℚ) * ((40 : Int) : ℚ) / 100) ∨
        ((100 : Int) ∣ 100 * 40 ∧
          ga.crossoverCount = Int.floor (((100 : Int) : ℚ) * ((40 : Int) : ℚ) / 100) - 1)) ∧
      (ga.mutationCount = Int.floor (((100 : Int) : ℚ) * ((3 : Int) : ℚ) / 100) ∨
        ((100 : Int) ∣ 100 * 3 ∧
          ga.mutationCount = Int.floor (((100 : Int) : ℚ) * ((3 : Int) : ℚ) / 100) - 1)) ∧
      0 ≤ ga.crossoverCount ∧ ga.crossoverCount ≤ 100 ∧
      0 ≤ ga.mutationCount ∧ ga.mutationCount ≤ 100 := by
  have h := constructD_slider_counts 100 40 3 ⟨100, 80⟩ ⟨10, 10⟩
    (fun x y => (x : ℚ) + (y : ℚ) + 1) ⟨fun k => 7 * k + 3, 0⟩ (by decide) (by decide)
    (by decide) (by decide) (by decide) (by decide)
  obtain ⟨ga, hga⟩ := h.2 finiteFitness_example
  exact ⟨ga, hga, h.1 ga hga⟩

/-! ## The constructor's parameters -/

/-- C13 (as stated) fails: the constructor completes and yields an engine for
`popSize = 0`, for a cross-over rate of 2 and a mutation rate of -1, and for a
200 x 200 template on a 100 x 80 image. -/
theorem constructD_without_validation :
    (∃ ga, constructD 0 (1 / 2) (1 / 2) ⟨100, 80⟩ ⟨10, 10⟩ (fun x y => (x : ℚ) + (y : ℚ) + 1)
      ⟨fun k => 7 * k + 3, 0⟩ = some ga) ∧
    (∃ ga, constructD 2 2 (-1) ⟨100, 80⟩ ⟨10, 10⟩ (fun x y => (x : ℚ) + (y : ℚ) + 1)
      ⟨fun k => 7 * k + 3, 0⟩ = some ga) ∧
    (∃ ga, constructD 2 (1 / 2) (1 / 2) ⟨100, 80⟩ ⟨200, 200⟩
      (fun x y => (x : ℚ) + (y : ℚ) + 1) ⟨fun k => 7 * k + 3, 0⟩ = some ga) := by
  have r1 := floor_roundDouble_range (((0 : Int) : ℚ) * (1 / 2))
    (by rw [abs_le]; constructor <;> norm_num)
  have r2 := floor_roundDouble_range (((2 : Int) : ℚ) * 2)
    (by rw [abs_le]; constructor <;> norm_num)
  have r3 := floor_roundDouble_range (((2 : Int) : ℚ) * (-1))
    (by rw [abs_le]; constructor <;> norm_num)
  have r4 := floor_roundDouble_range (((2 : Int) : ℚ) * (1 / 2))
    (by rw [abs_le]; constructor <;> norm_num)
  refine ⟨?_, ?_, ?_⟩
  · obtain ⟨ga, h, -⟩ := constructD_total 0 (1 / 2) (1 / 2) ⟨100, 80⟩ ⟨10, 10⟩
      (fun x y => (x : ℚ) + (y : ℚ) + 1) ⟨fun k => 7 * k + 3, 0⟩ r1.1 r1.2 r1.1 r1.2
      finiteFitness_example
    exact ⟨ga, h⟩
  · obtain ⟨ga, h, -⟩ := constructD_total 2 2 (-1) ⟨100, 80⟩ ⟨10, 10⟩
      (fun x y => (x : ℚ) + (y : ℚ) + 1) ⟨fun k => 7 * k + 3, 0⟩ r2.1 r2.2 r3.1 r3.2
      finiteFitness_example
    exact ⟨ga, h⟩
  · obtain ⟨ga, h, -⟩ := constructD_total 2 (1 / 2) (1 / 2) ⟨100, 80⟩ ⟨200, 200⟩
      (fun x y => (x : ℚ) + (y : ℚ) + 1) ⟨fun k => 7 * k + 3, 0⟩ r4.1 r4.2 r4.1 r4.2
      finiteFitness_example
    exact ⟨ga, h⟩

/-- C13 (amended). The constructor does not validate its parameters: for every
`popSize` (also zero or negative), every cross-over and mutation rate (also
outside `[0,1]`) whose rounded product with `popSize` has a floor in the range of
`int`, and every image and template size (also a template larger than the
image), it completes without reporting an error, as long as no location is a
perfect match and every fitness is finite, and yields an engine with
`populationSize = popSize` and `max(popSize, 0)` genes. -/
theorem constructD_accepts_all (popSize : Int) (crossover mutation : ℚ) (img roi : Mat)
    (minSqDiff : Nat → Nat → ℚ) (seed : RNG)
    (hc : -2147483648 ≤ Int.floor (roundDouble ((popSize : ℚ) * crossover)) ∧
      Int.floor (roundDouble ((popSize : ℚ) * crossover)) ≤ 2147483647)
    (hm : -2147483648 ≤ Int.floor (roundDouble ((popSize : ℚ) * mutation)) ∧
      Int.floor (roundDouble ((popSize : ℚ) * mutation)) ≤ 2147483647)
    (hmatch : FiniteFitness minSqDiff) :
    ∃ ga, constructD popSize crossover mutation img roi minSqDiff seed = some ga ∧
      ga.populationSize = popSize ∧ ga.population.length = popSize.toNat :=
  constructD_total popSize crossover mutation img roi minSqDiff seed hc.1 hc.2 hm.1 hm.2 hmatch

theorem constructD_accepts_all_witness :
    ∃ ga, constructD (-3) 2 (-1) ⟨100, 80⟩ ⟨200, 200⟩ (fun x y => (x : ℚ) + (y : ℚ) + 1)
        ⟨fun k => 7 * k + 3, 0⟩ = some ga ∧
      ga.populationSize = -3 ∧ ga.population.length = (-3 : Int).toNat :=
  constructD_accepts_all (-3) 2 (-1) ⟨100, 80⟩ ⟨200, 200⟩ (fun x y => (x : ℚ) + (y : ℚ) + 1)
    ⟨fun k => 7 * k + 3, 0⟩
    (floor_roundDouble_range _ (by rw [abs_le]; constructor <;> norm_num))
    (floor_roundDouble_range _ (by rw [abs_le]; constructor <;> norm_num))
    finiteFitness_example

end GA
